import Mathlib

/-!
# Keyframe model of kdenlive (`src/assets/keyframes/model/keyframemodel.cpp`)

A shallow embedding of the `KeyframeModel` class: the time-ordered keyframe
map, the closures used for undo/redo, the mutation operations built on them,
and the queries (exact, next, previous, closest and interpolated lookups).
Member functions become functions on an explicit model state; the closures of
type `Fun` become state transformers returning their `bool`.

`std::map<GenTime, std::pair<KeyframeType, QVariant>>` is a list of entries
with strictly ascending keys.  `Q_ASSERT` is kept: whether it is compiled in
is a field of the build environment, and a failed assertion ends the run
(`none`).  Locks and `qDebug` output have no effect on the state and are left
out.
-/

namespace Kdenlive

/-! ## Data model -/

/-- Modelled from the spec: `GenTime` (declared outside the tree) is an exact,
totally ordered time value that can be negative; it is represented by its
frame count at the project frame rate, so `GenTime(frame, fps)` and
`frames(fps)` are the identity and `GenTime()` is `0`. -/
abbrev GenTime := Int

/-- The three interpolation types of `KeyframeType`. -/
inductive KeyframeType where
  | Linear
  | Discrete
  | Curve
  deriving DecidableEq, Repr

/-- The payload of a `QVariant` as far as the keyframe model stores it:
nothing (`QVariant()`), a `double` (taken as an exact rational), or a string
(rectangles and spline data are kept as text).  The comparison
`QVariant::operator==` is Qt's and is not the equality of payloads; it is the
`variantEq` of the environment below. -/
inductive QVariant where
  | invalid
  | real (x : ℚ)
  | text (s : String)
  deriving DecidableEq

/-- The parameter kinds the keyframe model distinguishes; `Other` stands for
every remaining enumerator of `ParamType`. -/
inductive ParamType where
  | KeyframeParam
  | AnimatedRect
  | Roto_spline
  | Other
  deriving DecidableEq, Repr

/-- The roles the model reads from the owning `AssetParameterModel`
(`MinRole`, `MaxRole`, `FactorRole`, `DefaultRole`, `ScaleRole`,
`ParentInRole`, `ParentDurationRole`). -/
structure AssetParameterModel where
  min : ℚ
  max : ℚ
  factor : ℚ
  norm : ℚ
  logRole : Int
  parentIn : Int
  parentDuration : Int

/-- What the source leaves to the build and to declarations outside the tree.
`qtDebug`: `Q_ASSERT` is compiled in.  `zeroType`: the value-initialised
`KeyframeType` that `operator[]` stores for a missing key.  `pow`: the C
library power function on the modelled reals.  `uninit`: the content of a
`double` that is read before it is written.  `strToDouble`: `toDouble` of a
string variant.  `removeNotify`, `updateNotify`: the default arguments of
`removeKeyframe(pos, undo, redo, notify)` and
`updateKeyframe(pos, value, undo, redo, update)`.  `variantEq a b`: Qt's
`QVariant::operator==`, the result of `a == b`. -/
structure Env where
  qtDebug : Bool
  zeroType : KeyframeType
  pow : ℚ → ℚ → ℚ
  uninit : ℚ
  strToDouble : String → ℚ
  removeNotify : Bool
  updateNotify : Bool
  variantEq : QVariant → QVariant → Bool

/-- One element of `m_keyframeList`: key, then `(type, value)`. -/
abbrev Entry := GenTime × (KeyframeType × QVariant)

/-- The content of `m_keyframeList`, in iteration order. -/
abbrev KeyframeList := List Entry

/-- Row-range notifications of `QAbstractListModel` that the model emits. -/
inductive Signal where
  | dataChanged (first last : Int)
  | beginInsertRows (first last : Int)
  | endInsertRows
  | beginRemoveRows (first last : Int)
  | endRemoveRows
  deriving DecidableEq, Repr

/-- The state of a `KeyframeModel` object: the keyframe map, the parameter
type, the result of `m_model.lock()` and the notifications emitted so far. -/
structure KeyframeModel where
  m_keyframeList : KeyframeList
  m_paramType : ParamType
  m_model : Option AssetParameterModel
  emitted : List Signal

/-- A closure `std::function<bool()>` over the model: it may change the model
and returns its `bool`; `none` is a failed assertion. -/
abbrev Fun := KeyframeModel → Option (Bool × KeyframeModel)

/-- A command handed to the undo stack. -/
structure UndoCommand where
  undo : Fun
  redo : Fun
  text : String

/-- Result of a member function that takes `Fun &undo, Fun &redo`: the
returned `bool`, the two closures as they are on return, and the model. -/
structure Step where
  res : Bool
  undo : Fun
  redo : Fun
  model : KeyframeModel

/-- Result of a member function that commits its own transaction: the
returned `bool`, the model, and the commands pushed on the undo stack. -/
structure Done where
  res : Bool
  model : KeyframeModel
  pushed : List UndoCommand

/-! ## The ordered map -/

namespace KeyframeList

/-- Keys strictly ascending: the representation invariant of `std::map`. -/
def WF (l : KeyframeList) : Prop := l.Pairwise (fun a b => a.1 < b.1)

instance (l : KeyframeList) : Decidable (WF l) := by
  unfold WF; infer_instance

/-- Lookup `find(pos)` / `at(pos)`: the `(type, value)` stored at `pos`. -/
def at? : KeyframeList → GenTime → Option (KeyframeType × QVariant)
  | [], _ => none
  | (k, v) :: r, pos => if k = pos then some v else at? r pos

/-- Test `count(pos) > 0`. -/
def hasKey (l : KeyframeList) (pos : GenTime) : Bool := (l.at? pos).isSome

/-- Assignment `m[pos] = v`: overwrite the entry at `pos`, or insert it at
its place in the key order. -/
def assign : KeyframeList → GenTime → KeyframeType × QVariant → KeyframeList
  | [], pos, v => [(pos, v)]
  | (k, w) :: r, pos, v =>
    if pos < k then (pos, v) :: (k, w) :: r
    else if pos = k then (pos, v) :: r
    else (k, w) :: assign r pos v

/-- Removal `erase(pos)`. -/
def erase (l : KeyframeList) (pos : GenTime) : KeyframeList :=
  l.filter (fun e => decide (e.1 ≠ pos))

/-- Reading `m[pos]`: the stored pair; a missing key is first inserted with a
value-initialised pair. -/
def subscript (env : Env) (l : KeyframeList) (pos : GenTime) :
    (KeyframeType × QVariant) × KeyframeList :=
  match l.at? pos with
  | some v => (v, l)
  | none => ((env.zeroType, QVariant.invalid), l.assign pos (env.zeroType, QVariant.invalid))

/-- Row `std::distance(begin(), find(pos))`: the index of `pos`, or the size
when `pos` is missing (`find` returns `end()`). -/
def rowOf : KeyframeList → GenTime → Int
  | [], _ => 0
  | (k, _) :: r, pos => if k = pos then 0 else rowOf r pos + 1

/-- Row `std::distance(begin(), lower_bound(pos))`: the number of keys
smaller than `pos` (the size when `lower_bound` returns `end()`). -/
def lowerBoundRow (l : KeyframeList) (pos : GenTime) : Int :=
  ((l.takeWhile (fun e => decide (e.1 < pos))).length : Int)

/-- The keys in iteration order. -/
def keys (l : KeyframeList) : List GenTime := l.map Prod.fst

end KeyframeList

/-! ## Undo/redo plumbing -/

/-- Qt's `Q_ASSERT(cond)`, used throughout the file.  With assertions
compiled in, a false condition ends the run; otherwise the statement does
nothing. -/
def Q_ASSERT (env : Env) (cond : Bool) : Option Unit :=
  if env.qtDebug && !cond then none else some ()

/-- The closure `[]() { return true; }`. -/
def Fun.id : Fun := fun m => some (true, m)

/-- Modelled from the spec: the macro `PUSH_LAMBDA(operation, lambda)` of
`macros.hpp` (outside the tree): `lambda` becomes the closure that runs the
old `lambda` and then, if that succeeded, `operation`. -/
def PUSH_LAMBDA (operation lambda : Fun) : Fun := fun m =>
  match lambda m with
  | none => none
  | some (v, m1) => if v then operation m1 else some (false, m1)

/-- Modelled from the spec: the macro
`UPDATE_UNDO_REDO(operation, reverse, undo, redo)` of `macros.hpp` (outside
the tree), the composer of (forward, inverse) pairs: the new `undo` runs
`reverse` and then the old `undo`; the new `redo` runs the old `redo` and then
`operation`; each reports the conjunction of the two results.  The result is
the pair (new undo, new redo). -/
def UPDATE_UNDO_REDO (operation reverse undo redo : Fun) : Fun × Fun :=
  (fun m =>
    match reverse m with
    | none => none
    | some (v, m1) =>
      match undo m1 with
      | none => none
      | some (u, m2) => some (u && v, m2),
   fun m =>
    match redo m with
    | none => none
    | some (v, m1) =>
      match operation m1 with
      | none => none
      | some (o, m2) => some (o && v, m2))

/-- Modelled from the spec: the macro `PUSH_UNDO(undo, redo, text)` of
`macros.hpp` (outside the tree) registers one transaction on the undo stack;
here it yields the command that is pushed. -/
def PUSH_UNDO (undo redo : Fun) (text : String) : List UndoCommand :=
  [⟨undo, redo, text⟩]

/-- Append a notification to the log of emitted signals. -/
def KeyframeModel.emit (m : KeyframeModel) (s : Signal) : KeyframeModel :=
  { m with emitted := m.emitted ++ [s] }

/-! ## Closures on the keyframe map -/

/-- The closure returned by `KeyframeModel::updateKeyframe_lambda`. -/
def updateKeyframe_lambda (env : Env) (pos : GenTime) (type : KeyframeType) (value : QVariant)
    (notify : Bool) : Fun := fun m => do
  Q_ASSERT env (m.m_keyframeList.hasKey pos)
  let row := m.m_keyframeList.rowOf pos
  let m1 := { m with m_keyframeList := m.m_keyframeList.assign pos (type, value) }
  some (true, if notify then m1.emit (Signal.dataChanged row row) else m1)

/-- The closure returned by `KeyframeModel::addKeyframe_lambda`. -/
def addKeyframe_lambda (env : Env) (pos : GenTime) (type : KeyframeType) (value : QVariant)
    (notify : Bool) : Fun := fun m => do
  Q_ASSERT env (!m.m_keyframeList.hasKey pos)
  let insertionRow := m.m_keyframeList.lowerBoundRow pos
  let m1 := if notify then m.emit (Signal.beginInsertRows insertionRow insertionRow) else m
  let m2 := { m1 with m_keyframeList := m1.m_keyframeList.assign pos (type, value) }
  some (true, if notify then m2.emit Signal.endInsertRows else m2)

/-- The closure returned by `KeyframeModel::deleteKeyframe_lambda`. -/
def deleteKeyframe_lambda (env : Env) (pos : GenTime) (notify : Bool) : Fun := fun m => do
  Q_ASSERT env (m.m_keyframeList.hasKey pos)
  Q_ASSERT env (decide (pos ≠ (0 : GenTime)))
  let row := m.m_keyframeList.rowOf pos
  let m1 := if notify then m.emit (Signal.beginRemoveRows row row) else m
  let m2 := { m1 with m_keyframeList := m1.m_keyframeList.erase pos }
  some (true, if notify then m2.emit Signal.endRemoveRows else m2)

/-! ## Mutations taking `Fun &undo, Fun &redo` -/

/-- The common tail `if (local_redo()) { UPDATE_UNDO_REDO(...); return true; }
return false;` of `addKeyframe` and `removeKeyframe`. -/
def runLocal (local_redo local_undo undo redo : Fun) (m : KeyframeModel) : Option Step :=
  match local_redo m with
  | none => none
  | some (true, m1) =>
    some ⟨true, (UPDATE_UNDO_REDO local_redo local_undo undo redo).1,
      (UPDATE_UNDO_REDO local_redo local_undo undo redo).2, m1⟩
  | some (false, m1) => some ⟨false, undo, redo, m1⟩

/-- `KeyframeModel::addKeyframe(GenTime, KeyframeType, QVariant, bool, Fun &, Fun &)`.
The test `std::pair<KeyframeType, QVariant>({type, value}) ==
m_keyframeList.at(pos)` compares the types and then the values with
`QVariant::operator==`. -/
def addKeyframe_Fun (env : Env) (pos : GenTime) (type : KeyframeType) (value : QVariant)
    (notify : Bool) (undo redo : Fun) (m : KeyframeModel) : Option Step :=
  match m.m_keyframeList.at? pos with
  | some old =>
    if type = old.1 ∧ env.variantEq value old.2 = true then some ⟨true, undo, redo, m⟩
    else
      runLocal (updateKeyframe_lambda env pos type value notify)
        (updateKeyframe_lambda env pos old.1 old.2 notify) undo redo m
  | none =>
    runLocal (addKeyframe_lambda env pos type value notify)
      (deleteKeyframe_lambda env pos notify) undo redo m

/-- `KeyframeModel::removeKeyframe(GenTime, Fun &, Fun &, bool)`. -/
def removeKeyframe_Fun (env : Env) (pos : GenTime) (undo redo : Fun) (notify : Bool)
    (m : KeyframeModel) : Option Step := do
  Q_ASSERT env (m.m_keyframeList.hasKey pos)
  let old := (m.m_keyframeList.subscript env pos).1
  let m1 := { m with m_keyframeList := (m.m_keyframeList.subscript env pos).2 }
  runLocal (deleteKeyframe_lambda env pos notify)
    (addKeyframe_lambda env pos old.1 old.2 notify) undo redo m1

/-- `QVariant::toDouble`. -/
def QVariant.toDouble (env : Env) : QVariant → ℚ
  | QVariant.invalid => 0
  | QVariant.real x => x
  | QVariant.text s => env.strToDouble s

/-- Qt's `qFuzzyCompare(double, double)`. -/
def qFuzzyCompare (p1 p2 : ℚ) : Bool :=
  decide (|p1 - p2| * 1000000000000 ≤ min |p1| |p2|)

/-- `KeyframeModel::updateKeyframe(GenTime, QVariant, Fun &, Fun &, bool)`. -/
def updateKeyframe_Fun (env : Env) (pos : GenTime) (value : QVariant) (undo redo : Fun)
    (update : Bool) (m : KeyframeModel) : Option Step := do
  Q_ASSERT env (m.m_keyframeList.hasKey pos)
  let old := (m.m_keyframeList.subscript env pos).1
  let m1 := { m with m_keyframeList := (m.m_keyframeList.subscript env pos).2 }
  if m1.m_paramType = ParamType.KeyframeParam ∧
      qFuzzyCompare (old.2.toDouble env) (value.toDouble env) = true then
    some ⟨true, undo, redo, m1⟩
  else
    let operation := updateKeyframe_lambda env pos old.1 value update
    let reverse := updateKeyframe_lambda env pos old.1 old.2 update
    match operation m1 with
    | none => none
    | some (true, m2) =>
      some ⟨true, (UPDATE_UNDO_REDO operation reverse undo redo).1,
        (UPDATE_UNDO_REDO operation reverse undo redo).2, m2⟩
    | some (false, m2) => some ⟨false, undo, redo, m2⟩

/-- `KeyframeModel::updateKeyframe(GenTime, QVariant)`. -/
def updateKeyframe (env : Env) (pos : GenTime) (value : QVariant) (m : KeyframeModel) :
    Option Done := do
  Q_ASSERT env (m.m_keyframeList.hasKey pos)
  let s ← updateKeyframe_Fun env pos value Fun.id Fun.id env.updateNotify m
  some ⟨s.res, s.model, if s.res then PUSH_UNDO s.undo s.redo "Update keyframe" else []⟩

/-- The real value computed from a normalized one; the source repeats this
block in `addKeyframe(int, double)`, `moveKeyframe`, `updateKeyframe(int,
double)` and `getNormalizedValue`.  Division is that of the rationals; a zero
`factor`, where the division of `double` yields an infinity or no number, is
outside what this definition describes. -/
def realValue (env : Env) (ptr : AssetParameterModel) (normalizedValue : ℚ) : ℚ :=
  if ptr.logRole = -1 then
    if normalizedValue ≥ 1 / 2 then
      ptr.norm + (2 * (normalizedValue - 1 / 2) * (ptr.max / ptr.factor - ptr.norm))
    else
      ptr.norm - env.pow (2 * (1 / 2 - normalizedValue)) (10 / 6) *
        (ptr.norm - ptr.min / ptr.factor)
  else
    (normalizedValue * (ptr.max - ptr.min) + ptr.min) / ptr.factor

/-- `KeyframeModel::moveKeyframe(GenTime, GenTime, double, Fun &, Fun &)`.
Besides the step it returns the commands pushed by the call of
`updateKeyframe(pos, realValue)` in the branch `oldPos == pos`. -/
def moveKeyframe_Fun (env : Env) (oldPos pos : GenTime) (newVal : ℚ) (undo redo : Fun)
    (m : KeyframeModel) : Option (Step × List UndoCommand) := do
  Q_ASSERT env (m.m_keyframeList.hasKey oldPos)
  if oldPos = pos then
    let value : ℚ :=
      match m.m_model with
      | some ptr => realValue env ptr newVal
      | none => env.uninit
    let d ← updateKeyframe env pos (QVariant.real value) m
    some (⟨d.res, undo, redo, d.model⟩, d.pushed)
  else
    let old := (m.m_keyframeList.subscript env oldPos).1
    let m1 := { m with m_keyframeList := (m.m_keyframeList.subscript env oldPos).2 }
    if m1.m_keyframeList.hasKey pos then some (⟨false, undo, redo, m1⟩, [])
    else
      let r ← removeKeyframe_Fun env oldPos Fun.id Fun.id env.removeNotify m1
      let s ←
        if r.res then
          if newVal > -1 then
            match r.model.m_model with
            | some ptr =>
              addKeyframe_Fun env pos old.1 (QVariant.real (realValue env ptr newVal)) true
                r.undo r.redo r.model
            | none => some r
          else addKeyframe_Fun env pos old.1 old.2 true r.undo r.redo r.model
        else some r
      if s.res then
        some (⟨true, (UPDATE_UNDO_REDO s.redo s.undo undo redo).1,
          (UPDATE_UNDO_REDO s.redo s.undo undo redo).2, s.model⟩, [])
      else
        let u ← s.undo s.model
        Q_ASSERT env u.1
        some (⟨false, undo, redo, u.2⟩, [])

/-- `KeyframeModel::updateKeyframeType(GenTime, int, Fun &, Fun &)`; the
argument is the type already converted by `convertFromMltType`. -/
def updateKeyframeType (env : Env) (pos : GenTime) (newType : KeyframeType) (undo redo : Fun)
    (m : KeyframeModel) : Option Step := do
  Q_ASSERT env (m.m_keyframeList.hasKey pos)
  let old := (m.m_keyframeList.subscript env pos).1
  let m1 := { m with m_keyframeList := (m.m_keyframeList.subscript env pos).2 }
  if m1.m_paramType = ParamType.KeyframeParam ∧ old.1 = newType then
    some ⟨true, undo, redo, m1⟩
  else
    let operation := updateKeyframe_lambda env pos newType old.2 true
    let reverse := updateKeyframe_lambda env pos old.1 old.2 true
    match operation m1 with
    | none => none
    | some (true, m2) =>
      some ⟨true, (UPDATE_UNDO_REDO operation reverse undo redo).1,
        (UPDATE_UNDO_REDO operation reverse undo redo).2, m2⟩
    | some (false, m2) => some ⟨false, undo, redo, m2⟩

/-- The loop `for (const auto &p : all_pos) { res = removeKeyframe(p,
local_undo, local_redo, false); if (!res) { bool undone = local_undo();
Q_ASSERT(undone); return false; } }` shared by `removeAllKeyframes` and
`removeNextKeyframes`.  The `bool` is `false` when the loop left the function
by `return false`. -/
def removeEach (env : Env) : List GenTime → Fun → Fun → KeyframeModel → Option Step
  | [], local_undo, local_redo, m => some ⟨true, local_undo, local_redo, m⟩
  | p :: ps, local_undo, local_redo, m =>
    match removeKeyframe_Fun env p local_undo local_redo false m with
    | none => none
    | some r =>
      if r.res then removeEach env ps r.undo r.redo r.model
      else
        match r.undo r.model with
        | none => none
        | some (undone, m1) =>
          match Q_ASSERT env undone with
          | none => none
          | some _ => some ⟨false, r.undo, r.redo, m1⟩

/-- The body shared by `removeAllKeyframes(Fun &, Fun &)` and
`removeNextKeyframes`: one begin/end notification pair with the row range
`first .. last` around the removal of `all_pos`. -/
def removeBatch (env : Env) (first last : Int) (all_pos : List GenTime) (undo redo : Fun)
    (m : KeyframeModel) : Option Step := do
  let update_redo_start : Fun := fun x => some (true, x.emit (Signal.beginRemoveRows first last))
  let update_redo_end : Fun := fun x => some (true, x.emit Signal.endRemoveRows)
  let update_undo_start : Fun := fun x => some (true, x.emit (Signal.beginInsertRows first last))
  let update_undo_end : Fun := fun x => some (true, x.emit Signal.endInsertRows)
  let local_redo := PUSH_LAMBDA update_redo_start Fun.id
  let local_undo := PUSH_LAMBDA update_undo_start Fun.id
  let m1 ← update_redo_start m
  let r ← removeEach env all_pos local_undo local_redo m1.2
  if r.res then
    let m2 ← update_redo_end r.model
    let local_redo2 := PUSH_LAMBDA update_redo_end r.redo
    let local_undo2 := PUSH_LAMBDA update_undo_end r.undo
    some ⟨true, (UPDATE_UNDO_REDO local_redo2 local_undo2 undo redo).1,
      (UPDATE_UNDO_REDO local_redo2 local_undo2 undo redo).2, m2.2⟩
  else some ⟨false, undo, redo, r.model⟩

/-- `KeyframeModel::removeAllKeyframes(Fun &, Fun &)`: `kfrCount` is
`size() - 1`, the notified range is `1 .. kfrCount`, and every position but
the first is removed. -/
def removeAllKeyframes_Fun (env : Env) (undo redo : Fun) (m : KeyframeModel) : Option Step :=
  removeBatch env 1 ((m.m_keyframeList.length : Int) - 1) m.m_keyframeList.keys.tail undo redo m

/-- `KeyframeModel::removeAllKeyframes()`. -/
def removeAllKeyframes (env : Env) (m : KeyframeModel) : Option Done := do
  let s ← removeAllKeyframes_Fun env Fun.id Fun.id m
  some ⟨s.res, s.model, if s.res then PUSH_UNDO s.undo s.redo "Delete all keyframes" else []⟩

/-- `KeyframeModel::removeNextKeyframes(GenTime, Fun &, Fun &)`: `firstPos`
counts the keys `<= pos`, `all_pos` holds the later keys, `kfrCount` is their
number, and the notified range is `firstPos .. kfrCount`. -/
def removeNextKeyframes (env : Env) (pos : GenTime) (undo redo : Fun) (m : KeyframeModel) :
    Option Step :=
  let firstPos : Int := ((m.m_keyframeList.filter (fun e => decide (e.1 ≤ pos))).length : Int)
  let all_pos := (m.m_keyframeList.filter (fun e => decide (¬ e.1 ≤ pos))).map Prod.fst
  removeBatch env firstPos (all_pos.length : Int) all_pos undo redo m

/-! ## Mutations committing their own transaction -/

/-- `KeyframeModel::addKeyframe(GenTime, KeyframeType, QVariant)`. -/
def addKeyframe (env : Env) (pos : GenTime) (type : KeyframeType) (value : QVariant)
    (m : KeyframeModel) : Option Done := do
  let update := m.m_keyframeList.hasKey pos
  let s ← addKeyframe_Fun env pos type value true Fun.id Fun.id m
  some ⟨s.res, s.model,
    if s.res then
      PUSH_UNDO s.undo s.redo (if update then "Change keyframe type" else "Add keyframe")
    else []⟩

/-- `KeyframeModel::addKeyframe(int, double)`; `m_index` is taken to be valid. -/
def addKeyframe_int (env : Env) (frame : Int) (normalizedValue : ℚ) (m : KeyframeModel) :
    Option Done :=
  match m.m_model with
  | some ptr =>
    addKeyframe env frame KeyframeType.Linear (QVariant.real (realValue env ptr normalizedValue)) m
  | none => some ⟨false, m, []⟩

/-- `KeyframeModel::removeKeyframe(GenTime)`. -/
def removeKeyframe (env : Env) (pos : GenTime) (m : KeyframeModel) : Option Done :=
  if m.m_keyframeList.hasKey pos ∧ m.m_keyframeList.rowOf pos = 0 then
    some ⟨false, m, []⟩
  else do
    let s ← removeKeyframe_Fun env pos Fun.id Fun.id env.removeNotify m
    some ⟨s.res, s.model, if s.res then PUSH_UNDO s.undo s.redo "Delete keyframe" else []⟩

/-- `KeyframeModel::removeKeyframe(int)`. -/
def removeKeyframe_int (env : Env) (frame : Int) (m : KeyframeModel) : Option Done :=
  removeKeyframe env frame m

/-- `KeyframeModel::moveKeyframe(GenTime, GenTime, double, bool)`. -/
def moveKeyframe (env : Env) (oldPos pos : GenTime) (newVal : ℚ) (logUndo : Bool)
    (m : KeyframeModel) : Option Done := do
  Q_ASSERT env (m.m_keyframeList.hasKey oldPos)
  if oldPos = pos then some ⟨true, m, []⟩
  else
    let s ← moveKeyframe_Fun env oldPos pos newVal Fun.id Fun.id m
    some ⟨s.1.res, s.1.model,
      s.2 ++ (if s.1.res && logUndo then PUSH_UNDO s.1.undo s.1.redo "Move keyframe" else [])⟩

/-- `KeyframeModel::moveKeyframe(int, int, bool)`. -/
def moveKeyframe_int (env : Env) (oldPos pos : Int) (logUndo : Bool) (m : KeyframeModel) :
    Option Done :=
  moveKeyframe env oldPos pos (-1) logUndo m

/-- `KeyframeModel::moveKeyframe(int, int, double)`. -/
def moveKeyframe_val (env : Env) (oldPos pos : Int) (newVal : ℚ) (m : KeyframeModel) :
    Option Done :=
  moveKeyframe env oldPos pos newVal true m

/-- `KeyframeModel::updateKeyframe(int, double)`. -/
def updateKeyframe_int (env : Env) (pos : Int) (newVal : ℚ) (m : KeyframeModel) : Option Done :=
  match m.m_model with
  | some ptr => updateKeyframe env pos (QVariant.real (realValue env ptr newVal)) m
  | none => some ⟨false, m, []⟩

/-- The loop `for (const auto &t : times) { res &= moveKeyframe(t, t + diff,
-1, undo, redo); }` of `offsetKeyframes`; every move is attempted, also after
one has failed. -/
def offsetEach (env : Env) (diff : Int) : List GenTime → Bool → Fun → Fun → KeyframeModel →
    Option (Step × List UndoCommand)
  | [], res, undo, redo, m => some (⟨res, undo, redo, m⟩, [])
  | t :: ts, res, undo, redo, m =>
    match moveKeyframe_Fun env t (t + diff) (-1) undo redo m with
    | none => none
    | some (s, cmds) =>
      match offsetEach env diff ts (res && s.res) s.undo s.redo s.model with
      | none => none
      | some (s2, cmds2) => some (s2, cmds ++ cmds2)

/-- The result of 32-bit `int` arithmetic: the exact result reduced modulo
2^32 into the range of `int` (two's complement wrap-around, the usual result
of an overflow, which the language leaves undefined). -/
def wrapInt32 (x : Int) : Int := (x + 2147483648) % 4294967296 - 2147483648

/-- `KeyframeModel::offsetKeyframes(int, int, bool)`; the difference
`pos - oldPos` is computed on `int`. -/
def offsetKeyframes (env : Env) (oldPos pos : Int) (logUndo : Bool) (m : KeyframeModel) :
    Option Done :=
  if oldPos = pos then some ⟨true, m, []⟩
  else do
    Q_ASSERT env (m.m_keyframeList.hasKey oldPos)
    let times := (m.m_keyframeList.filter (fun e => decide (¬ e.1 < oldPos))).map Prod.fst
    let s ← offsetEach env (wrapInt32 (pos - oldPos)) times true Fun.id Fun.id m
    some ⟨s.1.res, s.1.model,
      s.2 ++ (if s.1.res && logUndo then PUSH_UNDO s.1.undo s.1.redo "Move keyframes" else [])⟩

/-! ## Queries -/

namespace KeyframeList

/-- The elements in front of the iterator `lower_bound(pos)`: the leading
entries whose key is smaller than `pos`.  The iterator equals `begin()` when
this is empty, and `--it` is its last element. -/
def lowerPrefix (l : KeyframeList) (pos : GenTime) : KeyframeList :=
  l.takeWhile (fun e => decide (e.1 < pos))

/-- The elements in front of the iterator `upper_bound(pos)`: the leading
entries whose key is not greater than `pos`. -/
def upperPrefix (l : KeyframeList) (pos : GenTime) : KeyframeList :=
  l.takeWhile (fun e => decide (e.1 ≤ pos))

/-- The elements from the iterator `upper_bound(pos)` on; the iterator equals
`end()` when this is empty, and `*it` is its first element. -/
def upperSuffix (l : KeyframeList) (pos : GenTime) : KeyframeList :=
  l.dropWhile (fun e => decide (e.1 ≤ pos))

end KeyframeList

/-- The type `Keyframe`: a time and an interpolation type. -/
abbrev Keyframe := GenTime × KeyframeType

/-- The empty marker `{GenTime(), KeyframeType::Linear}`. -/
def emptyMarker : Keyframe := (0, KeyframeType.Linear)

/-- Qt's `qAbs` on `int`. -/
def qAbs (t : Int) : Int := if t ≥ 0 then t else -t

/-- `KeyframeModel::hasKeyframe(const GenTime &)`. -/
def hasKeyframe (m : KeyframeModel) (pos : GenTime) : Bool := m.m_keyframeList.hasKey pos

/-- `KeyframeModel::getKeyframe`: the keyframe and the flag written to `*ok`. -/
def getKeyframe (m : KeyframeModel) (pos : GenTime) : Keyframe × Bool :=
  match m.m_keyframeList.at? pos with
  | none => (emptyMarker, false)
  | some v => ((pos, v.1), true)

/-- `KeyframeModel::getNextKeyframe`: the keyframe and the flag written to
`*ok`. -/
def getNextKeyframe (m : KeyframeModel) (pos : GenTime) : Keyframe × Bool :=
  match m.m_keyframeList.upperSuffix pos with
  | [] => (emptyMarker, false)
  | e :: _ => ((e.1, e.2.1), true)

/-- `KeyframeModel::getPrevKeyframe`: the keyframe and the flag written to
`*ok`. -/
def getPrevKeyframe (m : KeyframeModel) (pos : GenTime) : Keyframe × Bool :=
  match (m.m_keyframeList.lowerPrefix pos).getLast? with
  | none => (emptyMarker, false)
  | some e => ((e.1, e.2.1), true)

/-- `KeyframeModel::getClosestKeyframe`: the keyframe and the flag written to
`*ok`. -/
def getClosestKeyframe (m : KeyframeModel) (pos : GenTime) : Keyframe × Bool :=
  if m.m_keyframeList.hasKey pos then getKeyframe m pos
  else
    let next := getNextKeyframe m pos
    let prev := getPrevKeyframe m pos
    let ok := next.2 || prev.2
    if next.2 && prev.2 then
      if qAbs (next.1.1 - pos) < qAbs (prev.1.1 - pos) then (next.1, ok) else (prev.1, ok)
    else if next.2 then (next.1, ok)
    else if prev.2 then (prev.1, ok)
    else (emptyMarker, ok)

/-- The fields of `mlt_rect`. -/
structure Mlt_rect where
  x : ℚ
  y : ℚ
  w : ℚ
  h : ℚ
  o : ℚ

/-- A `BPoint`: its three points (the point and its two handles), each an
`(x, y)` pair. -/
abbrev BPoint := (ℚ × ℚ) × (ℚ × ℚ) × (ℚ × ℚ)

/-- The collaborators of `getInterpolatedValue` that live outside the tree.
`anim_get_double keys p` and `anim_get_rect keys p`: the value MLT computes at
frame `p` for a property on which `anim_set` was called with the listed
`(position, length, type, value)`, in that order.  `variantToString`,
`toInt`, `localeToDouble`, `localeToString`: the Qt conversions
`QVariant::toString`, `QString::toInt`, `QLocale::toDouble` and
`QLocale::toString`.  `getPoints`: `RotoHelper::getPoints` for the current
frame size `frameWidth` by `frameHeight`.  `pointsVariant`: the nested variant
list built from the interpolated points. -/
structure Engine where
  anim_get_double : List (Int × Int × KeyframeType × ℚ) → Int → ℚ
  anim_get_rect : List (Int × Int × KeyframeType × Mlt_rect) → Int → Mlt_rect
  variantToString : QVariant → String
  toInt : String → Int
  localeToDouble : String → ℚ
  localeToString : ℚ → String
  getPoints : QVariant → List BPoint
  frameWidth : ℚ
  frameHeight : ℚ
  pointsVariant : List (List (ℚ × ℚ)) → QVariant

/-- The cast `(int)` of a `double`: truncation towards zero. -/
def truncToInt (x : ℚ) : Int := if x ≥ 0 then ⌊x⌋ else ⌈x⌉

/-- The rectangle read from the text of a keyframe value in
`getInterpolatedValue`: the fields split at blanks, four integers and, when
there is a fifth field, the opacity (else 1); nothing when there are fewer
than four fields. -/
def rectOfText (eng : Engine) (text : String) : Option Mlt_rect :=
  let vals := text.splitOn " "
  if vals.length ≥ 4 then
    some ⟨(eng.toInt (vals.getD 0 "") : ℚ), (eng.toInt (vals.getD 1 "") : ℚ),
      (eng.toInt (vals.getD 2 "") : ℚ), (eng.toInt (vals.getD 3 "") : ℚ),
      if vals.length > 4 then eng.localeToDouble (vals.getD 4 "") else 1⟩
  else none

/-- One point of the spline interpolation: `QLineF(a, b).pointAt(relPos)` when
the points differ, else `a`; then divided by the frame size. -/
def rotoPoint (eng : Engine) (relPos : ℚ) (a b : ℚ × ℚ) : ℚ × ℚ :=
  let bp : ℚ × ℚ :=
    if a ≠ b then (a.1 + (b.1 - a.1) * relPos, a.2 + (b.2 - a.2) * relPos) else a
  (bp.1 / eng.frameWidth, bp.2 / eng.frameHeight)

/-- The part of `getInterpolatedValue` after the surrounding keyframes `prev`
and `next` are found: the value computed for frame `p`, by parameter type. -/
def interpolate (eng : Engine) (env : Env) (paramType : ParamType) (prev next : Entry)
    (p : Int) : QVariant :=
  match paramType with
  | ParamType.KeyframeParam =>
    QVariant.real (eng.anim_get_double
      [(prev.1, next.1, prev.2.1, prev.2.2.toDouble env),
       (next.1, next.1, next.2.1, next.2.2.toDouble env)] p)
  | ParamType.AnimatedRect =>
    let k1 :=
      match rectOfText eng (eng.variantToString prev.2.2) with
      | some rect => [(prev.1, next.1, prev.2.1, rect)]
      | none => []
    let k2 :=
      match rectOfText eng (eng.variantToString next.2.2) with
      | some rect => [(next.1, next.1, next.2.1, rect)]
      | none => []
    let rect := eng.anim_get_rect (k1 ++ k2) p
    QVariant.text (toString (truncToInt rect.x) ++ " " ++ toString (truncToInt rect.y) ++ " " ++
      toString (truncToInt rect.w) ++ " " ++ toString (truncToInt rect.h) ++ " " ++
      eng.localeToString rect.o)
  | ParamType.Roto_spline =>
    let p1 := eng.getPoints prev.2.2
    let relPos : ℚ := ((p - prev.1 : Int) : ℚ) / (((next.1 - prev.1 : Int) : ℚ) + 1)
    let p2 := eng.getPoints next.2.2
    eng.pointsVariant ((List.zip p1 p2).map (fun ab =>
      [rotoPoint eng relPos ab.1.1 ab.2.1, rotoPoint eng relPos ab.1.2.1 ab.2.2.1,
       rotoPoint eng relPos ab.1.2.2 ab.2.2.2]))
  | ParamType.Other => QVariant.invalid

/-- `KeyframeModel::getInterpolatedValue(const GenTime &)`.  An empty map
(`size() == 0`) has neither a first nor a last entry; `next == cbegin()` is
an empty prefix in front of `upper_bound(pos)`, `next == cend()` an empty
suffix from it, and otherwise `prev` is the last entry in front of `next`. -/
def getInterpolatedValue (eng : Engine) (env : Env) (m : KeyframeModel) (pos : GenTime) :
    QVariant :=
  match m.m_keyframeList.at? pos with
  | some v => v.2
  | none =>
    match m.m_keyframeList.head?, m.m_keyframeList.getLast? with
    | some first, some last =>
      match (m.m_keyframeList.upperPrefix pos).getLast?, m.m_keyframeList.upperSuffix pos with
      | none, _ => first.2.2
      | some _, [] => last.2.2
      | some prev, next :: _ => interpolate eng env m.m_paramType prev next pos
    | _, _ => QVariant.invalid

/-! ## Normalized values -/

/-- The value `KeyframeModel::data` computes for `NormalizedValueRole` from the
keyframe value `val` once the owner is locked; `ptr.norm` is the `DefaultRole`
and the exponent `0.6` is taken as the rational 6/10. -/
def NormalizedValueRole (env : Env) (ptr : AssetParameterModel) (val : ℚ) : ℚ :=
  let linear := val * ptr.factor
  if ptr.logRole = -1 then
    if linear ≥ ptr.norm then
      1 / 2 + (linear - ptr.norm) / (ptr.max * ptr.factor - ptr.norm) * (1 / 2)
    else
      let scaled := (linear - ptr.norm) / (ptr.min * ptr.factor - ptr.norm)
      1 / 2 - env.pow scaled (6 / 10) * (1 / 2)
  else (linear - ptr.min) / (ptr.max - ptr.min)

/-- The text after the last blank: `data.section(QLatin1Char(' '), -1)`. -/
def lastSection (s : String) : String := (s.splitOn " ").getLastD ""

/-- `KeyframeModel::data(index, NormalizedValueRole)` for a valid index of row
`row`; the assertion that the owner's index `m_index` is valid is taken to
hold.  The integer `1` returned when the owner cannot be locked is the
number 1. -/
def data_NormalizedValueRole (eng : Engine) (env : Env) (m : KeyframeModel) (row : Int) :
    QVariant :=
  if row < 0 ∨ row ≥ (m.m_keyframeList.length : Int) then QVariant.invalid
  else
    match m.m_keyframeList.get? row.toNat with
    | none => QVariant.invalid
    | some it =>
      if m.m_paramType = ParamType.AnimatedRect then
        QVariant.real (eng.localeToDouble (lastSection (eng.variantToString it.2.2)))
      else
        match m.m_model with
        | some ptr => QVariant.real (NormalizedValueRole env ptr (it.2.2.toDouble env))
        | none => QVariant.real 1

/-- `KeyframeModel::getNormalizedValue`. -/
def getNormalizedValue (env : Env) (m : KeyframeModel) (newVal : ℚ) : QVariant :=
  match m.m_model with
  | some ptr => QVariant.real (realValue env ptr newVal)
  | none => QVariant.invalid

/-! ## The text and JSON codecs -/

/-- The three values of MLT's `mlt_keyframe_type`. -/
inductive mlt_keyframe_type where
  | mlt_keyframe_discrete
  | mlt_keyframe_linear
  | mlt_keyframe_smooth
  deriving DecidableEq, Repr

/-- `convertFromMltType`. -/
def convertFromMltType : mlt_keyframe_type → KeyframeType
  | mlt_keyframe_type.mlt_keyframe_linear => KeyframeType.Linear
  | mlt_keyframe_type.mlt_keyframe_discrete => KeyframeType.Discrete
  | mlt_keyframe_type.mlt_keyframe_smooth => KeyframeType.Curve

/-- `convertToMltType`. -/
def convertToMltType : KeyframeType → mlt_keyframe_type
  | KeyframeType.Linear => mlt_keyframe_type.mlt_keyframe_linear
  | KeyframeType.Discrete => mlt_keyframe_type.mlt_keyframe_discrete
  | KeyframeType.Curve => mlt_keyframe_type.mlt_keyframe_smooth

/-- The collaborators of the JSON codec that live outside the tree.
`toJson map`: the text `QJsonDocument::fromVariant(QVariant(map)).toJson()`.
`fromJson prop`: the map `QJsonDocument::fromJson(prop.toLatin1()).toVariant()`
converts to, nothing when `canConvert(QVariant::Map)` fails.  `nullDocument`:
the text of a default-constructed `QJsonDocument`.  `undefinedWidth`: the
`int` that `log10((double)out) + 1` converts to when `out` is not positive. -/
structure Json where
  toJson : List (String × QVariant) → String
  fromJson : String → Option (List (String × QVariant))
  nullDocument : String
  undefinedWidth : Int

/-- `QMap<QString, QVariant>::insert` on the map held as a list in key order
(the order of `QString`, character by character): the value of an equal key
is replaced. -/
def QMap_insert : List (String × QVariant) → String → QVariant → List (String × QVariant)
  | [], key, value => [(key, value)]
  | e :: rest, key, value =>
    if key.toList < e.1.toList then (key, value) :: e :: rest
    else if key = e.1 then (key, value) :: rest
    else e :: QMap_insert rest key value

/-- `QString::rightJustified(width, fill)`: the text is returned as it is
when it is not shorter than `width`. -/
def rightJustified (s : String) (width : Int) (fill : Char) : String :=
  if (s.length : Int) < width then
    String.mk (List.replicate (width.toNat - s.length) fill) ++ s
  else s

/-- The width `log10((double)out) + 1` passed to `rightJustified`, converted
to `int`: for a positive `out` the number of its decimal digits. -/
def justifiedWidth (json : Json) (out : Int) : Int :=
  if 0 < out then ((Nat.toDigits 10 out.toNat).length : Int) else json.undefinedWidth

/-- `KeyframeModel::getRotoProperty`. -/
def getRotoProperty (json : Json) (m : KeyframeModel) : String :=
  match m.m_model with
  | some ptr =>
    json.toJson (m.m_keyframeList.foldl (fun map keyframe =>
      QMap_insert map
        (rightJustified (toString (ptr.parentIn + keyframe.1))
          (justifiedWidth json ptr.parentDuration) '0') keyframe.2.2) [])
  | none => json.nullDocument

/-- The text `getAnimProperty` writes for a keyframe type. -/
def typeOperator : KeyframeType → String
  | KeyframeType.Linear => "="
  | KeyframeType.Discrete => "|="
  | KeyframeType.Curve => "~="

/-- The text `getAnimProperty` writes for a keyframe value. -/
def valueText (eng : Engine) (env : Env) (paramType : ParamType) (value : QVariant) : String :=
  match paramType with
  | ParamType.AnimatedRect => eng.variantToString value
  | _ => eng.localeToString (value.toDouble env)

/-- `KeyframeModel::getAnimProperty`: the loop carries the text `prop` and the
flag `first`. -/
def getAnimProperty (json : Json) (eng : Engine) (env : Env) (m : KeyframeModel) : String :=
  if m.m_paramType = ParamType.Roto_spline then getRotoProperty json m
  else
    (m.m_keyframeList.foldl (fun (st : String × Bool) keyframe =>
      let prop := if st.2 then st.1 else st.1 ++ ";"
      (prop ++ toString keyframe.1 ++ typeOperator keyframe.2.1 ++
        valueText eng env m.m_paramType keyframe.2.2, false)) ("", true)).1

/-- The collaborators of `parseAnimProperty` that live outside the tree.
`key_get prop`: the keys `(frame, type)` that MLT's animation parser holds for
the property text `prop`, in the order of `key_get(i, frame, type)` for
`i < key_count()`.  `anim_get_double prop frame` and `anim_get_rect prop
frame`: the value MLT returns at `frame` for that property.  `argDouble`: the
text `QString::arg(double)` inserts.  `genTimeOf n`: the time built by the
one-argument constructor call `GenTime(n)`, in frames. -/
structure Animation where
  key_get : String → List (Int × mlt_keyframe_type)
  anim_get_double : String → Int → ℚ
  anim_get_rect : String → Int → Mlt_rect
  argDouble : ℚ → String
  genTimeOf : Int → GenTime

/-- The keyframe value `parseAnimProperty` builds for the key at `frame`. -/
def parsedValue (anim : Animation) (eng : Engine) (paramType : ParamType) (prop : String)
    (frame : Int) : QVariant :=
  match paramType with
  | ParamType.AnimatedRect =>
    let rect := anim.anim_get_rect prop frame
    QVariant.text (anim.argDouble rect.x ++ " " ++ anim.argDouble rect.y ++ " " ++
      anim.argDouble rect.w ++ " " ++ anim.argDouble rect.h ++ " " ++
      eng.localeToString rect.o)
  | _ => QVariant.real (anim.anim_get_double prop frame)

/-- The type `parseAnimProperty` uses for a key: linear when the text holds
no `=`. -/
def parsedType (prop : String) (type : mlt_keyframe_type) : mlt_keyframe_type :=
  if prop.toList.contains '=' then type else mlt_keyframe_type.mlt_keyframe_linear

/-- The loop `for (int i = 0; i < anim->key_count(); ++i)` of
`parseAnimProperty`, from index `i` on; the results of the calls are not
looked at. -/
def parseKeys (anim : Animation) (eng : Engine) (env : Env) (prop : String) (in_ : Int) :
    Nat → List (Int × mlt_keyframe_type) → Fun → Fun → KeyframeModel → Option Step
  | _, [], undo, redo, m => some ⟨true, undo, redo, m⟩
  | i, key :: rest, undo, redo, m =>
    let frame := key.1
    let type := parsedType prop key.2
    let value := parsedValue anim eng m.m_paramType prop frame
    if i = 0 ∧ frame > in_ then
      match addKeyframe_Fun env in_ (convertFromMltType type) value true undo redo m with
      | none => none
      | some s =>
        match addKeyframe_Fun env frame (convertFromMltType type) value true s.undo s.redo
            s.model with
        | none => none
        | some s2 => parseKeys anim eng env prop in_ (i + 1) rest s2.undo s2.redo s2.model
    else if frame = in_ ∧ hasKeyframe m (anim.genTimeOf in_) = true then
      match updateKeyframe_Fun env frame value undo redo true m with
      | none => none
      | some s => parseKeys anim eng env prop in_ (i + 1) rest s.undo s.redo s.model
    else
      match addKeyframe_Fun env frame (convertFromMltType type) value true undo redo m with
      | none => none
      | some s => parseKeys anim eng env prop in_ (i + 1) rest s.undo s.redo s.model

/-- The frame `in` of `parseAnimProperty`: the `ParentInRole` of the owner, 0
when the owner cannot be locked. -/
def inFrame (m : KeyframeModel) : Int :=
  match m.m_model with
  | some ptr => ptr.parentIn
  | none => 0

/-- `KeyframeModel::parseAnimProperty`: the model it leaves. -/
def parseAnimProperty (anim : Animation) (eng : Engine) (env : Env) (prop : String)
    (m : KeyframeModel) : Option KeyframeModel :=
  match removeAllKeyframes_Fun env Fun.id Fun.id m with
  | none => none
  | some s =>
    (parseKeys anim eng env prop (inFrame m) 0 (anim.key_get prop) s.undo s.redo s.model).map
      (fun r => r.model)

/-- The loop of `parseRotoProperty` over the entries of the map. -/
def parseRotoEach (eng : Engine) (env : Env) :
    List (String × QVariant) → Fun → Fun → KeyframeModel → Option Step
  | [], undo, redo, m => some ⟨true, undo, redo, m⟩
  | i :: rest, undo, redo, m =>
    match addKeyframe_Fun env (eng.toInt i.1) KeyframeType.Linear i.2 false undo redo m with
    | none => none
    | some s => parseRotoEach eng env rest s.undo s.redo s.model

/-- `KeyframeModel::parseRotoProperty`: the model it leaves. -/
def parseRotoProperty (json : Json) (eng : Engine) (env : Env) (prop : String)
    (m : KeyframeModel) : Option KeyframeModel :=
  match json.fromJson prop with
  | some map => (parseRotoEach eng env map Fun.id Fun.id m).map (fun r => r.model)
  | none => some m

/-- A comparison of variants in the manner of Qt 5: two numbers are equal when
they are the same number or, both being non-zero, when `qFuzzyCompare` takes
them for equal; two texts are equal when they are the same text; two empty
variants are equal; variants of different kinds are taken to differ. -/
def qtVariantEq : QVariant → QVariant → Bool
  | QVariant.invalid, QVariant.invalid => true
  | QVariant.real x, QVariant.real y =>
    decide (x = y) || (decide (x ≠ 0) && decide (y ≠ 0) && qFuzzyCompare x y)
  | QVariant.text a, QVariant.text b => decide (a = b)
  | _, _ => false

/-- A build with assertions compiled in. -/
def debugEnv : Env :=
  ⟨true, KeyframeType.Discrete, fun _ _ => 0, 0, fun _ => 0, true, true, qtVariantEq⟩

/-- A build with assertions compiled out. -/
def releaseEnv : Env :=
  ⟨false, KeyframeType.Discrete, fun _ _ => 0, 0, fun _ => 0, true, true, qtVariantEq⟩

/-- A scalar-parameter model holding the given keyframes, with no reachable
owner and nothing emitted yet. -/
def storeOf (l : KeyframeList) : KeyframeModel := ⟨l, ParamType.KeyframeParam, none, []⟩

/-- Three keyframes: the initial point at frame 0, then frames 5 and 9. -/
def sampleList : KeyframeList :=
  [(0, KeyframeType.Linear, QVariant.real 1), (5, KeyframeType.Curve, QVariant.real 2),
   (9, KeyframeType.Discrete, QVariant.text "a")]

/-- A single keyframe at frame 0. -/
def zeroOnly : KeyframeList := [(0, KeyframeType.Linear, QVariant.real 1)]

/-- A single keyframe at frame 5 (a parameter whose first keyframe is not at
time zero). -/
def fiveOnly : KeyframeList := [(5, KeyframeType.Linear, QVariant.real 1)]

/-- Three keyframes at frames 0, 5 and 7: shifting the last two by 2 sends
frame 5 onto frame 7. -/
def closeList : KeyframeList :=
  [(0, KeyframeType.Linear, QVariant.real 1), (5, KeyframeType.Curve, QVariant.real 2),
   (7, KeyframeType.Discrete, QVariant.real 3)]

/-- A scalar store whose only keyframe holds the value 10^12. -/
def largeValue : KeyframeList := [(0, KeyframeType.Linear, QVariant.real 1000000000000)]

/-- Collaborators that return fixed values. -/
def sampleEngine : Engine :=
  ⟨fun _ _ => 0, fun _ _ => ⟨0, 0, 0, 0, 0⟩, fun _ => "", fun _ => 0, fun _ => 0, fun _ => "",
    fun _ => [], 1, 1, fun _ => QVariant.invalid⟩

/-- Two keyframes, the first before time zero and the second at time zero. -/
def negativeFirst : KeyframeList :=
  [(-5, KeyframeType.Linear, QVariant.real 1), (0, KeyframeType.Linear, QVariant.real 2)]

/-- A reader of unsigned decimal text, digit by digit. -/
def decimalDigits : List Char → Nat → Option Nat
  | [], acc => some acc
  | c :: cs, acc =>
    if c.isDigit then decimalDigits cs (acc * 10 + (c.toNat - '0'.toNat)) else none

/-- A `QString::toInt` for decimal text with an optional minus sign: 0 when
the text is not a number. -/
def decimalToInt (s : String) : Int :=
  match s.toList with
  | [] => 0
  | '-' :: cs =>
    if cs = [] then 0
    else
      match decimalDigits cs 0 with
      | some n => -(n : Int)
      | none => 0
  | cs =>
    match decimalDigits cs 0 with
    | some n => (n : Int)
    | none => 0

/-- A number formatter for whole numbers and one half. -/
def sampleNumberText (x : ℚ) : String :=
  if x.den = 1 then toString x.num else if x.num = 1 ∧ x.den = 2 then "0.5" else ""

/-- Collaborators that read decimal text and write whole numbers and one
half. -/
def textEngine : Engine :=
  { sampleEngine with toInt := decimalToInt, localeToString := sampleNumberText }

/-- The number one half, in lowest terms. -/
def oneHalf : ℚ := ⟨1, 2, by decide, by decide⟩

/-- What MLT's parser holds for three property texts: the keys of
`0=0;50~=1;100|=0.5`, of `5=1` and of `0=5`, and their values.  The
one-argument `GenTime` is taken at 25 frames per unit. -/
def sampleAnimation : Animation where
  key_get := fun prop =>
    if prop = "0=0;50~=1;100|=0.5" then
      [(0, mlt_keyframe_type.mlt_keyframe_linear), (50, mlt_keyframe_type.mlt_keyframe_smooth),
       (100, mlt_keyframe_type.mlt_keyframe_discrete)]
    else if prop = "5=1" then [(5, mlt_keyframe_type.mlt_keyframe_linear)]
    else if prop = "0=5" then [(0, mlt_keyframe_type.mlt_keyframe_linear)]
    else []
  anim_get_double := fun prop frame =>
    if prop = "0=0;50~=1;100|=0.5" then
      (if frame = 50 then 1 else if frame = 100 then oneHalf else 0)
    else if prop = "5=1" then 1
    else if prop = "0=5" then 5
    else 0
  anim_get_rect := fun _ _ => ⟨0, 0, 0, 0, 0⟩
  argDouble := sampleNumberText
  genTimeOf := fun n => n * 25

/-- A JSON reader and writer whose reader returns `map` for every text. -/
def sampleJson (map : List (String × QVariant)) : Json := ⟨fun _ => "", fun _ => some map, "", 0⟩

/-- A scalar-parameter model without keyframes and without a reachable
owner. -/
def emptyScalar : KeyframeModel := ⟨[], ParamType.KeyframeParam, none, []⟩

/-- A parameter in logarithmic mode: range 0 to 4, factor 2, default 1. -/
def logOwner : AssetParameterModel := ⟨0, 4, 2, 1, -1, 0, 0⟩

/-- A parameter in linear mode: range 0 to 100, factor 1. -/
def linearOwner : AssetParameterModel := ⟨0, 100, 1, 0, 0, 0, 0⟩

/-- A spline parameter with in-point 5 and duration 100. -/
def rotoOwner : AssetParameterModel := ⟨0, 0, 1, 0, 0, 5, 100⟩

/-- A spline store with keyframes at frames 0 and 12 and a reachable owner. -/
def rotoStore : KeyframeModel :=
  ⟨[(0, KeyframeType.Linear, QVariant.text "p"), (12, KeyframeType.Linear, QVariant.text "q")],
    ParamType.Roto_spline, some rotoOwner, []⟩

/-- The text `getAnimProperty` writes for one keyframe. -/
def entryText (eng : Engine) (env : Env) (paramType : ParamType) (e : Entry) : String :=
  toString e.1 ++ typeOperator e.2.1 ++ valueText eng env paramType e.2.2

/-- The store with keyframes at frames 0, 5 and 9 of a scalar parameter in
linear mode with range 0 to 100. -/
def ownedSample : KeyframeModel :=
  ⟨sampleList, ParamType.KeyframeParam, some linearOwner, []⟩

/-- A scalar store whose only keyframe, at time zero, is of type Curve. -/
def curveSentinel : KeyframeList := [(0, KeyframeType.Curve, QVariant.real 3)]

/-- A spline model without keyframes, owned by the parameter with in-point 5. -/
def emptyRoto : KeyframeModel := ⟨[], ParamType.Roto_spline, some rotoOwner, []⟩

/-- The map `getRotoProperty` writes for the spline store with keyframes at
frames 0 and 12 and in-point 5. -/
def rotoMap : List (String × QVariant) :=
  [("005", QVariant.text "p"), ("017", QVariant.text "q")]

/-- The entry `parseAnimProperty` adds for the parsed key `k`. -/
def parsedEntry (anim : Animation) (eng : Engine) (paramType : ParamType) (prop : String)
    (k : Int × mlt_keyframe_type) : Entry :=
  (k.1, convertFromMltType (parsedType prop k.2), parsedValue anim eng paramType prop k.1)

/-- A scalar parameter in linear mode with in-point 5. -/
def lateOwner : AssetParameterModel := ⟨0, 100, 1, 0, 0, 5, 100⟩

/-- A scalar model without keyframes, owned by the parameter with in-point
5. -/
def emptyLate : KeyframeModel := ⟨[], ParamType.KeyframeParam, some lateOwner, []⟩

/-! ## Facts about the ordered map -/

namespace KeyframeList

theorem WF_cons (e : Entry) (r : KeyframeList) :
    WF (e :: r) ↔ (∀ a ∈ r, e.1 < a.1) ∧ WF r := List.pairwise_cons

theorem at?_assign_self (l : KeyframeList) (k : GenTime) (v : KeyframeType × QVariant) :
    at? (assign l k v) k = some v := by
  induction l with
  | nil => simp [assign, at?]
  | cons e r ih =>
    obtain ⟨k', w⟩ := e
    by_cases h1 : k < k'
    · simp [assign, h1, at?]
    · by_cases h2 : k = k'
      · simp [assign, h2, at?]
      · have h3 : ¬ k' = k := fun h => h2 h.symm
        simp [assign, h1, h2, at?, h3, ih]

theorem at?_assign_of_ne (l : KeyframeList) (k q : GenTime) (v : KeyframeType × QVariant)
    (hq : q ≠ k) : at? (assign l k v) q = at? l q := by
  have hq' : ¬ k = q := fun h => hq h.symm
  induction l with
  | nil => simp [assign, at?, hq']
  | cons e r ih =>
    obtain ⟨k', w⟩ := e
    by_cases h1 : k < k'
    · simp [assign, h1, at?, hq']
    · by_cases h2 : k = k'
      · subst h2; simp [assign, at?, hq']
      · simp [assign, h1, h2, at?, ih]

theorem hasKey_iff_mem_keys (l : KeyframeList) (k : GenTime) :
    hasKey l k = true ↔ k ∈ keys l := by
  induction l with
  | nil => simp [hasKey, at?, keys]
  | cons e r ih =>
    obtain ⟨k', w⟩ := e
    by_cases h : k' = k
    · simp [hasKey, at?, keys, h]
    · have h' : ¬ k = k' := fun x => h x.symm
      simp only [hasKey, at?, h, if_false, keys, List.map_cons, List.mem_cons, h', false_or]
      simpa [hasKey, keys] using ih

theorem at?_eq_none_iff (l : KeyframeList) (k : GenTime) :
    at? l k = none ↔ k ∉ keys l := by
  rw [← hasKey_iff_mem_keys]; simp [hasKey]

theorem mem_keys_of_at? (l : KeyframeList) (k : GenTime) (v : KeyframeType × QVariant)
    (h : at? l k = some v) : ∃ a ∈ l, a.1 = k := by
  have : k ∈ keys l := by rw [← hasKey_iff_mem_keys]; simp [hasKey, h]
  simpa [keys] using this

theorem mem_assign (l : KeyframeList) (k : GenTime) (v : KeyframeType × QVariant) (a : Entry)
    (ha : a ∈ assign l k v) : a = (k, v) ∨ a ∈ l := by
  induction l with
  | nil => simpa [assign] using ha
  | cons e r ih =>
    obtain ⟨k', w⟩ := e
    by_cases h1 : k < k'
    · simp only [assign, h1, if_true, List.mem_cons] at ha
      rcases ha with h | h | h
      · exact Or.inl h
      · exact Or.inr (h ▸ List.mem_cons_self _ _)
      · exact Or.inr (List.mem_cons_of_mem _ h)
    · by_cases h2 : k = k'
      · subst h2
        simp only [assign, lt_irrefl, if_false, if_true, List.mem_cons] at ha
        rcases ha with h | h
        · exact Or.inl h
        · exact Or.inr (List.mem_cons_of_mem _ h)
      · simp only [assign, h1, h2, if_false, List.mem_cons] at ha
        rcases ha with h | h
        · exact Or.inr (h ▸ List.mem_cons_self _ _)
        · rcases ih h with h3 | h3
          · exact Or.inl h3
          · exact Or.inr (List.mem_cons_of_mem _ h3)

theorem WF_assign (l : KeyframeList) (k : GenTime) (v : KeyframeType × QVariant) (h : WF l) :
    WF (assign l k v) := by
  induction l with
  | nil => simp [assign, WF]
  | cons e r ih =>
    obtain ⟨k', w⟩ := e
    rw [WF_cons] at h
    by_cases h1 : k < k'
    · simp only [assign, h1, if_true]
      refine (WF_cons _ _).2 ⟨?_, (WF_cons _ _).2 h⟩
      intro a ha
      rcases List.mem_cons.1 ha with h3 | h3
      · rw [h3]; exact h1
      · exact lt_trans h1 (h.1 a h3)
    · by_cases h2 : k = k'
      · subst h2
        simp only [assign, lt_irrefl, if_false, if_true]
        exact (WF_cons _ _).2 h
      · simp only [assign, h1, h2, if_false]
        refine (WF_cons _ _).2 ⟨?_, ih h.2⟩
        intro a ha
        have hlt : k' < k := lt_of_le_of_ne (not_lt.1 h1) (fun x => h2 x.symm)
        rcases mem_assign r k v a ha with h3 | h3
        · rw [h3]; exact hlt
        · exact h.1 a h3

theorem hasKey_cons_of_lt (k k' : GenTime) (w : KeyframeType × QVariant) (r : KeyframeList)
    (h : WF ((k', w) :: r)) (h1 : k < k') : hasKey ((k', w) :: r) k = false := by
  rw [WF_cons] at h
  rw [Bool.eq_false_iff, Ne, hasKey_iff_mem_keys]
  simp only [keys, List.map_cons, List.mem_cons, List.mem_map, not_or]
  refine ⟨ne_of_lt h1, ?_⟩
  rintro ⟨a, ha, rfl⟩
  exact absurd (h.1 a ha) (not_lt.2 (le_of_lt h1))

theorem length_assign (l : KeyframeList) (k : GenTime) (v : KeyframeType × QVariant) (h : WF l) :
    (assign l k v).length = if hasKey l k = true then l.length else l.length + 1 := by
  induction l with
  | nil => simp [assign, hasKey, at?]
  | cons e r ih =>
    obtain ⟨k', w⟩ := e
    by_cases h1 : k < k'
    · have hk := hasKey_cons_of_lt k k' w r h h1
      simp [assign, h1, hk]
    · rw [WF_cons] at h
      by_cases h2 : k = k'
      · simp [assign, h1, h2, hasKey, at?]
      · have h3 : ¬ k' = k := fun x => h2 x.symm
        have := ih h.2
        simp only [assign, h1, h2, if_false, List.length_cons, this, hasKey, at?, h3]
        split <;> rfl

theorem at?_erase_self (l : KeyframeList) (k : GenTime) :
    at? (KeyframeList.erase l k) k = none := by
  rw [at?_eq_none_iff]
  simp [keys, KeyframeList.erase, List.mem_filter]

theorem erase_cons_self (k : GenTime) (w : KeyframeType × QVariant) (r : KeyframeList) :
    KeyframeList.erase ((k, w) :: r) k = KeyframeList.erase r k := by
  simp [KeyframeList.erase, List.filter_cons]

theorem erase_cons_of_ne (k k' : GenTime) (w : KeyframeType × QVariant) (r : KeyframeList)
    (h : k' ≠ k) : KeyframeList.erase ((k', w) :: r) k = (k', w) :: KeyframeList.erase r k := by
  simp [KeyframeList.erase, List.filter_cons, h]

theorem erase_eq_self (l : KeyframeList) (k : GenTime) (h : ∀ a ∈ l, a.1 ≠ k) :
    KeyframeList.erase l k = l := by
  unfold KeyframeList.erase
  rw [List.filter_eq_self]
  intro a ha
  simpa using h a ha

theorem at?_erase_of_ne (l : KeyframeList) (k q : GenTime) (hq : q ≠ k) :
    at? (KeyframeList.erase l k) q = at? l q := by
  induction l with
  | nil => simp [KeyframeList.erase, at?]
  | cons e r ih =>
    obtain ⟨k', w⟩ := e
    by_cases h : k' = k
    · subst h
      have h' : ¬ k' = q := fun x => hq x.symm
      rw [erase_cons_self, ih]
      simp [at?, h']
    · rw [erase_cons_of_ne _ _ _ _ h]
      simp [at?, ih]

theorem WF_erase (l : KeyframeList) (k : GenTime) (h : WF l) : WF (KeyframeList.erase l k) :=
  List.Pairwise.filter _ h

theorem erase_assign_of_absent (l : KeyframeList) (k : GenTime) (v : KeyframeType × QVariant)
    (h : at? l k = none) : KeyframeList.erase (assign l k v) k = l := by
  induction l with
  | nil => simp [assign, KeyframeList.erase]
  | cons e r ih =>
    obtain ⟨k', w⟩ := e
    have hk : ¬ k' = k := by
      intro x; simp [at?, x] at h
    have hk' : ¬ k = k' := fun x => hk x.symm
    have hr : at? r k = none := by simpa [at?, hk] using h
    by_cases h1 : k < k'
    · simp only [assign, h1, if_true]
      rw [erase_cons_self, erase_cons_of_ne _ _ _ _ hk, erase_eq_self]
      intro a ha
      have := (at?_eq_none_iff r k).1 hr
      simp only [keys, List.mem_map, not_exists, not_and] at this
      exact this a ha
    · simp only [assign, h1, hk', if_false]
      rw [erase_cons_of_ne _ _ _ _ hk, ih hr]

theorem assign_eq_self (l : KeyframeList) (k : GenTime) (v : KeyframeType × QVariant)
    (hl : WF l) (h : at? l k = some v) : assign l k v = l := by
  induction l with
  | nil => simp [at?] at h
  | cons e r ih =>
    obtain ⟨k', w⟩ := e
    rw [WF_cons] at hl
    by_cases h2 : k' = k
    · subst h2
      simp only [at?, if_true, Option.some.injEq] at h
      simp [assign, h]
    · have hr : at? r k = some v := by simpa [at?, h2] using h
      obtain ⟨a, ha, rfl⟩ := mem_keys_of_at? r k v hr
      have hlt : k' < a.1 := hl.1 a ha
      have h1 : ¬ a.1 < k' := not_lt.2 (le_of_lt hlt)
      have h3 : ¬ a.1 = k' := fun x => h2 x.symm
      simp only [assign, h1, h3, if_false]
      rw [ih hl.2 hr]

theorem assign_assign (l : KeyframeList) (k : GenTime) (v w : KeyframeType × QVariant) :
    assign (assign l k w) k v = assign l k v := by
  induction l with
  | nil => simp [assign]
  | cons e r ih =>
    obtain ⟨k', u⟩ := e
    by_cases h1 : k < k'
    · simp [assign, h1]
    · by_cases h2 : k = k'
      · simp [assign, h1, h2]
      · simp [assign, h1, h2, ih]

theorem assign_erase (l : KeyframeList) (k : GenTime) (v : KeyframeType × QVariant)
    (hl : WF l) (h : at? l k = some v) : assign (KeyframeList.erase l k) k v = l := by
  induction l with
  | nil => simp [at?] at h
  | cons e r ih =>
    obtain ⟨k', w⟩ := e
    rw [WF_cons] at hl
    by_cases h2 : k' = k
    · subst h2
      simp only [at?, if_true, Option.some.injEq] at h
      subst h
      rw [erase_cons_self, erase_eq_self r k' (fun a ha => ne_of_gt (hl.1 a ha))]
      cases r with
      | nil => simp [assign]
      | cons e2 r2 =>
        have : k' < e2.1 := hl.1 e2 (List.mem_cons_self _ _)
        simp [assign, this]
    · have hr : at? r k = some v := by simpa [at?, h2] using h
      obtain ⟨a, ha, rfl⟩ := mem_keys_of_at? r k v hr
      have hlt : k' < a.1 := hl.1 a ha
      have h1 : ¬ a.1 < k' := not_lt.2 (le_of_lt hlt)
      have h3 : ¬ a.1 = k' := fun x => h2 x.symm
      rw [erase_cons_of_ne _ _ _ _ h2]
      simp only [assign, h1, h3, if_false]
      rw [ih hl.2 hr]

theorem subscript_of_at? (env : Env) (l : KeyframeList) (k : GenTime)
    (v : KeyframeType × QVariant) (h : at? l k = some v) : subscript env l k = (v, l) := by
  simp [subscript, h]

end KeyframeList

open KeyframeList

/-! ## Facts about the closures and the composed mutations -/

theorem rowOf_nonneg (l : KeyframeList) (pos : GenTime) : 0 ≤ rowOf l pos := by
  induction l with
  | nil => simp [rowOf]
  | cons e r ih =>
    obtain ⟨k, w⟩ := e
    simp only [rowOf]
    split
    · exact le_refl _
    · omega

theorem updateKeyframe_lambda_spec (env : Env) (pos : GenTime) (t : KeyframeType) (v : QVariant)
    (notify : Bool) (m : KeyframeModel) (h : hasKey m.m_keyframeList pos = true) :
    ∃ m', updateKeyframe_lambda env pos t v notify m = some (true, m') ∧
      m'.m_keyframeList = assign m.m_keyframeList pos (t, v) ∧
      m'.m_paramType = m.m_paramType ∧ m'.m_model = m.m_model := by
  cases notify <;> simp [updateKeyframe_lambda, Q_ASSERT, h, KeyframeModel.emit]

theorem addKeyframe_lambda_spec (env : Env) (pos : GenTime) (t : KeyframeType) (v : QVariant)
    (notify : Bool) (m : KeyframeModel) (h : hasKey m.m_keyframeList pos = false) :
    ∃ m', addKeyframe_lambda env pos t v notify m = some (true, m') ∧
      m'.m_keyframeList = assign m.m_keyframeList pos (t, v) ∧
      m'.m_paramType = m.m_paramType ∧ m'.m_model = m.m_model := by
  cases notify <;> simp [addKeyframe_lambda, Q_ASSERT, h, KeyframeModel.emit]

theorem deleteKeyframe_lambda_spec (env : Env) (pos : GenTime) (notify : Bool)
    (m : KeyframeModel) (h : hasKey m.m_keyframeList pos = true) (h0 : pos ≠ 0) :
    ∃ m', deleteKeyframe_lambda env pos notify m = some (true, m') ∧
      m'.m_keyframeList = KeyframeList.erase m.m_keyframeList pos ∧
      m'.m_paramType = m.m_paramType ∧ m'.m_model = m.m_model := by
  cases notify <;> simp [deleteKeyframe_lambda, Q_ASSERT, h, h0, KeyframeModel.emit]

theorem removeKeyframe_Fun_spec (env : Env) (pos : GenTime) (undo redo : Fun) (notify : Bool)
    (m : KeyframeModel) (old : KeyframeType × QVariant)
    (h : at? m.m_keyframeList pos = some old) (h0 : pos ≠ 0) :
    ∃ s, removeKeyframe_Fun env pos undo redo notify m = some s ∧ s.res = true ∧
      s.model.m_keyframeList = KeyframeList.erase m.m_keyframeList pos ∧
      s.model.m_paramType = m.m_paramType ∧ s.model.m_model = m.m_model ∧
      s.undo = (UPDATE_UNDO_REDO (deleteKeyframe_lambda env pos notify)
        (addKeyframe_lambda env pos old.1 old.2 notify) undo redo).1 ∧
      s.redo = (UPDATE_UNDO_REDO (deleteKeyframe_lambda env pos notify)
        (addKeyframe_lambda env pos old.1 old.2 notify) undo redo).2 := by
  have hk : hasKey m.m_keyframeList pos = true := by simp [hasKey, h]
  obtain ⟨m', hm', hl, hp, hmm⟩ := deleteKeyframe_lambda_spec env pos notify m hk h0
  have hm : ({ m with m_keyframeList := m.m_keyframeList } : KeyframeModel) = m := rfl
  refine ⟨⟨true, _, _, m'⟩, ?_, rfl, hl, hp, hmm, rfl, rfl⟩
  simp [removeKeyframe_Fun, Q_ASSERT, hk, subscript_of_at? env _ _ _ h, runLocal, hm']

theorem addKeyframe_Fun_absent (env : Env) (pos : GenTime) (t : KeyframeType) (v : QVariant)
    (notify : Bool) (undo redo : Fun) (m : KeyframeModel)
    (h : at? m.m_keyframeList pos = none) :
    ∃ s, addKeyframe_Fun env pos t v notify undo redo m = some s ∧ s.res = true ∧
      s.model.m_keyframeList = assign m.m_keyframeList pos (t, v) ∧
      s.model.m_paramType = m.m_paramType ∧ s.model.m_model = m.m_model ∧
      s.undo = (UPDATE_UNDO_REDO (addKeyframe_lambda env pos t v notify)
        (deleteKeyframe_lambda env pos notify) undo redo).1 ∧
      s.redo = (UPDATE_UNDO_REDO (addKeyframe_lambda env pos t v notify)
        (deleteKeyframe_lambda env pos notify) undo redo).2 := by
  have hk : hasKey m.m_keyframeList pos = false := by simp [hasKey, h]
  obtain ⟨m', hm', hl, hp, hmm⟩ := addKeyframe_lambda_spec env pos t v notify m hk
  refine ⟨⟨true, _, _, m'⟩, ?_, rfl, hl, hp, hmm, rfl, rfl⟩
  simp [addKeyframe_Fun, h, runLocal, hm']

theorem addKeyframe_Fun_changed (env : Env) (pos : GenTime) (t : KeyframeType) (v : QVariant)
    (notify : Bool) (undo redo : Fun) (m : KeyframeModel) (old : KeyframeType × QVariant)
    (h : at? m.m_keyframeList pos = some old)
    (hne : ¬ (t = old.1 ∧ env.variantEq v old.2 = true)) :
    ∃ s, addKeyframe_Fun env pos t v notify undo redo m = some s ∧ s.res = true ∧
      s.model.m_keyframeList = assign m.m_keyframeList pos (t, v) ∧
      s.model.m_paramType = m.m_paramType ∧ s.model.m_model = m.m_model ∧
      s.undo = (UPDATE_UNDO_REDO (updateKeyframe_lambda env pos t v notify)
        (updateKeyframe_lambda env pos old.1 old.2 notify) undo redo).1 ∧
      s.redo = (UPDATE_UNDO_REDO (updateKeyframe_lambda env pos t v notify)
        (updateKeyframe_lambda env pos old.1 old.2 notify) undo redo).2 := by
  have hk : hasKey m.m_keyframeList pos = true := by simp [hasKey, h]
  obtain ⟨m', hm', hl, hp, hmm⟩ := updateKeyframe_lambda_spec env pos t v notify m hk
  refine ⟨⟨true, _, _, m'⟩, ?_, rfl, hl, hp, hmm, rfl, rfl⟩
  simp [addKeyframe_Fun, h, hne, runLocal, hm']

theorem addKeyframe_Fun_same (env : Env) (pos : GenTime) (t : KeyframeType) (v : QVariant)
    (notify : Bool) (undo redo : Fun) (m : KeyframeModel) (old : KeyframeType × QVariant)
    (h : at? m.m_keyframeList pos = some old)
    (heq : t = old.1 ∧ env.variantEq v old.2 = true) :
    addKeyframe_Fun env pos t v notify undo redo m = some ⟨true, undo, redo, m⟩ := by
  simp only [addKeyframe_Fun, h]
  rw [if_pos heq]

/-- The general shape of a successful `addKeyframe` with undo/redo references:
the entry is assigned, or the model is left alone because the stored entry
has the same type and a value that compares equal. -/
theorem addKeyframe_Fun_ok (env : Env) (pos : GenTime) (t : KeyframeType) (v : QVariant)
    (notify : Bool) (undo redo : Fun) (m : KeyframeModel) :
    ∃ s, addKeyframe_Fun env pos t v notify undo redo m = some s ∧ s.res = true ∧
      (s.model.m_keyframeList = assign m.m_keyframeList pos (t, v) ∨
        (s.model = m ∧ ∃ old, at? m.m_keyframeList pos = some old ∧ t = old.1 ∧
          env.variantEq v old.2 = true)) ∧
      s.model.m_paramType = m.m_paramType ∧ s.model.m_model = m.m_model := by
  cases h : at? m.m_keyframeList pos with
  | none =>
    obtain ⟨s, h1, h2, h3, h4, h5, -, -⟩ := addKeyframe_Fun_absent env pos t v notify undo redo m h
    exact ⟨s, h1, h2, Or.inl h3, h4, h5⟩
  | some old =>
    by_cases heq : t = old.1 ∧ env.variantEq v old.2 = true
    · exact ⟨_, addKeyframe_Fun_same env pos t v notify undo redo m old h heq, rfl,
        Or.inr ⟨rfl, old, rfl, heq⟩, rfl, rfl⟩
    · obtain ⟨s, h1, h2, h3, h4, h5, -, -⟩ :=
        addKeyframe_Fun_changed env pos t v notify undo redo m old h heq
      exact ⟨s, h1, h2, Or.inl h3, h4, h5⟩

theorem length_erase (l : KeyframeList) (k : GenTime) (v : KeyframeType × QVariant)
    (hl : WF l) (h : at? l k = some v) : (KeyframeList.erase l k).length + 1 = l.length := by
  induction l with
  | nil => simp [at?] at h
  | cons e r ih =>
    obtain ⟨k', w⟩ := e
    rw [WF_cons] at hl
    by_cases h2 : k' = k
    · subst h2
      rw [erase_cons_self, erase_eq_self r k' (fun a ha => ne_of_gt (hl.1 a ha))]
      rfl
    · have hr : at? r k = some v := by simpa [at?, h2] using h
      rw [erase_cons_of_ne _ _ _ _ h2]
      simp only [List.length_cons]
      rw [ih hl.2 hr]

theorem WF_nodup_keys (l : KeyframeList) (h : WF l) : (keys l).Nodup := by
  induction l with
  | nil => simp [keys]
  | cons e r ih =>
    rw [WF_cons] at h
    simp only [keys, List.map_cons, List.nodup_cons, List.mem_map, not_exists, not_and]
    refine ⟨?_, ih h.2⟩
    intro a ha hx
    exact absurd (h.1 a ha) (by rw [hx]; exact lt_irrefl _)

theorem removeEach_spec (env : Env) (ps : List GenTime) (u r : Fun) (m : KeyframeModel)
    (hnd : ps.Nodup) (hmem : ∀ p ∈ ps, hasKey m.m_keyframeList p = true)
    (h0 : ∀ p ∈ ps, p ≠ 0) :
    ∃ s, removeEach env ps u r m = some s ∧ s.res = true ∧
      s.model.m_keyframeList = m.m_keyframeList.filter (fun e => decide (e.1 ∉ ps)) ∧
      s.model.m_paramType = m.m_paramType ∧ s.model.m_model = m.m_model := by
  induction ps generalizing u r m with
  | nil => exact ⟨_, rfl, rfl, by simp, rfl, rfl⟩
  | cons p ps ih =>
    rw [List.nodup_cons] at hnd
    obtain ⟨old, hold⟩ := Option.isSome_iff_exists.1 (hmem p (List.mem_cons_self _ _))
    obtain ⟨s1, e1, e2, e3, e4, e5, -, -⟩ :=
      removeKeyframe_Fun_spec env p u r false m old hold (h0 p (List.mem_cons_self _ _))
    have hmem2 : ∀ q ∈ ps, hasKey s1.model.m_keyframeList q = true := by
      intro q hq
      have hqp : q ≠ p := fun x => hnd.1 (x ▸ hq)
      have := hmem q (List.mem_cons_of_mem _ hq)
      simpa [hasKey, e3, at?_erase_of_ne _ _ _ hqp] using this
    obtain ⟨s2, f1, f2, f3, f4, f5⟩ :=
      ih s1.undo s1.redo s1.model hnd.2 hmem2 (fun q hq => h0 q (List.mem_cons_of_mem _ hq))
    refine ⟨s2, ?_, f2, ?_, f4.trans e4, f5.trans e5⟩
    · simp [removeEach, e1, e2, f1]
    · rw [f3, e3, KeyframeList.erase, List.filter_filter]
      apply List.filter_congr
      intro a _
      simp [List.mem_cons, not_or, Bool.and_comm]

theorem removeBatch_spec (env : Env) (first last : Int) (ps : List GenTime) (undo redo : Fun)
    (m : KeyframeModel) (hnd : ps.Nodup) (hmem : ∀ p ∈ ps, hasKey m.m_keyframeList p = true)
    (h0 : ∀ p ∈ ps, p ≠ 0) :
    ∃ s, removeBatch env first last ps undo redo m = some s ∧ s.res = true ∧
      s.model.m_keyframeList = m.m_keyframeList.filter (fun e => decide (e.1 ∉ ps)) ∧
      s.model.m_paramType = m.m_paramType ∧ s.model.m_model = m.m_model := by
  obtain ⟨s, e1, e2, e3, e4, e5⟩ :=
    removeEach_spec env ps
      (PUSH_LAMBDA (fun x => some (true, x.emit (Signal.beginInsertRows first last))) Fun.id)
      (PUSH_LAMBDA (fun x => some (true, x.emit (Signal.beginRemoveRows first last))) Fun.id)
      (m.emit (Signal.beginRemoveRows first last)) hnd hmem h0
  simp only [removeBatch, KeyframeModel.emit] at e1 ⊢
  simp only [Option.bind_eq_bind, Option.some_bind, e1, e2, if_true]
  exact ⟨_, rfl, rfl, e3, e4, e5⟩

/-! ## The claims -/

/-- C1 (sentinel invariant `count() >= 1`), evaluated where the code breaks it:
in every build, `removeNextKeyframes(GenTime(0))` on the store whose only
keyframe is at frame 5 returns `true` and leaves the store empty. -/
theorem removeNextKeyframes_empties_store (env : Env) :
    (removeNextKeyframes env 0 Fun.id Fun.id (storeOf fiveOnly)).map
      (fun s => (s.res, s.model.m_keyframeList.length)) = some (true, 0) := by
  cases h : env.qtDebug <;>
  simp [removeNextKeyframes, removeBatch, removeEach, removeKeyframe_Fun, storeOf, fiveOnly,
    Q_ASSERT, h, hasKey, at?, subscript, runLocal, deleteKeyframe_lambda, KeyframeList.erase,
    KeyframeModel.emit, PUSH_LAMBDA, Fun.id, UPDATE_UNDO_REDO]

/-- C2 (the keyframe at time zero is never deleted or relocated), evaluated
where the code breaks it: with assertions compiled out, `moveKeyframe(0, 5)`
on the store holding only the keyframe at time zero returns `true` and leaves
a store with no keyframe at time zero (the keyframe now sits at frame 5); with
assertions compiled in, the same call ends in the failed assertion of
`deleteKeyframe_lambda`. -/
theorem moveKeyframe_relocates_time_zero :
    (moveKeyframe_int releaseEnv 0 5 true (storeOf zeroOnly)).map
        (fun d => (d.res, d.model.m_keyframeList, d.model.m_keyframeList.hasKey 0)) =
      some (true, [(5, KeyframeType.Linear, QVariant.real 1)], false) ∧
    (moveKeyframe_int debugEnv 0 5 true (storeOf zeroOnly)).isNone = true :=
  ⟨rfl, rfl⟩

/-- C3: on a store that holds `pos` as its first (minimum-time) keyframe,
`removeKeyframe(pos)` returns `false`, leaves the model as it was and pushes
no undo command. -/
theorem removeKeyframe_first_refused (env : Env) (m : KeyframeModel) (pos : GenTime)
    (hwf : WF m.m_keyframeList) (hmem : hasKey m.m_keyframeList pos = true)
    (hmin : ∀ a ∈ m.m_keyframeList, pos ≤ a.1) :
    removeKeyframe env pos m = some ⟨false, m, []⟩ := by
  cases hl : m.m_keyframeList with
  | nil => rw [hl] at hmem; simp [hasKey, at?] at hmem
  | cons e r =>
    obtain ⟨k, w⟩ := e
    rw [hl] at hwf hmem hmin
    rw [WF_cons] at hwf
    have hk : k = pos := by
      by_contra hne
      have hr : hasKey r pos = true := by simpa [hasKey, at?, hne] using hmem
      rw [hasKey_iff_mem_keys] at hr
      simp only [keys, List.mem_map] at hr
      obtain ⟨a, ha, rfl⟩ := hr
      have h1 : k < a.1 := hwf.1 a ha
      have h2 : a.1 ≤ k := hmin (k, w) (List.mem_cons_self _ _)
      exact absurd h1 (not_lt.2 h2)
    subst hk
    simp [removeKeyframe, hl, hasKey, at?, rowOf]

theorem removeKeyframe_first_refused_witness :
    WF (storeOf sampleList).m_keyframeList ∧
      hasKey (storeOf sampleList).m_keyframeList 0 = true ∧
      (∀ a ∈ (storeOf sampleList).m_keyframeList, (0 : GenTime) ≤ a.1) ∧
      removeKeyframe debugEnv 0 (storeOf sampleList) = some ⟨false, storeOf sampleList, []⟩ :=
  ⟨by decide, by decide, by decide,
    removeKeyframe_first_refused debugEnv (storeOf sampleList) 0 (by decide) (by decide)
      (by decide)⟩

/-- C4 as stated fails: with assertions compiled in, `removeAllKeyframes()` on
the store with keyframes at frames -5 and 0 does not return; it ends in the
failed assertion `pos != GenTime()` when it deletes the keyframe at time
zero. -/
theorem removeAllKeyframes_aborts_on_later_zero :
    removeAllKeyframes debugEnv (storeOf negativeFirst) = none := rfl

/-- C4, amended: on a non-empty store in which no keyframe after the first is
at time zero, `removeAllKeyframes()` returns `true`, the store is left with
exactly the former first keyframe (time, type and value unchanged), and one
command is pushed on the undo stack. -/
theorem removeAllKeyframes_keeps_first (env : Env) (m : KeyframeModel) (e : Entry)
    (rest : KeyframeList) (hwf : WF m.m_keyframeList) (hl : m.m_keyframeList = e :: rest)
    (h0 : ∀ a ∈ rest, a.1 ≠ 0) :
    ∃ d, removeAllKeyframes env m = some d ∧ d.res = true ∧ d.model.m_keyframeList = [e] ∧
      d.pushed.length = 1 := by
  have hwf2 := hwf
  rw [hl, WF_cons] at hwf2
  have hps : (keys m.m_keyframeList).tail = keys rest := by simp [hl, keys]
  have hnd : (keys rest).Nodup := WF_nodup_keys rest hwf2.2
  have hmem : ∀ p ∈ keys rest, hasKey m.m_keyframeList p = true := by
    intro p hp
    rw [hasKey_iff_mem_keys, hl]
    simp only [keys, List.map_cons, List.mem_cons]
    exact Or.inr hp
  have h0' : ∀ p ∈ keys rest, p ≠ 0 := by
    intro p hp
    simp only [keys, List.mem_map] at hp
    obtain ⟨a, ha, rfl⟩ := hp
    exact h0 a ha
  obtain ⟨s, e1, e2, e3, -, -⟩ :=
    removeBatch_spec env 1 ((m.m_keyframeList.length : Int) - 1) (keys rest) Fun.id Fun.id m
      hnd hmem h0'
  have hd : removeAllKeyframes env m = some ⟨s.res, s.model,
      if s.res then PUSH_UNDO s.undo s.redo "Delete all keyframes" else []⟩ := by
    simp [removeAllKeyframes, removeAllKeyframes_Fun, hps, e1]
  refine ⟨_, hd, e2, ?_, ?_⟩
  · simp only [e3, hl]
    have h1 : e.1 ∉ keys rest := by
      simp only [keys, List.mem_map, not_exists, not_and]
      intro a ha hx
      exact absurd (hwf2.1 a ha) (by rw [hx]; exact lt_irrefl _)
    have h2 : rest.filter (fun a => decide (a.1 ∉ keys rest)) = [] := by
      rw [List.filter_eq_nil_iff]
      intro a ha
      simp only [keys, List.mem_map, not_exists, not_and, decide_eq_true_eq, not_forall,
        not_not]
      exact ⟨a, ha, rfl⟩
    rw [List.filter_cons, h2]
    simp [h1]
  · simp [e2, PUSH_UNDO]

theorem removeAllKeyframes_keeps_first_witness :
    WF sampleList ∧
      (∀ a ∈ [(5, KeyframeType.Curve, QVariant.real 2),
          (9, KeyframeType.Discrete, QVariant.text "a")], a.1 ≠ (0 : GenTime)) ∧
      ∃ d, removeAllKeyframes debugEnv (storeOf sampleList) = some d ∧ d.res = true ∧
        d.model.m_keyframeList = [(0, KeyframeType.Linear, QVariant.real 1)] ∧
        d.pushed.length = 1 :=
  ⟨by decide, by decide,
    removeAllKeyframes_keeps_first debugEnv (storeOf sampleList) _ _ (by decide) rfl
      (by decide)⟩

/-- C5 as stated fails: on the scalar store whose keyframe at frame 0 is
`(Linear, 10^12)`, `addKeyframe(0, Linear, 10^12 + 1)` returns `true` in both
builds and leaves the value 10^12 in place: the types agree and the comparison
of the two values, fuzzy on numbers, takes them for equal, so the call finds
nothing to do. -/
theorem addKeyframe_keeps_equal_value :
    (addKeyframe debugEnv 0 KeyframeType.Linear (QVariant.real 1000000000001)
        (storeOf largeValue)).map (fun d => (d.res, at? d.model.m_keyframeList 0)) =
      some (true, some (KeyframeType.Linear, QVariant.real 1000000000000)) ∧
    (addKeyframe releaseEnv 0 KeyframeType.Linear (QVariant.real 1000000000001)
        (storeOf largeValue)).map (fun d => (d.res, at? d.model.m_keyframeList 0)) =
      some (true, some (KeyframeType.Linear, QVariant.real 1000000000000)) := by
  have hq : qFuzzyCompare 1000000000001 1000000000000 = true := by
    simp only [qFuzzyCompare, decide_eq_true_eq]; norm_num
  have hv : qtVariantEq (QVariant.real 1000000000001) (QVariant.real 1000000000000) = true := by
    simp [qtVariantEq, hq]
  constructor <;>
  simp [addKeyframe, addKeyframe_Fun, debugEnv, releaseEnv, storeOf, largeValue, hasKey, at?, hv]

/-- C5, amended: `addKeyframe(pos, type, value)` is insert-or-assign up to the
comparison of variants.  On every store it returns `true`.  When the store
holds at `pos` an entry of the same type whose value `QVariant::operator==`
takes for equal to `value`, the model is left as it was; otherwise the entry
at `pos` is `(type, value)` afterwards.  In both cases the entry at every
other time is what it was, the size grew by one if `pos` was absent and is
unchanged if it was present, and the keys are still strictly ascending (no
duplicate key). -/
theorem addKeyframe_insert_or_assign (env : Env) (m : KeyframeModel) (pos : GenTime)
    (t : KeyframeType) (v : QVariant) (hwf : WF m.m_keyframeList) :
    ∃ d, addKeyframe env pos t v m = some d ∧ d.res = true ∧
      ((∃ old, at? m.m_keyframeList pos = some old ∧ t = old.1 ∧
          env.variantEq v old.2 = true) → d.model = m) ∧
      ((¬ ∃ old, at? m.m_keyframeList pos = some old ∧ t = old.1 ∧
          env.variantEq v old.2 = true) →
        at? d.model.m_keyframeList pos = some (t, v)) ∧
      (∀ q, q ≠ pos → at? d.model.m_keyframeList q = at? m.m_keyframeList q) ∧
      d.model.m_keyframeList.length =
        (if hasKey m.m_keyframeList pos = true then m.m_keyframeList.length
         else m.m_keyframeList.length + 1) ∧
      WF d.model.m_keyframeList := by
  have hd : ∀ s, addKeyframe_Fun env pos t v true Fun.id Fun.id m = some s →
      addKeyframe env pos t v m = some ⟨s.res, s.model,
        if s.res then PUSH_UNDO s.undo s.redo
          (if hasKey m.m_keyframeList pos then "Change keyframe type" else "Add keyframe")
        else []⟩ := by
    intro s h1
    simp [addKeyframe, h1]
  have hassign : ∀ s, addKeyframe_Fun env pos t v true Fun.id Fun.id m = some s →
      s.res = true → s.model.m_keyframeList = assign m.m_keyframeList pos (t, v) →
      (¬ ∃ old, at? m.m_keyframeList pos = some old ∧ t = old.1 ∧
          env.variantEq v old.2 = true) →
      ∃ d, addKeyframe env pos t v m = some d ∧ d.res = true ∧
        ((∃ old, at? m.m_keyframeList pos = some old ∧ t = old.1 ∧
            env.variantEq v old.2 = true) → d.model = m) ∧
        ((¬ ∃ old, at? m.m_keyframeList pos = some old ∧ t = old.1 ∧
            env.variantEq v old.2 = true) →
          at? d.model.m_keyframeList pos = some (t, v)) ∧
        (∀ q, q ≠ pos → at? d.model.m_keyframeList q = at? m.m_keyframeList q) ∧
        d.model.m_keyframeList.length =
          (if hasKey m.m_keyframeList pos = true then m.m_keyframeList.length
           else m.m_keyframeList.length + 1) ∧
        WF d.model.m_keyframeList := by
    intro s h1 h2 h3 hno
    refine ⟨_, hd s h1, h2, fun hex => absurd hex hno, fun _ => ?_, ?_, ?_, ?_⟩
    · simp only [h3]; exact at?_assign_self _ _ _
    · intro q hq; simp only [h3]; exact at?_assign_of_ne _ _ _ _ hq
    · simp only [h3]; exact length_assign _ _ _ hwf
    · simp only [h3]; exact WF_assign _ _ _ hwf
  rcases Option.eq_none_or_eq_some (at? m.m_keyframeList pos) with h | ⟨old, h⟩
  · obtain ⟨s, h1, h2, h3, -, -, -, -⟩ :=
      addKeyframe_Fun_absent env pos t v true Fun.id Fun.id m h
    exact hassign s h1 h2 h3 (fun ⟨old, ho, _⟩ => by rw [h] at ho; exact Option.noConfusion ho)
  · by_cases heq : t = old.1 ∧ env.variantEq v old.2 = true
    · have h1 := addKeyframe_Fun_same env pos t v true Fun.id Fun.id m old h heq
      have hk : hasKey m.m_keyframeList pos = true := by simp [hasKey, h]
      refine ⟨_, hd _ h1, rfl, fun _ => rfl, fun hno => absurd ⟨old, h, heq⟩ hno,
        fun q _ => rfl, ?_, hwf⟩
      simp [hk]
    · obtain ⟨s, h1, h2, h3, -, -, -, -⟩ :=
        addKeyframe_Fun_changed env pos t v true Fun.id Fun.id m old h heq
      refine hassign s h1 h2 h3 ?_
      rintro ⟨old', ho, he⟩
      rw [h] at ho
      simp only [Option.some.injEq] at ho
      subst ho
      exact heq he

theorem addKeyframe_insert_or_assign_witness :
    WF sampleList ∧
      ∃ d, addKeyframe debugEnv 7 KeyframeType.Curve (QVariant.real 3) (storeOf sampleList) =
          some d ∧ d.res = true ∧
        at? d.model.m_keyframeList 7 = some (KeyframeType.Curve, QVariant.real 3) ∧
        (∀ q, q ≠ 7 → at? d.model.m_keyframeList q = at? (storeOf sampleList).m_keyframeList q) ∧
        d.model.m_keyframeList.length =
          (if hasKey (storeOf sampleList).m_keyframeList 7 = true
            then (storeOf sampleList).m_keyframeList.length
            else (storeOf sampleList).m_keyframeList.length + 1) ∧
        WF d.model.m_keyframeList :=
  ⟨by decide,
    match addKeyframe_insert_or_assign debugEnv (storeOf sampleList) 7 KeyframeType.Curve
      (QVariant.real 3) (by decide) with
    | ⟨d, h1, h2, _, h4, h5, h6, h7⟩ =>
      ⟨d, h1, h2, h4 (fun ⟨_, ho, _⟩ => Option.noConfusion ho), h5, h6, h7⟩⟩

/-- C6 as stated fails: with assertions compiled in, `addKeyframe` at time zero
on the empty store succeeds, but the undo closure it composed does not return;
it ends in the failed assertion `pos != GenTime()` of
`deleteKeyframe_lambda`. -/
theorem addKeyframe_undo_aborts_at_zero :
    ∃ s, addKeyframe_Fun debugEnv 0 KeyframeType.Linear (QVariant.real 1) true Fun.id Fun.id
        (storeOf []) = some s ∧ s.res = true ∧ s.undo s.model = none :=
  ⟨_, rfl, rfl, rfl⟩

/-- C6, amended: when `pos` is occupied or is not time zero, `addKeyframe(pos,
type, value, notify, undo, redo)` called with trivial `undo` and `redo`
returns `true`, and running the `undo` it composed on the resulting model
returns `true` and gives back the keyframe list the model had before the
call. -/
theorem addKeyframe_undo_restores (env : Env) (m : KeyframeModel) (pos : GenTime)
    (t : KeyframeType) (v : QVariant) (notify : Bool) (hwf : WF m.m_keyframeList)
    (h0 : hasKey m.m_keyframeList pos = true ∨ pos ≠ 0) :
    ∃ s m', addKeyframe_Fun env pos t v notify Fun.id Fun.id m = some s ∧ s.res = true ∧
      s.undo s.model = some (true, m') ∧ m'.m_keyframeList = m.m_keyframeList := by
  cases h : at? m.m_keyframeList pos with
  | none =>
    have hp : pos ≠ 0 := by
      rcases h0 with h0 | h0
      · simp [hasKey, h] at h0
      · exact h0
    obtain ⟨s, h1, h2, h3, -, -, h6, -⟩ :=
      addKeyframe_Fun_absent env pos t v notify Fun.id Fun.id m h
    have hk : hasKey s.model.m_keyframeList pos = true := by
      simp [hasKey, h3, at?_assign_self]
    obtain ⟨m', hm', hl, -, -⟩ := deleteKeyframe_lambda_spec env pos notify s.model hk hp
    refine ⟨s, m', h1, h2, ?_, ?_⟩
    · rw [h6]; simp [UPDATE_UNDO_REDO, hm', Fun.id]
    · rw [hl, h3]; exact erase_assign_of_absent _ _ _ h
  | some old =>
    by_cases hne : t = old.1 ∧ env.variantEq v old.2 = true
    · exact ⟨_, m, addKeyframe_Fun_same env pos t v notify Fun.id Fun.id m old h hne, rfl, rfl,
        rfl⟩
    · obtain ⟨s, h1, h2, h3, -, -, h6, -⟩ :=
        addKeyframe_Fun_changed env pos t v notify Fun.id Fun.id m old h hne
      have hk : hasKey s.model.m_keyframeList pos = true := by
        simp [hasKey, h3, at?_assign_self]
      obtain ⟨m', hm', hl, -, -⟩ :=
        updateKeyframe_lambda_spec env pos old.1 old.2 notify s.model hk
      refine ⟨s, m', h1, h2, ?_, ?_⟩
      · rw [h6]; simp [UPDATE_UNDO_REDO, hm', Fun.id]
      · rw [hl, h3, assign_assign]; exact assign_eq_self _ _ _ hwf h

theorem addKeyframe_undo_restores_witness :
    WF sampleList ∧ (hasKey sampleList 5 = true ∨ (5 : GenTime) ≠ 0) ∧
      ∃ s m', addKeyframe_Fun debugEnv 5 KeyframeType.Linear (QVariant.real 7) true Fun.id
          Fun.id (storeOf sampleList) = some s ∧ s.res = true ∧
        s.undo s.model = some (true, m') ∧
        m'.m_keyframeList = (storeOf sampleList).m_keyframeList :=
  ⟨by decide, by decide,
    addKeyframe_undo_restores debugEnv (storeOf sampleList) 5 KeyframeType.Linear
      (QVariant.real 7) true (by decide) (by decide)⟩

/-- C7 as stated fails: with assertions compiled in, `removeKeyframe(0)` on the
store with keyframes at frames -5 and 0 (time zero is present and is not the
first keyframe) does not return; it ends in the failed assertion
`pos != GenTime()`. -/
theorem removeKeyframe_aborts_at_zero :
    removeKeyframe debugEnv 0 (storeOf negativeFirst) = none := rfl

/-- C7, amended: for `pos` that has an entry, is not the first keyframe and is
not time zero, `removeKeyframe(pos)` returns `true` and leaves the store with
exactly the entry at `pos` deleted; it pushes one command, and running that
command's undo on the result returns `true` and gives back the original
keyframe list. -/
theorem removeKeyframe_then_undo (env : Env) (m : KeyframeModel) (pos : GenTime)
    (old : KeyframeType × QVariant) (hwf : WF m.m_keyframeList)
    (h : at? m.m_keyframeList pos = some old)
    (hfirst : m.m_keyframeList.head?.map Prod.fst ≠ some pos) (h0 : pos ≠ 0) :
    ∃ d c m', removeKeyframe env pos m = some d ∧ d.res = true ∧
      d.model.m_keyframeList = m.m_keyframeList.filter (fun e => decide (e.1 ≠ pos)) ∧
      d.pushed = [c] ∧ c.undo d.model = some (true, m') ∧
      m'.m_keyframeList = m.m_keyframeList := by
  have hk : hasKey m.m_keyframeList pos = true := by simp [hasKey, h]
  have hrow : rowOf m.m_keyframeList pos ≠ 0 := by
    cases hl : m.m_keyframeList with
    | nil => rw [hl] at h; simp [at?] at h
    | cons e r =>
      obtain ⟨k, w⟩ := e
      rw [hl] at hfirst
      have hkp : ¬ k = pos := by simpa using hfirst
      have := rowOf_nonneg r pos
      simp only [rowOf, hkp, if_false]
      omega
  obtain ⟨s, h1, h2, h3, -, -, h6, -⟩ :=
    removeKeyframe_Fun_spec env pos Fun.id Fun.id env.removeNotify m old h h0
  have hd : removeKeyframe env pos m = some ⟨s.res, s.model,
      if s.res then PUSH_UNDO s.undo s.redo "Delete keyframe" else []⟩ := by
    simp [removeKeyframe, hk, hrow, h1]
  have hk2 : hasKey s.model.m_keyframeList pos = false := by
    simp [hasKey, h3, at?_erase_self]
  obtain ⟨m', hm', hl, -, -⟩ :=
    addKeyframe_lambda_spec env pos old.1 old.2 env.removeNotify s.model hk2
  refine ⟨_, ⟨s.undo, s.redo, "Delete keyframe"⟩, m', hd, h2, h3, ?_, ?_, ?_⟩
  · simp [h2, PUSH_UNDO]
  · show s.undo s.model = some (true, m')
    rw [h6]; simp [UPDATE_UNDO_REDO, hm', Fun.id]
  · rw [hl, h3]; exact assign_erase _ _ _ hwf h

theorem removeKeyframe_then_undo_witness :
    WF sampleList ∧ at? sampleList 5 = some (KeyframeType.Curve, QVariant.real 2) ∧
      sampleList.head?.map Prod.fst ≠ some 5 ∧ (5 : GenTime) ≠ 0 ∧
      ∃ d c m', removeKeyframe debugEnv 5 (storeOf sampleList) = some d ∧ d.res = true ∧
        d.model.m_keyframeList =
          (storeOf sampleList).m_keyframeList.filter (fun e => decide (e.1 ≠ 5)) ∧
        d.pushed = [c] ∧ c.undo d.model = some (true, m') ∧
        m'.m_keyframeList = (storeOf sampleList).m_keyframeList :=
  ⟨by decide, by decide, by decide, by decide,
    removeKeyframe_then_undo debugEnv (storeOf sampleList) 5 _ (by decide) rfl (by decide)
      (by decide)⟩

/-- C8 as stated fails: with assertions compiled in,
`removeNextKeyframes(GenTime(-1))` on the store holding only the keyframe at
time zero does not return; it ends in the failed assertion
`pos != GenTime()`. -/
theorem removeNextKeyframes_aborts_at_zero :
    (removeNextKeyframes debugEnv (-1) Fun.id Fun.id (storeOf zeroOnly)).isNone = true := rfl

/-- C8, amended: when no keyframe after `pos` is at time zero or is the first
keyframe, `removeNextKeyframes(pos, undo, redo)` returns `true` and the
resulting store consists of exactly the original entries whose time is
`<= pos`, in order and unchanged. -/
theorem removeNextKeyframes_keeps_upto (env : Env) (m : KeyframeModel) (pos : GenTime)
    (undo redo : Fun) (hwf : WF m.m_keyframeList)
    (h0 : ∀ a ∈ m.m_keyframeList, pos < a.1 → a.1 ≠ 0 ∧ m.m_keyframeList.head? ≠ some a) :
    ∃ s, removeNextKeyframes env pos undo redo m = some s ∧ s.res = true ∧
      s.model.m_keyframeList = m.m_keyframeList.filter (fun e => decide (e.1 ≤ pos)) := by
  have hsub : List.Sublist
      ((m.m_keyframeList.filter (fun e => decide (¬ e.1 ≤ pos))).map Prod.fst)
      (keys m.m_keyframeList) := (List.filter_sublist _).map _
  have hnd := (WF_nodup_keys _ hwf).sublist hsub
  have hmem : ∀ p ∈ (m.m_keyframeList.filter (fun e => decide (¬ e.1 ≤ pos))).map Prod.fst,
      hasKey m.m_keyframeList p = true := by
    intro p hp
    rw [hasKey_iff_mem_keys]
    exact hsub.subset hp
  have h0' : ∀ p ∈ (m.m_keyframeList.filter (fun e => decide (¬ e.1 ≤ pos))).map Prod.fst,
      p ≠ 0 := by
    intro p hp
    simp only [List.mem_map, List.mem_filter, decide_eq_true_eq, not_le] at hp
    obtain ⟨a, ⟨ha, hlt⟩, rfl⟩ := hp
    exact (h0 a ha hlt).1
  obtain ⟨s, e1, e2, e3, -, -⟩ := removeBatch_spec env _ _ _ undo redo m hnd hmem h0'
  refine ⟨s, ?_, e2, ?_⟩
  · simpa [removeNextKeyframes] using e1
  · rw [e3]
    apply List.filter_congr
    intro a ha
    simp only [List.mem_map, List.mem_filter, decide_eq_true_eq, not_le, not_exists, not_and,
      and_imp, decide_eq_decide]
    constructor
    · intro hx
      by_contra hc
      exact hx a ha (not_le.1 hc) rfl
    · intro hle b hb hlt hba
      rw [hba] at hlt
      exact absurd hle (not_le.2 hlt)

theorem removeNextKeyframes_keeps_upto_witness :
    WF sampleList ∧
      (∀ a ∈ (storeOf sampleList).m_keyframeList, (5 : GenTime) < a.1 →
        a.1 ≠ 0 ∧ (storeOf sampleList).m_keyframeList.head? ≠ some a) ∧
      ∃ s, removeNextKeyframes debugEnv 5 Fun.id Fun.id (storeOf sampleList) = some s ∧
        s.res = true ∧
        s.model.m_keyframeList =
          (storeOf sampleList).m_keyframeList.filter (fun e => decide (e.1 ≤ 5)) :=
  ⟨by decide, by decide,
    removeNextKeyframes_keeps_upto debugEnv (storeOf sampleList) 5 Fun.id Fun.id (by decide)
      (by decide)⟩

/-- C9 as stated fails: with assertions compiled in, `moveKeyframe(0, 5)` on
the store holding only the keyframe at time zero (an entry at the old
position, none at the new one) does not return; it ends in the failed
assertion `pos != GenTime()`. -/
theorem moveKeyframe_aborts_at_zero :
    moveKeyframe_int debugEnv 0 5 true (storeOf zeroOnly) = none := rfl

/-- C9, amended: for a store with an entry `(type, value)` at `oldPos`, none at
`newPos`, and `oldPos` not time zero, `moveKeyframe(oldPos, newPos, logUndo)`
(the move with `newVal = -1`) returns `true`; afterwards `newPos` holds
`(type, value)`, `oldPos` holds nothing, every other time holds what it held,
the size is unchanged and the keys are still strictly ascending. -/
theorem moveKeyframe_relocates_entry (env : Env) (m : KeyframeModel) (oldPos newPos : GenTime)
    (logUndo : Bool) (tv : KeyframeType × QVariant) (hwf : WF m.m_keyframeList)
    (h : at? m.m_keyframeList oldPos = some tv) (hnew : at? m.m_keyframeList newPos = none)
    (h0 : oldPos ≠ 0) :
    ∃ d, moveKeyframe_int env oldPos newPos logUndo m = some d ∧ d.res = true ∧
      at? d.model.m_keyframeList newPos = some tv ∧
      at? d.model.m_keyframeList oldPos = none ∧
      (∀ q, q ≠ oldPos → q ≠ newPos →
        at? d.model.m_keyframeList q = at? m.m_keyframeList q) ∧
      d.model.m_keyframeList.length = m.m_keyframeList.length ∧
      WF d.model.m_keyframeList := by
  have hne : oldPos ≠ newPos := by
    intro x; rw [x, hnew] at h; exact Option.noConfusion h
  have hk : hasKey m.m_keyframeList oldPos = true := by simp [hasKey, h]
  have hkn : hasKey m.m_keyframeList newPos = false := by simp [hasKey, hnew]
  obtain ⟨r, r1, r2, r3, -, -, -, -⟩ :=
    removeKeyframe_Fun_spec env oldPos Fun.id Fun.id env.removeNotify m tv h h0
  have hnew2 : at? r.model.m_keyframeList newPos = none := by
    rw [r3, at?_erase_of_ne _ _ _ (Ne.symm hne)]; exact hnew
  obtain ⟨s, s1, s2, s3, -, -, -, -⟩ :=
    addKeyframe_Fun_absent env newPos tv.1 tv.2 true r.undo r.redo r.model hnew2
  have hd : moveKeyframe_int env oldPos newPos logUndo m = some ⟨true, s.model,
      if logUndo then PUSH_UNDO (UPDATE_UNDO_REDO s.redo s.undo Fun.id Fun.id).1
        (UPDATE_UNDO_REDO s.redo s.undo Fun.id Fun.id).2 "Move keyframe" else []⟩ := by
    simp [moveKeyframe_int, moveKeyframe, moveKeyframe_Fun, Q_ASSERT, hk, hne,
      subscript_of_at? env _ _ _ h, hkn, r1, r2, s1, s2]
  have hlist : s.model.m_keyframeList =
      assign (KeyframeList.erase m.m_keyframeList oldPos) newPos tv := by rw [s3, r3]
  refine ⟨_, hd, rfl, ?_, ?_, ?_, ?_, ?_⟩
  · simp only [hlist]; exact at?_assign_self _ _ _
  · simp only [hlist]
    rw [at?_assign_of_ne _ _ _ _ hne]; exact at?_erase_self _ _
  · intro q hq1 hq2
    simp only [hlist]
    rw [at?_assign_of_ne _ _ _ _ hq2, at?_erase_of_ne _ _ _ hq1]
  · simp only [hlist]
    rw [length_assign _ _ _ (WF_erase _ _ hwf)]
    have : hasKey (KeyframeList.erase m.m_keyframeList oldPos) newPos = false := by
      simp [hasKey, at?_erase_of_ne _ _ _ (Ne.symm hne), hnew]
    simp only [this, Bool.false_eq_true, if_false]
    exact length_erase _ _ _ hwf h
  · simp only [hlist]; exact WF_assign _ _ _ (WF_erase _ _ hwf)

theorem moveKeyframe_relocates_entry_witness :
    WF sampleList ∧ at? sampleList 5 = some (KeyframeType.Curve, QVariant.real 2) ∧
      at? sampleList 7 = none ∧ (5 : GenTime) ≠ 0 ∧
      ∃ d, moveKeyframe_int debugEnv 5 7 true (storeOf sampleList) = some d ∧ d.res = true ∧
        at? d.model.m_keyframeList 7 = some (KeyframeType.Curve, QVariant.real 2) ∧
        at? d.model.m_keyframeList 5 = none ∧
        (∀ q, q ≠ 5 → q ≠ 7 →
          at? d.model.m_keyframeList q = at? (storeOf sampleList).m_keyframeList q) ∧
        d.model.m_keyframeList.length = (storeOf sampleList).m_keyframeList.length ∧
        WF d.model.m_keyframeList :=
  ⟨by decide, by decide, by decide, by decide,
    moveKeyframe_relocates_entry debugEnv (storeOf sampleList) 5 7 true _ (by decide) rfl rfl
      (by decide)⟩

/-- C10: when both `oldPos` and `newPos` hold an entry and differ,
`moveKeyframe(oldPos, newPos, newVal, ...)` returns `false` for every `newVal`
and leaves the model exactly as it was: nothing is pushed, and the version
taking `undo` and `redo` returns them untouched. -/
theorem moveKeyframe_onto_occupied_fails (env : Env) (m : KeyframeModel)
    (oldPos newPos : GenTime) (newVal : ℚ) (logUndo : Bool) (undo redo : Fun)
    (h1 : hasKey m.m_keyframeList oldPos = true) (h2 : hasKey m.m_keyframeList newPos = true)
    (hne : oldPos ≠ newPos) :
    moveKeyframe env oldPos newPos newVal logUndo m = some ⟨false, m, []⟩ ∧
      moveKeyframe_val env oldPos newPos newVal m = some ⟨false, m, []⟩ ∧
      moveKeyframe_Fun env oldPos newPos newVal undo redo m =
        some (⟨false, undo, redo, m⟩, []) := by
  obtain ⟨w, hw⟩ := Option.isSome_iff_exists.1 h1
  refine ⟨?_, ?_, ?_⟩
  · simp [moveKeyframe, moveKeyframe_Fun, Q_ASSERT, h1, hne, subscript_of_at? env _ _ _ hw, h2]
  · simp [moveKeyframe_val, moveKeyframe, moveKeyframe_Fun, Q_ASSERT, h1, hne,
      subscript_of_at? env _ _ _ hw, h2]
  · simp [moveKeyframe_Fun, Q_ASSERT, h1, hne, subscript_of_at? env _ _ _ hw, h2]

theorem moveKeyframe_onto_occupied_fails_witness :
    hasKey (storeOf sampleList).m_keyframeList 5 = true ∧
      hasKey (storeOf sampleList).m_keyframeList 9 = true ∧ (5 : GenTime) ≠ 9 ∧
      moveKeyframe debugEnv 5 9 (1 / 2) true (storeOf sampleList) =
        some ⟨false, storeOf sampleList, []⟩ ∧
      moveKeyframe_val debugEnv 5 9 (1 / 2) (storeOf sampleList) =
        some ⟨false, storeOf sampleList, []⟩ ∧
      moveKeyframe_Fun debugEnv 5 9 (1 / 2) Fun.id Fun.id (storeOf sampleList) =
        some (⟨false, Fun.id, Fun.id, storeOf sampleList⟩, []) :=
  ⟨by decide, by decide, by decide,
    moveKeyframe_onto_occupied_fails debugEnv (storeOf sampleList) 5 9 (1 / 2) true Fun.id
      Fun.id (by decide) (by decide) (by decide)⟩

/-! ## Further facts: steps that may delete time zero, shifts, iterators -/

theorem deleteKeyframe_lambda_ok (env : Env) (pos : GenTime) (notify : Bool)
    (m : KeyframeModel) (h : hasKey m.m_keyframeList pos = true)
    (h0 : env.qtDebug = false ∨ pos ≠ 0) :
    ∃ m', deleteKeyframe_lambda env pos notify m = some (true, m') ∧
      m'.m_keyframeList = KeyframeList.erase m.m_keyframeList pos ∧
      m'.m_paramType = m.m_paramType ∧ m'.m_model = m.m_model := by
  rcases h0 with h0 | h0 <;>
  cases notify <;> simp [deleteKeyframe_lambda, Q_ASSERT, h, h0, KeyframeModel.emit]

theorem deleteKeyframe_lambda_zero (env : Env) (notify : Bool) (m : KeyframeModel)
    (hd : env.qtDebug = true) : deleteKeyframe_lambda env 0 notify m = none := by
  cases h : hasKey m.m_keyframeList 0 <;> simp [deleteKeyframe_lambda, Q_ASSERT, hd, h]

theorem removeKeyframe_Fun_ok (env : Env) (pos : GenTime) (undo redo : Fun) (notify : Bool)
    (m : KeyframeModel) (old : KeyframeType × QVariant)
    (h : at? m.m_keyframeList pos = some old) (h0 : env.qtDebug = false ∨ pos ≠ 0) :
    ∃ s, removeKeyframe_Fun env pos undo redo notify m = some s ∧ s.res = true ∧
      s.model.m_keyframeList = KeyframeList.erase m.m_keyframeList pos ∧
      s.model.m_paramType = m.m_paramType ∧ s.model.m_model = m.m_model ∧
      s.undo = (UPDATE_UNDO_REDO (deleteKeyframe_lambda env pos notify)
        (addKeyframe_lambda env pos old.1 old.2 notify) undo redo).1 ∧
      s.redo = (UPDATE_UNDO_REDO (deleteKeyframe_lambda env pos notify)
        (addKeyframe_lambda env pos old.1 old.2 notify) undo redo).2 := by
  have hk : hasKey m.m_keyframeList pos = true := by simp [hasKey, h]
  obtain ⟨m', hm', hl, hp, hmm⟩ := deleteKeyframe_lambda_ok env pos notify m hk h0
  refine ⟨⟨true, _, _, m'⟩, ?_, rfl, hl, hp, hmm, rfl, rfl⟩
  simp [removeKeyframe_Fun, Q_ASSERT, hk, subscript_of_at? env _ _ _ h, runLocal, hm']

theorem removeKeyframe_Fun_zero (env : Env) (undo redo : Fun) (notify : Bool)
    (m : KeyframeModel) (hd : env.qtDebug = true) :
    removeKeyframe_Fun env 0 undo redo notify m = none := by
  cases h : hasKey m.m_keyframeList 0
  · simp [removeKeyframe_Fun, Q_ASSERT, hd, h]
  · simp [removeKeyframe_Fun, Q_ASSERT, hd, h, runLocal, deleteKeyframe_lambda_zero env _ _ hd]

theorem moveKeyframe_Fun_spec (env : Env) (a b : GenTime) (undo redo : Fun) (m : KeyframeModel)
    (tv : KeyframeType × QVariant) (h : at? m.m_keyframeList a = some tv)
    (hb : at? m.m_keyframeList b = none) (h0 : env.qtDebug = false ∨ a ≠ 0) :
    ∃ s, moveKeyframe_Fun env a b (-1) undo redo m = some (s, []) ∧ s.res = true ∧
      s.model.m_keyframeList = assign (KeyframeList.erase m.m_keyframeList a) b tv ∧
      s.model.m_paramType = m.m_paramType ∧ s.model.m_model = m.m_model ∧
      s.undo = (UPDATE_UNDO_REDO
        (UPDATE_UNDO_REDO (addKeyframe_lambda env b tv.1 tv.2 true)
          (deleteKeyframe_lambda env b true)
          (UPDATE_UNDO_REDO (deleteKeyframe_lambda env a env.removeNotify)
            (addKeyframe_lambda env a tv.1 tv.2 env.removeNotify) Fun.id Fun.id).1
          (UPDATE_UNDO_REDO (deleteKeyframe_lambda env a env.removeNotify)
            (addKeyframe_lambda env a tv.1 tv.2 env.removeNotify) Fun.id Fun.id).2).2
        (UPDATE_UNDO_REDO (addKeyframe_lambda env b tv.1 tv.2 true)
          (deleteKeyframe_lambda env b true)
          (UPDATE_UNDO_REDO (deleteKeyframe_lambda env a env.removeNotify)
            (addKeyframe_lambda env a tv.1 tv.2 env.removeNotify) Fun.id Fun.id).1
          (UPDATE_UNDO_REDO (deleteKeyframe_lambda env a env.removeNotify)
            (addKeyframe_lambda env a tv.1 tv.2 env.removeNotify) Fun.id Fun.id).2).1
        undo redo).1 := by
  have hne : a ≠ b := by
    intro x; rw [x, hb] at h; exact Option.noConfusion h
  have hk : hasKey m.m_keyframeList a = true := by simp [hasKey, h]
  have hkn : hasKey m.m_keyframeList b = false := by simp [hasKey, hb]
  obtain ⟨r, r1, r2, r3, r4, r5, r6, r7⟩ :=
    removeKeyframe_Fun_ok env a Fun.id Fun.id env.removeNotify m tv h h0
  have hb2 : at? r.model.m_keyframeList b = none := by
    rw [r3, at?_erase_of_ne _ _ _ (Ne.symm hne)]; exact hb
  obtain ⟨s, s1, s2, s3, s4, s5, s6, s7⟩ :=
    addKeyframe_Fun_absent env b tv.1 tv.2 true r.undo r.redo r.model hb2
  refine ⟨⟨true, (UPDATE_UNDO_REDO s.redo s.undo undo redo).1,
    (UPDATE_UNDO_REDO s.redo s.undo undo redo).2, s.model⟩, ?_, rfl, ?_, s4.trans r4,
    s5.trans r5, ?_⟩
  · simp [moveKeyframe_Fun, Q_ASSERT, hk, hne, subscript_of_at? env _ _ _ h, hkn, r1, r2, s1, s2]
  · show s.model.m_keyframeList = _
    rw [s3, r3]
  · show (UPDATE_UNDO_REDO s.redo s.undo undo redo).1 = _
    rw [s6, s7, r6, r7]

theorem move_undo_run (env : Env) (a b : GenTime) (tv : KeyframeType × QVariant) (X r0 : Fun)
    (l : KeyframeList) (m2 : KeyframeModel) (hwf : WF l) (h : at? l a = some tv)
    (hb : at? l b = none) (hb0 : env.qtDebug = false ∨ b ≠ 0)
    (h2 : m2.m_keyframeList = assign (KeyframeList.erase l a) b tv) :
    ∃ m', (UPDATE_UNDO_REDO X
        (UPDATE_UNDO_REDO (addKeyframe_lambda env b tv.1 tv.2 true)
          (deleteKeyframe_lambda env b true)
          (UPDATE_UNDO_REDO (deleteKeyframe_lambda env a env.removeNotify)
            (addKeyframe_lambda env a tv.1 tv.2 env.removeNotify) Fun.id Fun.id).1
          r0).1
        Fun.id Fun.id).1 m2 = some (true, m') ∧ m'.m_keyframeList = l := by
  have hne : a ≠ b := by
    intro x; rw [x, hb] at h; exact Option.noConfusion h
  have hbe : at? (KeyframeList.erase l a) b = none := by
    rw [at?_erase_of_ne _ _ _ (Ne.symm hne)]; exact hb
  have hk2 : hasKey m2.m_keyframeList b = true := by simp [hasKey, h2, at?_assign_self]
  obtain ⟨m3, e3, l3, -, -⟩ := deleteKeyframe_lambda_ok env b true m2 hk2 hb0
  have l3' : m3.m_keyframeList = KeyframeList.erase l a := by
    rw [l3, h2]; exact erase_assign_of_absent _ _ _ hbe
  have hk3 : hasKey m3.m_keyframeList a = false := by simp [hasKey, l3', at?_erase_self]
  obtain ⟨m4, e4, l4, -, -⟩ :=
    addKeyframe_lambda_spec env a tv.1 tv.2 env.removeNotify m3 hk3
  refine ⟨m4, ?_, ?_⟩
  · simp [UPDATE_UNDO_REDO, Fun.id, e3, e4]
  · rw [l4, l3']; exact assign_erase _ _ _ hwf h

theorem qFuzzyCompare_self (x : ℚ) : qFuzzyCompare x x = true := by
  simp [qFuzzyCompare]

theorem takeWhile_dropWhile_sorted (l : KeyframeList) (hwf : WF l) (p : GenTime → Bool)
    (hp : ∀ a b, a < b → p b = true → p a = true) :
    l.takeWhile (fun e => p e.1) = l.filter (fun e => p e.1) ∧
      l.dropWhile (fun e => p e.1) = l.filter (fun e => !p e.1) := by
  induction l with
  | nil => simp
  | cons e r ih =>
    rw [WF_cons] at hwf
    obtain ⟨ih1, ih2⟩ := ih hwf.2
    cases hpe : p e.1
    · have hall : ∀ a ∈ r, p a.1 = false := by
        intro a ha
        cases hpa : p a.1
        · rfl
        · rw [hp e.1 a.1 (hwf.1 a ha) hpa] at hpe; exact Bool.noConfusion hpe
      have h1 : r.filter (fun e => p e.1) = [] := by
        rw [List.filter_eq_nil_iff]; intro a ha; simp [hall a ha]
      have h2 : r.filter (fun e => !p e.1) = r := by
        rw [List.filter_eq_self]; intro a ha; simp [hall a ha]
      simp [List.takeWhile, List.dropWhile, List.filter_cons, hpe, h1, h2]
    · simp [List.takeWhile, List.dropWhile, List.filter_cons, hpe, ih1, ih2]

theorem upperSuffix_eq (l : KeyframeList) (hwf : WF l) (pos : GenTime) :
    upperSuffix l pos = l.filter (fun e => decide (pos < e.1)) := by
  have h := (takeWhile_dropWhile_sorted l hwf (fun k => decide (k ≤ pos))
    (fun a b hab hb => by
      simp only [decide_eq_true_eq] at hb ⊢
      exact le_trans (le_of_lt hab) hb)).2
  unfold upperSuffix
  rw [h]
  apply List.filter_congr
  intro a _
  by_cases hc : a.1 ≤ pos
  · simp [hc, not_lt.2 hc]
  · simp [hc, not_le.1 hc]

theorem lowerPrefix_eq (l : KeyframeList) (hwf : WF l) (pos : GenTime) :
    lowerPrefix l pos = l.filter (fun e => decide (e.1 < pos)) :=
  (takeWhile_dropWhile_sorted l hwf (fun k => decide (k < pos))
    (fun a b hab hb => by
      simp only [decide_eq_true_eq] at hb ⊢
      exact lt_trans hab hb)).1

theorem getLast?_max (l : KeyframeList) (hwf : WF l) (e : Entry) (h : l.getLast? = some e) :
    e ∈ l ∧ ∀ a ∈ l, a.1 ≤ e.1 := by
  induction l with
  | nil => simp at h
  | cons x r ih =>
    rw [WF_cons] at hwf
    cases r with
    | nil =>
      simp only [List.getLast?_singleton, Option.some.injEq] at h
      subst h
      simp
    | cons y r2 =>
      rw [List.getLast?_cons_cons] at h
      obtain ⟨h1, h2⟩ := ih hwf.2 h
      refine ⟨List.mem_cons_of_mem _ h1, ?_⟩
      intro a ha
      rcases List.mem_cons.1 ha with rfl | ha
      · exact le_of_lt (hwf.1 e h1)
      · exact h2 a ha

theorem head_min (e : Entry) (r : KeyframeList) (hwf : WF (e :: r)) :
    ∀ a ∈ e :: r, e.1 ≤ a.1 := by
  rw [WF_cons] at hwf
  intro a ha
  rcases List.mem_cons.1 ha with rfl | ha
  · exact le_refl _
  · exact le_of_lt (hwf.1 a ha)

theorem qAbs_eq_abs (t : Int) : qAbs t = |t| := by
  unfold qAbs
  split
  · rename_i h; exact (abs_of_nonneg h).symm
  · rename_i h; exact (abs_of_neg (not_le.1 h)).symm

/-! ## The claims, continued -/

/-- C11 as stated fails: with assertions compiled in, `moveKeyframe(5, 0)` on
the store holding only a keyframe at frame 5 succeeds and pushes its command,
but running that command's undo does not return; it ends in the failed
assertion `pos != GenTime()` when it deletes the keyframe moved to time
zero. -/
theorem moveKeyframe_undo_aborts_at_zero :
    ∃ d c, moveKeyframe_int debugEnv 5 0 true (storeOf fiveOnly) = some d ∧ d.res = true ∧
      d.pushed = [c] ∧ c.undo d.model = none :=
  ⟨_, _, rfl, rfl, rfl, rfl⟩

/-- C11, amended: for a store with an entry at `a`, none at `b`, and `b` not
time zero, `moveKeyframe(a, b, logUndo = true)` (the move with `newVal = -1`)
either ends in the assertion that protects time zero (only when `a` is time
zero and assertions are compiled in), or it succeeds and pushes one command
whose undo, run on the resulting model, returns `true` and gives back exactly
the original keyframe list. -/
theorem moveKeyframe_undo_restores (env : Env) (m : KeyframeModel) (a b : GenTime)
    (tv : KeyframeType × QVariant) (hwf : WF m.m_keyframeList)
    (h : at? m.m_keyframeList a = some tv) (hb : at? m.m_keyframeList b = none)
    (hb0 : b ≠ 0) :
    (env.qtDebug = true ∧ a = 0 ∧ moveKeyframe_int env a b true m = none) ∨
    (∃ d c m', moveKeyframe_int env a b true m = some d ∧ d.res = true ∧ d.pushed = [c] ∧
      c.undo d.model = some (true, m') ∧ m'.m_keyframeList = m.m_keyframeList) := by
  have hne : a ≠ b := by
    intro x; rw [x, hb] at h; exact Option.noConfusion h
  have hk : hasKey m.m_keyframeList a = true := by simp [hasKey, h]
  by_cases h0 : env.qtDebug = false ∨ a ≠ 0
  · right
    obtain ⟨s, s1, s2, s3, -, -, s6⟩ := moveKeyframe_Fun_spec env a b Fun.id Fun.id m tv h hb h0
    have hd : moveKeyframe_int env a b true m =
        some ⟨s.res, s.model, PUSH_UNDO s.undo s.redo "Move keyframe"⟩ := by
      simp [moveKeyframe_int, moveKeyframe, Q_ASSERT, hk, hne, s1, s2]
    obtain ⟨m', e1, e2⟩ := move_undo_run env a b tv _ _ m.m_keyframeList s.model hwf h hb
      (Or.inr hb0) s3
    refine ⟨_, ⟨s.undo, s.redo, "Move keyframe"⟩, m', hd, s2, rfl, ?_, e2⟩
    show s.undo s.model = some (true, m')
    rw [s6]; exact e1
  · left
    have hd : env.qtDebug = true := by
      cases hq : env.qtDebug
      · exact absurd (Or.inl hq) h0
      · rfl
    have ha : a = 0 := by
      by_contra hx; exact h0 (Or.inr hx)
    subst ha
    refine ⟨hd, rfl, ?_⟩
    simp [moveKeyframe_int, moveKeyframe, moveKeyframe_Fun, Q_ASSERT, hk, hne,
      subscript_of_at? env _ _ _ h, hb, hasKey, removeKeyframe_Fun_zero env _ _ _ _ hd]

theorem moveKeyframe_undo_restores_witness :
    WF sampleList ∧ at? sampleList 5 = some (KeyframeType.Curve, QVariant.real 2) ∧
      at? sampleList 7 = none ∧ (7 : GenTime) ≠ 0 ∧
      ((debugEnv.qtDebug = true ∧ (5 : GenTime) = 0 ∧
          moveKeyframe_int debugEnv 5 7 true (storeOf sampleList) = none) ∨
        (∃ d c m', moveKeyframe_int debugEnv 5 7 true (storeOf sampleList) = some d ∧
          d.res = true ∧ d.pushed = [c] ∧ c.undo d.model = some (true, m') ∧
          m'.m_keyframeList = (storeOf sampleList).m_keyframeList)) :=
  ⟨by decide, by decide, by decide, by decide,
    moveKeyframe_undo_restores debugEnv (storeOf sampleList) 5 7 _ (by decide) rfl rfl
      (by decide)⟩

/-- C12 as stated fails: on the store with keyframes at frames 0, 5 and 9,
with assertions compiled in `moveKeyframe(3, 4)` (no entry at frame 3) ends in
the failed assertion `m_keyframeList.count(oldPos) > 0`; with assertions
compiled out it returns `true` and creates an entry at frame 4, and
`moveKeyframe(3, 5)` returns `false` but leaves a new entry at frame 3 in the
store. -/
theorem moveKeyframe_missing_creates_entry :
    (moveKeyframe_int releaseEnv 3 4 true (storeOf sampleList)).map
        (fun d => (d.res, d.model.m_keyframeList.hasKey 4, d.model.m_keyframeList.length)) =
      some (true, true, 4) ∧
    moveKeyframe_int debugEnv 3 4 true (storeOf sampleList) = none ∧
    (moveKeyframe_int releaseEnv 3 5 true (storeOf sampleList)).map
        (fun d => (d.res, d.model.m_keyframeList.hasKey 3, d.model.m_keyframeList.length)) =
      some (false, true, 4) :=
  ⟨rfl, rfl, rfl⟩

/-- C12, amended: a move from a position `oldPos` without an entry violates
the precondition `Q_ASSERT(m_keyframeList.count(oldPos) > 0)`.  With
assertions compiled in, every overload of `moveKeyframe` ends at that
assertion, before anything is read or written.  With assertions compiled out
and `newPos != oldPos`, `m_keyframeList[oldPos]` first creates a
value-initialised entry at `oldPos` and the call goes on exactly as the move
of that entry; when `newPos` is occupied it therefore returns `false` with the
created entry left in the store. -/
theorem moveKeyframe_missing_asserts (env : Env) (m : KeyframeModel) (oldPos newPos : GenTime)
    (newVal : ℚ) (logUndo : Bool) (undo redo : Fun)
    (h : hasKey m.m_keyframeList oldPos = false) :
    (env.qtDebug = true →
      moveKeyframe env oldPos newPos newVal logUndo m = none ∧
      moveKeyframe_val env oldPos newPos newVal m = none ∧
      moveKeyframe_Fun env oldPos newPos newVal undo redo m = none) ∧
    (env.qtDebug = false → oldPos ≠ newPos →
      moveKeyframe_Fun env oldPos newPos newVal undo redo m =
        moveKeyframe_Fun env oldPos newPos newVal undo redo
          { m with m_keyframeList := assign m.m_keyframeList oldPos (env.zeroType, QVariant.invalid) } ∧
      moveKeyframe env oldPos newPos newVal logUndo m =
        moveKeyframe env oldPos newPos newVal logUndo
          { m with m_keyframeList := assign m.m_keyframeList oldPos (env.zeroType, QVariant.invalid) }) ∧
    (env.qtDebug = false → oldPos ≠ newPos → hasKey m.m_keyframeList newPos = true →
      moveKeyframe_Fun env oldPos newPos newVal undo redo m =
        some (⟨false, undo, redo, { m with m_keyframeList := assign m.m_keyframeList oldPos (env.zeroType, QVariant.invalid) }⟩, []) ∧
      moveKeyframe env oldPos newPos newVal logUndo m =
        some ⟨false, { m with m_keyframeList := assign m.m_keyframeList oldPos (env.zeroType, QVariant.invalid) }, []⟩) := by
  have hn : at? m.m_keyframeList oldPos = none := by
    simpa [hasKey] using h
  have hfun : ∀ (u r : Fun), env.qtDebug = false → oldPos ≠ newPos →
      moveKeyframe_Fun env oldPos newPos newVal u r m =
        moveKeyframe_Fun env oldPos newPos newVal u r
          { m with m_keyframeList := assign m.m_keyframeList oldPos (env.zeroType, QVariant.invalid) } := by
    intro u r hr hne
    simp [moveKeyframe_Fun, Q_ASSERT, hr, hne, subscript, hn, at?_assign_self]
  refine ⟨?_, ?_, ?_⟩
  · intro hd
    refine ⟨?_, ?_, ?_⟩ <;>
    simp [moveKeyframe_val, moveKeyframe, moveKeyframe_Fun, Q_ASSERT, hd, h]
  · intro hr hne
    refine ⟨hfun undo redo hr hne, ?_⟩
    simp only [moveKeyframe, Q_ASSERT, hr, if_neg hne, hfun Fun.id Fun.id hr hne]
    simp
  · intro hr hne hocc
    have hocc' : hasKey (assign m.m_keyframeList oldPos (env.zeroType, QVariant.invalid))
        newPos = true := by
      simp only [hasKey] at hocc ⊢
      rw [at?_assign_of_ne _ _ _ _ (fun x => hne x.symm)]
      exact hocc
    have hf : ∀ (u r : Fun), moveKeyframe_Fun env oldPos newPos newVal u r m =
        some (⟨false, u, r, { m with m_keyframeList := assign m.m_keyframeList oldPos (env.zeroType, QVariant.invalid) }⟩, []) := by
      intro u r
      simp [moveKeyframe_Fun, Q_ASSERT, hr, hne, subscript, hn, hocc']
    refine ⟨hf undo redo, ?_⟩
    simp [moveKeyframe, Q_ASSERT, hr, hne, hf Fun.id Fun.id]

theorem moveKeyframe_missing_asserts_witness :
    hasKey (storeOf sampleList).m_keyframeList 3 = false ∧
      (moveKeyframe debugEnv 3 4 (-1) true (storeOf sampleList) = none ∧
        moveKeyframe_val debugEnv 3 4 (-1) (storeOf sampleList) = none ∧
        moveKeyframe_Fun debugEnv 3 4 (-1) Fun.id Fun.id (storeOf sampleList) = none) :=
  ⟨by decide,
    (moveKeyframe_missing_asserts debugEnv (storeOf sampleList) 3 4 (-1) true Fun.id Fun.id
      (by decide)).1 rfl⟩

/-- C13 as stated fails: on the scalar store whose keyframe at frame 0 holds
10^12, `updateKeyframe(0, 10^12 + 1)` returns `true` and leaves the old value
in place, because `qFuzzyCompare` takes the two values for equal. -/
theorem updateKeyframe_keeps_fuzzy_equal :
    (updateKeyframe debugEnv 0 (QVariant.real 1000000000001)
        (storeOf largeValue)).map
      (fun d => (d.res, at? d.model.m_keyframeList 0)) =
      some (true, some (KeyframeType.Linear, QVariant.real 1000000000000)) := by
  have hq : qFuzzyCompare 1000000000000 1000000000001 = true := by
    simp only [qFuzzyCompare, decide_eq_true_eq]; norm_num
  simp [updateKeyframe, updateKeyframe_Fun, Q_ASSERT, debugEnv, storeOf, largeValue, hasKey, at?, subscript,
    QVariant.toDouble, hq]

/-- C13, amended: for a store with an entry `(type, old)` at `pos`,
`updateKeyframe(pos, value, undo, redo, update)` behaves as follows.  On a
scalar store, when `qFuzzyCompare` takes `old` and `value` for equal (always
so when `value` is `old`), it returns `true` with the model, `undo` and `redo`
untouched.  Otherwise it returns `true`, the entry at `pos` is
`(type, value)`, every other entry is unchanged and so is the size.  In both
cases `updateKeyframe(pos, value)` returns `true`. -/
theorem updateKeyframe_sets_value (env : Env) (m : KeyframeModel) (pos : GenTime)
    (t : KeyframeType) (old v : QVariant) (undo redo : Fun) (update : Bool)
    (hwf : WF m.m_keyframeList) (h : at? m.m_keyframeList pos = some (t, old)) :
    (m.m_paramType = ParamType.KeyframeParam ∧
        qFuzzyCompare (old.toDouble env) (v.toDouble env) = true →
      updateKeyframe_Fun env pos v undo redo update m = some ⟨true, undo, redo, m⟩) ∧
    (¬ (m.m_paramType = ParamType.KeyframeParam ∧
        qFuzzyCompare (old.toDouble env) (v.toDouble env) = true) →
      ∃ s, updateKeyframe_Fun env pos v undo redo update m = some s ∧ s.res = true ∧
        at? s.model.m_keyframeList pos = some (t, v) ∧
        (∀ q, q ≠ pos → at? s.model.m_keyframeList q = at? m.m_keyframeList q) ∧
        s.model.m_keyframeList.length = m.m_keyframeList.length) ∧
    (m.m_paramType = ParamType.KeyframeParam →
      updateKeyframe_Fun env pos old undo redo update m = some ⟨true, undo, redo, m⟩) ∧
    (∃ d, updateKeyframe env pos v m = some d ∧ d.res = true) := by
  have hk : hasKey m.m_keyframeList pos = true := by simp [hasKey, h]
  have hsame : ∀ (w : QVariant) (u r : Fun) (b : Bool),
      m.m_paramType = ParamType.KeyframeParam ∧
      qFuzzyCompare (old.toDouble env) (w.toDouble env) = true →
      updateKeyframe_Fun env pos w u r b m = some ⟨true, u, r, m⟩ := by
    intro w u r b hw
    have hm : ({ m with m_keyframeList := m.m_keyframeList } : KeyframeModel) = m := rfl
    simp only [updateKeyframe_Fun, Q_ASSERT, hk, subscript_of_at? env _ _ _ h, hm]
    rw [if_pos hw]
    simp
  have hdiff : ∀ (u r : Fun) (b : Bool), ¬ (m.m_paramType = ParamType.KeyframeParam ∧
      qFuzzyCompare (old.toDouble env) (v.toDouble env) = true) →
      ∃ s, updateKeyframe_Fun env pos v u r b m = some s ∧ s.res = true ∧
        s.model.m_keyframeList = assign m.m_keyframeList pos (t, v) := by
    intro u r b hn
    obtain ⟨m', e1, e2, -, -⟩ := updateKeyframe_lambda_spec env pos t v b m hk
    refine ⟨⟨true, (UPDATE_UNDO_REDO (updateKeyframe_lambda env pos t v b)
      (updateKeyframe_lambda env pos t old b) u r).1,
      (UPDATE_UNDO_REDO (updateKeyframe_lambda env pos t v b)
      (updateKeyframe_lambda env pos t old b) u r).2, m'⟩, ?_, rfl, e2⟩
    simp only [updateKeyframe_Fun, Q_ASSERT, hk, subscript_of_at? env _ _ _ h]
    simp [hn, e1]
  refine ⟨hsame v undo redo update, ?_,
    fun hp => hsame old undo redo update ⟨hp, qFuzzyCompare_self _⟩, ?_⟩
  · intro hn
    obtain ⟨s, s1, s2, s3⟩ := hdiff undo redo update hn
    refine ⟨s, s1, s2, ?_, ?_, ?_⟩
    · rw [s3]; exact at?_assign_self _ _ _
    · intro q hq; rw [s3]; exact at?_assign_of_ne _ _ _ _ hq
    · rw [s3, length_assign _ _ _ hwf]; simp [hk]
  · by_cases hc : m.m_paramType = ParamType.KeyframeParam ∧
        qFuzzyCompare (old.toDouble env) (v.toDouble env) = true
    · have hx := hsame v Fun.id Fun.id env.updateNotify hc
      have hd : updateKeyframe env pos v m =
          some ⟨true, m, PUSH_UNDO Fun.id Fun.id "Update keyframe"⟩ := by
        simp [updateKeyframe, Q_ASSERT, hk, hx]
      exact ⟨_, hd, rfl⟩
    · obtain ⟨s, s1, s2, -⟩ := hdiff Fun.id Fun.id env.updateNotify hc
      have hd : updateKeyframe env pos v m = some ⟨s.res, s.model,
          if s.res then PUSH_UNDO s.undo s.redo "Update keyframe" else []⟩ := by
        simp [updateKeyframe, Q_ASSERT, hk, s1]
      exact ⟨_, hd, s2⟩

theorem updateKeyframe_sets_value_witness :
    WF (storeOf sampleList).m_keyframeList ∧
      at? (storeOf sampleList).m_keyframeList 5 = some (KeyframeType.Curve, QVariant.real 2) ∧
      (∃ d, updateKeyframe debugEnv 5 (QVariant.real 7) (storeOf sampleList) = some d ∧
        d.res = true) :=
  ⟨by decide, by decide,
    (updateKeyframe_sets_value debugEnv (storeOf sampleList) 5 KeyframeType.Curve
      (QVariant.real 2) (QVariant.real 7) Fun.id Fun.id true (by decide) (by decide)).2.2.2⟩

/-- C15 (a failed `offsetKeyframes` leaves the store unchanged), evaluated
where the code breaks it: on the store with keyframes at frames 0, 5 and 9,
`offsetKeyframes(5, 9)` returns `false` in both builds (frame 5 cannot move
onto frame 9), yet the keyframe of frame 9 has been moved to frame 13. -/
theorem offsetKeyframes_failure_not_atomic :
    (offsetKeyframes debugEnv 5 9 true (storeOf sampleList)).map
        (fun d => (d.res, d.model.m_keyframeList)) =
      some (false, [(0, KeyframeType.Linear, QVariant.real 1),
        (5, KeyframeType.Curve, QVariant.real 2),
        (13, KeyframeType.Discrete, QVariant.text "a")]) ∧
    (offsetKeyframes releaseEnv 5 9 true (storeOf sampleList)).map
        (fun d => (d.res, d.model.m_keyframeList)) =
      some (false, [(0, KeyframeType.Linear, QVariant.real 1),
        (5, KeyframeType.Curve, QVariant.real 2),
        (13, KeyframeType.Discrete, QVariant.text "a")]) :=
  ⟨rfl, rfl⟩

/-- C16 (with an unreachable owner the denormalizing operations leave the
store as it was): `addKeyframe(frame, n)` and `updateKeyframe(frame, n)` do,
they return `false` and change nothing; `moveKeyframe(5, 7, 0.5)` does not:
in every build it returns `true` and the keyframe of frame 5 is gone from the
store with keyframes at frames 0, 5 and 9, because the removal is not
followed by an insertion when the owner cannot be locked. -/
theorem unreachable_owner_move_deletes (env : Env) (m : KeyframeModel) (frame : Int) (n : ℚ) :
    addKeyframe_int env frame n { m with m_model := none } =
        some ⟨false, { m with m_model := none }, []⟩ ∧
    updateKeyframe_int env frame n { m with m_model := none } =
        some ⟨false, { m with m_model := none }, []⟩ ∧
    (moveKeyframe_val env 5 7 (1 / 2) (storeOf sampleList)).map
        (fun d => (d.res, d.model.m_keyframeList)) =
      some (true, [(0, KeyframeType.Linear, QVariant.real 1),
        (9, KeyframeType.Discrete, QVariant.text "a")]) := by
  refine ⟨rfl, rfl, ?_⟩
  have hv : (-1 : ℚ) < 2⁻¹ := by norm_num
  cases h : env.qtDebug <;> cases h2 : env.removeNotify <;>
  simp [moveKeyframe_val, moveKeyframe, moveKeyframe_Fun, removeKeyframe_Fun, storeOf, sampleList,
    Q_ASSERT, h, h2, hasKey, at?, subscript, runLocal, deleteKeyframe_lambda, KeyframeList.erase,
    KeyframeModel.emit, Fun.id, UPDATE_UNDO_REDO, rowOf, hv]

/-- C17: `getNextKeyframe(pos)` succeeds exactly when some keyframe has a time
greater than `pos`; when it succeeds it returns the time and type of the
keyframe with the smallest such time, and when it fails it returns the empty
marker. -/
theorem getNextKeyframe_spec (m : KeyframeModel) (pos : GenTime) (hwf : WF m.m_keyframeList) :
    ((getNextKeyframe m pos).2 = true ↔ ∃ e ∈ m.m_keyframeList, pos < e.1) ∧
    ((getNextKeyframe m pos).2 = true →
      ∃ e ∈ m.m_keyframeList, (getNextKeyframe m pos).1 = (e.1, e.2.1) ∧ pos < e.1 ∧
        ∀ a ∈ m.m_keyframeList, pos < a.1 → e.1 ≤ a.1) ∧
    ((getNextKeyframe m pos).2 = false → (getNextKeyframe m pos).1 = emptyMarker) := by
  have hs := upperSuffix_eq m.m_keyframeList hwf pos
  have hwfs : WF (m.m_keyframeList.filter (fun e => decide (pos < e.1))) :=
    List.Pairwise.filter _ hwf
  unfold getNextKeyframe
  rw [hs]
  cases hf : m.m_keyframeList.filter (fun e => decide (pos < e.1)) with
  | nil =>
    refine ⟨?_, ?_, ?_⟩
    · simp only [Bool.false_eq_true, false_iff, not_exists, not_and]
      intro e he hlt
      have : e ∈ m.m_keyframeList.filter (fun e => decide (pos < e.1)) := by
        simp [List.mem_filter, he, hlt]
      rw [hf] at this
      exact absurd this (List.not_mem_nil _)
    · intro h; exact Bool.noConfusion h
    · intro _; rfl
  | cons e r =>
    have he : e ∈ m.m_keyframeList ∧ pos < e.1 := by
      have : e ∈ m.m_keyframeList.filter (fun e => decide (pos < e.1)) := by
        rw [hf]; exact List.mem_cons_self _ _
      simpa [List.mem_filter] using this
    refine ⟨?_, ?_, ?_⟩
    · simp only [true_iff]
      exact ⟨e, he.1, he.2⟩
    · intro _
      refine ⟨e, he.1, rfl, he.2, ?_⟩
      intro a ha hlt
      have : a ∈ e :: r := by
        rw [← hf]; simp [List.mem_filter, ha, hlt]
      rw [hf] at hwfs
      exact head_min e r hwfs a this
    · intro h; exact Bool.noConfusion h

theorem getNextKeyframe_spec_witness :
    WF (storeOf sampleList).m_keyframeList ∧
      ((getNextKeyframe (storeOf sampleList) 5).2 = true ↔
        ∃ e ∈ (storeOf sampleList).m_keyframeList, 5 < e.1) :=
  ⟨by decide, (getNextKeyframe_spec (storeOf sampleList) 5 (by decide)).1⟩

/-- C18: `getPrevKeyframe(pos)` succeeds exactly when some keyframe has a time
smaller than `pos`; when it succeeds it returns the time and type of the
keyframe with the largest such time, and when it fails it returns the empty
marker. -/
theorem getPrevKeyframe_spec (m : KeyframeModel) (pos : GenTime) (hwf : WF m.m_keyframeList) :
    ((getPrevKeyframe m pos).2 = true ↔ ∃ e ∈ m.m_keyframeList, e.1 < pos) ∧
    ((getPrevKeyframe m pos).2 = true →
      ∃ e ∈ m.m_keyframeList, (getPrevKeyframe m pos).1 = (e.1, e.2.1) ∧ e.1 < pos ∧
        ∀ a ∈ m.m_keyframeList, a.1 < pos → a.1 ≤ e.1) ∧
    ((getPrevKeyframe m pos).2 = false → (getPrevKeyframe m pos).1 = emptyMarker) := by
  have hs := lowerPrefix_eq m.m_keyframeList hwf pos
  have hwfs : WF (m.m_keyframeList.filter (fun e => decide (e.1 < pos))) :=
    List.Pairwise.filter _ hwf
  unfold getPrevKeyframe
  rw [hs]
  cases hf : (m.m_keyframeList.filter (fun e => decide (e.1 < pos))).getLast? with
  | none =>
    rw [List.getLast?_eq_none_iff] at hf
    refine ⟨?_, ?_, ?_⟩
    · simp only [Bool.false_eq_true, false_iff, not_exists, not_and]
      intro e he hlt
      have : e ∈ m.m_keyframeList.filter (fun e => decide (e.1 < pos)) := by
        simp [List.mem_filter, he, hlt]
      rw [hf] at this
      exact absurd this (List.not_mem_nil _)
    · intro h; exact Bool.noConfusion h
    · intro _; rfl
  | some e =>
    obtain ⟨h1, h2⟩ := getLast?_max _ hwfs e hf
    have he : e ∈ m.m_keyframeList ∧ e.1 < pos := by
      simpa [List.mem_filter] using h1
    refine ⟨?_, ?_, ?_⟩
    · simp only [true_iff]
      exact ⟨e, he.1, he.2⟩
    · intro _
      refine ⟨e, he.1, rfl, he.2, ?_⟩
      intro a ha hlt
      exact h2 a (by simp [List.mem_filter, ha, hlt])
    · intro h; exact Bool.noConfusion h

theorem getPrevKeyframe_spec_witness :
    WF (storeOf sampleList).m_keyframeList ∧
      ((getPrevKeyframe (storeOf sampleList) 5).2 = true ↔
        ∃ e ∈ (storeOf sampleList).m_keyframeList, e.1 < 5) :=
  ⟨by decide, (getPrevKeyframe_spec (storeOf sampleList) 5 (by decide)).1⟩

/-- C19: `getClosestKeyframe(pos)` returns the keyframe at `pos` when there is
one.  Otherwise, when both neighbours exist it returns the next keyframe
exactly when its distance in frames to `pos` is strictly smaller than that of
the previous one, and the previous one otherwise (also on a tie); when only
one neighbour exists it returns that one; and it fails exactly when the store
is empty. -/
theorem getClosestKeyframe_spec (m : KeyframeModel) (pos : GenTime) :
    (∀ v, at? m.m_keyframeList pos = some v → getClosestKeyframe m pos = ((pos, v.1), true)) ∧
    (at? m.m_keyframeList pos = none →
      ((getNextKeyframe m pos).2 = true → (getPrevKeyframe m pos).2 = true →
        getClosestKeyframe m pos =
          (if |(getNextKeyframe m pos).1.1 - pos| < |(getPrevKeyframe m pos).1.1 - pos|
            then (getNextKeyframe m pos).1 else (getPrevKeyframe m pos).1, true)) ∧
      ((getNextKeyframe m pos).2 = true → (getPrevKeyframe m pos).2 = false →
        getClosestKeyframe m pos = ((getNextKeyframe m pos).1, true)) ∧
      ((getNextKeyframe m pos).2 = false → (getPrevKeyframe m pos).2 = true →
        getClosestKeyframe m pos = ((getPrevKeyframe m pos).1, true)) ∧
      ((getNextKeyframe m pos).2 = false → (getPrevKeyframe m pos).2 = false →
        getClosestKeyframe m pos = (emptyMarker, false))) ∧
    ((getClosestKeyframe m pos).2 = false ↔ m.m_keyframeList = []) := by
  refine ⟨?_, ?_, ?_⟩
  · intro v hv
    simp [getClosestKeyframe, getKeyframe, hasKey, hv]
  · intro hn
    have hk : hasKey m.m_keyframeList pos = false := by simp [hasKey, hn]
    refine ⟨?_, ?_, ?_, ?_⟩
    · intro h1 h2
      simp only [getClosestKeyframe, hk, Bool.false_eq_true, if_false, h1, h2, Bool.and_self,
        Bool.or_self, if_true, qAbs_eq_abs]
      split <;> rfl
    · intro h1 h2
      simp [getClosestKeyframe, hk, h1, h2]
    · intro h1 h2
      simp [getClosestKeyframe, hk, h1, h2]
    · intro h1 h2
      simp [getClosestKeyframe, hk, h1, h2]
  · cases hl : m.m_keyframeList with
    | nil =>
      simp [getClosestKeyframe, getNextKeyframe, getPrevKeyframe, hasKey, at?, hl, upperSuffix,
        lowerPrefix]
    | cons e r =>
      simp only [reduceCtorEq, iff_false, Bool.not_eq_false]
      cases hat : at? m.m_keyframeList pos with
      | some v => simp [getClosestKeyframe, getKeyframe, hasKey, hat]
      | none =>
        have hk : hasKey m.m_keyframeList pos = false := by simp [hasKey, hat]
        have hne : e.1 ≠ pos := by
          intro hx
          rw [hl] at hat
          obtain ⟨k, w⟩ := e
          simp only at hx
          simp [at?, hx] at hat
        have hor : (getNextKeyframe m pos).2 = true ∨ (getPrevKeyframe m pos).2 = true := by
          rcases lt_or_gt_of_ne hne with hlt | hgt
          · right
            have : lowerPrefix m.m_keyframeList pos =
                e :: List.takeWhile (fun e => decide (e.1 < pos)) r := by
              simp [lowerPrefix, hl, List.takeWhile, hlt]
            simp only [getPrevKeyframe, this]
            cases hg : (e :: List.takeWhile (fun e => decide (e.1 < pos)) r).getLast? with
            | none => simp [List.getLast?_eq_none_iff] at hg
            | some x => rfl
          · left
            have : upperSuffix m.m_keyframeList pos = e :: r := by
              simp [upperSuffix, hl, List.dropWhile, not_le.2 hgt]
            simp [getNextKeyframe, this]
        simp only [getClosestKeyframe, hk, Bool.false_eq_true, if_false]
        rcases hor with h | h
        · cases h2 : (getPrevKeyframe m pos).2
          · simp [h, h2]
          · simp only [h, h2, Bool.and_self, Bool.or_self, if_true]
            split <;> rfl
        · cases h2 : (getNextKeyframe m pos).2
          · simp [h, h2]
          · simp only [h, h2, Bool.and_self, Bool.or_self, if_true]
            split <;> rfl

theorem getClosestKeyframe_spec_witness :
    at? (storeOf sampleList).m_keyframeList 7 = none ∧
      (getNextKeyframe (storeOf sampleList) 7).2 = true ∧
      (getPrevKeyframe (storeOf sampleList) 7).2 = true ∧
      getClosestKeyframe (storeOf sampleList) 7 =
        (if |(getNextKeyframe (storeOf sampleList) 7).1.1 - 7| <
            |(getPrevKeyframe (storeOf sampleList) 7).1.1 - 7|
          then (getNextKeyframe (storeOf sampleList) 7).1
          else (getPrevKeyframe (storeOf sampleList) 7).1, true) :=
  ⟨by decide, by decide, by decide,
    ((getClosestKeyframe_spec (storeOf sampleList) 7).2.1 (by decide)).1 (by decide)
      (by decide)⟩

/-- C20: `getInterpolatedValue(pos)` returns the stored value when `pos` has an
entry, no value (`QVariant()`) on an empty store, the first keyframe's value
when `pos` is before every keyframe, and the last keyframe's value when `pos`
is after every keyframe. -/
theorem getInterpolatedValue_spec (eng : Engine) (env : Env) (m : KeyframeModel)
    (pos : GenTime) :
    (∀ v, at? m.m_keyframeList pos = some v → getInterpolatedValue eng env m pos = v.2) ∧
    (m.m_keyframeList = [] → getInterpolatedValue eng env m pos = QVariant.invalid) ∧
    (∀ first, m.m_keyframeList.head? = some first → (∀ e ∈ m.m_keyframeList, pos < e.1) →
      getInterpolatedValue eng env m pos = first.2.2) ∧
    (∀ last, m.m_keyframeList.getLast? = some last → (∀ e ∈ m.m_keyframeList, e.1 < pos) →
      getInterpolatedValue eng env m pos = last.2.2) := by
  have habs : ∀ (c : GenTime → Prop), (∀ e ∈ m.m_keyframeList, c e.1) → (¬ c pos) →
      at? m.m_keyframeList pos = none := by
    intro c hc hp
    rw [at?_eq_none_iff]
    intro hx
    simp only [keys, List.mem_map] at hx
    obtain ⟨e, he, rfl⟩ := hx
    exact hp (hc e he)
  refine ⟨?_, ?_, ?_, ?_⟩
  · intro v hv
    simp [getInterpolatedValue, hv]
  · intro hl
    simp [getInterpolatedValue, hl, at?]
  · intro first hf hall
    have hat := habs (fun k => pos < k) hall (lt_irrefl _)
    cases hl : m.m_keyframeList with
    | nil => rw [hl] at hf; simp at hf
    | cons e r =>
      rw [hl] at hf
      simp only [List.head?_cons, Option.some.injEq] at hf
      subst hf
      have hlt : pos < e.1 := hall e (by rw [hl]; exact List.mem_cons_self _ _)
      have hpre : upperPrefix m.m_keyframeList pos = [] := by
        simp [upperPrefix, hl, List.takeWhile, not_le.2 hlt]
      cases hg : m.m_keyframeList.getLast? with
      | none => rw [hl] at hg; simp [List.getLast?_eq_none_iff] at hg
      | some x =>
        simp only [getInterpolatedValue, hat, hg, hpre]
        simp [hl]
  · intro last hg hall
    have hat := habs (fun k => k < pos) hall (lt_irrefl _)
    cases hl : m.m_keyframeList with
    | nil => rw [hl] at hg; simp at hg
    | cons e r =>
      have hpre : upperPrefix m.m_keyframeList pos = m.m_keyframeList := by
        unfold upperPrefix
        rw [List.takeWhile_eq_self_iff]
        intro a ha
        simpa using le_of_lt (hall a ha)
      have hsuf : upperSuffix m.m_keyframeList pos = [] := by
        unfold upperSuffix
        rw [List.dropWhile_eq_nil_iff]
        intro a ha
        simpa using le_of_lt (hall a ha)
      simp only [getInterpolatedValue, hat, hg, hpre, hsuf]
      simp [hl]

theorem getInterpolatedValue_spec_witness :
    (storeOf sampleList).m_keyframeList.getLast? =
        some (9, KeyframeType.Discrete, QVariant.text "a") ∧
      (∀ e ∈ (storeOf sampleList).m_keyframeList, e.1 < (12 : GenTime)) ∧
      getInterpolatedValue sampleEngine debugEnv (storeOf sampleList) 12 = QVariant.text "a" :=
  ⟨by decide, by decide,
    (getInterpolatedValue_spec sampleEngine debugEnv (storeOf sampleList) 12).2.2.2
      (9, KeyframeType.Discrete, QVariant.text "a") (by decide) (by decide)⟩

/-! ## The claims, concluded -/

/-- C22: for a parameter in linear scale mode with `min != max` and
`factor != 0`, the real value computed from a normalized one (`realValue`, the
block of `getNormalizedValue`, add, update and move) and the normalized value
computed for `NormalizedValueRole` are inverse to each other over the
rationals, in both orders; so `data(index, NormalizedValueRole)` of a keyframe
yields a number that `getNormalizedValue` maps back to the keyframe's value. -/
theorem linear_normalization_round_trip (env : Env) (ptr : AssetParameterModel)
    (hlin : ptr.logRole ≠ -1) (hmm : ptr.min ≠ ptr.max) (hf : ptr.factor ≠ 0) :
    (∀ x : ℚ, realValue env ptr (NormalizedValueRole env ptr x) = x) ∧
    (∀ n : ℚ, NormalizedValueRole env ptr (realValue env ptr n) = n) ∧
    (∀ (eng : Engine) (m : KeyframeModel) (row : Int) (it : Entry),
      m.m_model = some ptr → m.m_paramType ≠ ParamType.AnimatedRect → 0 ≤ row →
      m.m_keyframeList.get? row.toNat = some it →
      ∃ n : ℚ, data_NormalizedValueRole eng env m row = QVariant.real n ∧
        getNormalizedValue env m n = QVariant.real (it.2.2.toDouble env)) := by
  have hd : ptr.max - ptr.min ≠ 0 := sub_ne_zero.2 (Ne.symm hmm)
  have h1 : ∀ x : ℚ, realValue env ptr (NormalizedValueRole env ptr x) = x := by
    intro x
    simp only [realValue, NormalizedValueRole, if_neg hlin]
    field_simp
  have h2 : ∀ n : ℚ, NormalizedValueRole env ptr (realValue env ptr n) = n := by
    intro n
    simp only [realValue, NormalizedValueRole, if_neg hlin]
    field_simp
  refine ⟨h1, h2, ?_⟩
  intro eng m row it hm hp hrow hget
  have hlt : row.toNat < m.m_keyframeList.length := by
    rcases Nat.lt_or_ge row.toNat m.m_keyframeList.length with h | h
    · exact h
    · rw [List.get?_eq_none.2 h] at hget; exact Option.noConfusion hget
  have hrange : ¬ (row < 0 ∨ row ≥ (m.m_keyframeList.length : Int)) := by
    intro h
    rcases h with h | h
    · exact absurd hrow (not_le.2 h)
    · have : (row.toNat : Int) = row := Int.toNat_of_nonneg hrow
      omega
  refine ⟨NormalizedValueRole env ptr (it.2.2.toDouble env), ?_, ?_⟩
  · simp only [data_NormalizedValueRole, if_neg hrange, hget, if_neg hp, hm]
  · simp only [getNormalizedValue, hm, h1]

theorem linear_normalization_round_trip_witness :
    linearOwner.logRole ≠ -1 ∧ linearOwner.min ≠ linearOwner.max ∧ linearOwner.factor ≠ 0 ∧
    realValue debugEnv linearOwner (NormalizedValueRole debugEnv linearOwner 30) = 30 :=
  ⟨by decide, by simp [linearOwner], by simp [linearOwner],
    (linear_normalization_round_trip debugEnv linearOwner (by decide) (by simp [linearOwner])
      (by simp [linearOwner])).1 30⟩

/-- C23 (round trip in logarithmic mode), evaluated where the code breaks it:
for the parameter with range 0 to 4, factor 2 and default 1 (so that
`min/factor = 0 < 1 < 2 = max/factor`) and the real value 3/2, at or above the
default, `NormalizedValueRole` yields 9/14 and `getNormalizedValue` maps 9/14
to 9/7, not back to 3/2: one direction multiplies by `factor` where the other
divides.  With `factor = 1` the two directions are inverse at and above the
default. -/
theorem logarithmic_round_trip_fails (env : Env) :
    NormalizedValueRole env logOwner (3 / 2) = 9 / 14 ∧
    realValue env logOwner (9 / 14) = 9 / 7 ∧
    getNormalizedValue env ⟨[], ParamType.KeyframeParam, some logOwner, []⟩
        (NormalizedValueRole env logOwner (3 / 2)) = QVariant.real (9 / 7) ∧
    realValue env logOwner (NormalizedValueRole env logOwner (3 / 2)) ≠ 3 / 2 ∧
    (∀ (ptr : AssetParameterModel) (x : ℚ), ptr.logRole = -1 → ptr.factor = 1 →
      ptr.norm < ptr.max → ptr.norm ≤ x →
      realValue env ptr (NormalizedValueRole env ptr x) = x) := by
  have e1 : NormalizedValueRole env logOwner (3 / 2) = 9 / 14 := by
    simp only [NormalizedValueRole, logOwner]; norm_num
  have e2 : realValue env logOwner (9 / 14) = 9 / 7 := by
    simp only [realValue, logOwner]; norm_num
  refine ⟨e1, e2, ?_, ?_, ?_⟩
  · simp only [getNormalizedValue, e1, e2]
  · rw [e1, e2]; norm_num
  · intro ptr x hlog hfac hmax hx
    have hd : ptr.max - ptr.norm ≠ 0 := sub_ne_zero.2 (ne_of_gt hmax)
    have hpos : 0 < ptr.max - ptr.norm := sub_pos.2 hmax
    have hge : x * 1 ≥ ptr.norm := by simpa using hx
    have hn : (1 : ℚ) / 2 + (x * 1 - ptr.norm) / (ptr.max * 1 - ptr.norm) * (1 / 2) ≥ 1 / 2 := by
      have : 0 ≤ (x * 1 - ptr.norm) / (ptr.max * 1 - ptr.norm) := by
        apply div_nonneg
        · simpa using hx
        · simpa using le_of_lt hpos
      linarith
    simp only [realValue, NormalizedValueRole, hlog, hfac, if_pos, if_pos hge, if_pos hn]
    field_simp
    ring

/-! ## The text codec: serialization -/

/-- The loop of `getAnimProperty` once `first` is cleared: every further
keyframe adds a separator and its text. -/
theorem getAnimProperty_loop (eng : Engine) (env : Env) (paramType : ParamType)
    (l : KeyframeList) (p : String) :
    (l.foldl (fun (st : String × Bool) keyframe =>
      ((if st.2 then st.1 else st.1 ++ ";") ++ toString keyframe.1 ++
        typeOperator keyframe.2.1 ++ valueText eng env paramType keyframe.2.2, false))
      (p, false)).1 =
    String.intercalate.go p ";" (l.map (entryText eng env paramType)) := by
  induction l generalizing p with
  | nil => simp [String.intercalate.go]
  | cons e r ih =>
    simp only [List.foldl_cons, List.map_cons, String.intercalate.go]
    have : (if (p, false).2 = true then (p, false).1 else (p, false).1 ++ ";") ++ toString e.1 ++
        typeOperator e.2.1 ++ valueText eng env paramType e.2.2 =
        p ++ ";" ++ entryText eng env paramType e := by
      simp [entryText, String.append_assoc]
    rw [this]
    exact ih _

/-- C24: on a store that is not a spline store (so on every scalar and every
rectangle store), `getAnimProperty` returns the keyframe texts
`frame ++ operator ++ value text` of the stored entries, in their (ascending)
order, joined by `;`, with operator `=`, `|=`, `~=` for Linear, Discrete,
Curve; the value text is `QVariant::toString` on a rectangle store and
`QLocale::toString` of the number on a scalar store; the empty store gives the
empty text. -/
theorem getAnimProperty_spec (json : Json) (eng : Engine) (env : Env) (m : KeyframeModel)
    (h : m.m_paramType ≠ ParamType.Roto_spline) :
    getAnimProperty json eng env m =
      String.intercalate ";" (m.m_keyframeList.map (fun e =>
        toString e.1 ++ typeOperator e.2.1 ++ valueText eng env m.m_paramType e.2.2)) ∧
    (m.m_keyframeList = [] → getAnimProperty json eng env m = "") ∧
    (typeOperator KeyframeType.Linear = "=" ∧ typeOperator KeyframeType.Discrete = "|=" ∧
      typeOperator KeyframeType.Curve = "~=") ∧
    (∀ v, m.m_paramType = ParamType.AnimatedRect →
      valueText eng env m.m_paramType v = eng.variantToString v) ∧
    (∀ v, m.m_paramType = ParamType.KeyframeParam →
      valueText eng env m.m_paramType v = eng.localeToString (v.toDouble env)) := by
  have hmain : getAnimProperty json eng env m =
      String.intercalate ";" (m.m_keyframeList.map (entryText eng env m.m_paramType)) := by
    simp only [getAnimProperty, if_neg h]
    cases hl : m.m_keyframeList with
    | nil => simp [String.intercalate]
    | cons e r =>
      simp only [List.foldl_cons, List.map_cons, String.intercalate]
      have := getAnimProperty_loop eng env m.m_paramType r (entryText eng env m.m_paramType e)
      simp only [entryText] at this ⊢
      simpa using this
  refine ⟨hmain, ?_, ⟨rfl, rfl, rfl⟩, ?_, ?_⟩
  · intro hl
    rw [hmain, hl]; rfl
  · intro v hv
    simp [valueText, hv]
  · intro v hv
    simp [valueText, hv]

theorem getAnimProperty_spec_witness :
    (storeOf closeList).m_paramType ≠ ParamType.Roto_spline ∧
    getAnimProperty (sampleJson []) textEngine debugEnv (storeOf closeList) = "0=1;5~=2;7|=3" := by
  refine ⟨by decide, ?_⟩
  rw [(getAnimProperty_spec (sampleJson []) textEngine debugEnv (storeOf closeList)
    (by decide)).1]
  decide

/-! ## Moving onto the same position, and the removal notification -/

/-- Assigning to a stored position keeps the keyframe times. -/
theorem keys_assign_of_mem (l : KeyframeList) (k : GenTime) (v : KeyframeType × QVariant)
    (h : WF l) (hk : hasKey l k = true) : keys (assign l k v) = keys l := by
  induction l with
  | nil => simp [hasKey, at?] at hk
  | cons e r ih =>
    obtain ⟨k', w⟩ := e
    by_cases h1 : k < k'
    · have hk' := hasKey_cons_of_lt k k' w r h h1
      rw [hk] at hk'
      exact Bool.noConfusion hk'
    · rw [WF_cons] at h
      by_cases h2 : k = k'
      · simp [assign, h1, h2, keys]
      · have h3 : ¬ k' = k := fun x => h2 x.symm
        have hk2 : hasKey r k = true := by
          simpa [hasKey, at?, h3] using hk
        have := ih h.2 hk2
        simp only [keys] at this
        simp [assign, h1, h2, keys, this]

/-- The two outcomes of `updateKeyframe(pos, value, undo, redo, update)` on a
stored position: nothing changes when the scalar values compare equal, else
the value is assigned and the type kept. -/
theorem updateKeyframe_Fun_shape (env : Env) (m : KeyframeModel) (pos : GenTime)
    (t : KeyframeType) (old v : QVariant) (u r : Fun) (b : Bool)
    (h : at? m.m_keyframeList pos = some (t, old)) :
    (m.m_paramType = ParamType.KeyframeParam ∧
        qFuzzyCompare (old.toDouble env) (v.toDouble env) = true →
      updateKeyframe_Fun env pos v u r b m = some ⟨true, u, r, m⟩) ∧
    (¬ (m.m_paramType = ParamType.KeyframeParam ∧
        qFuzzyCompare (old.toDouble env) (v.toDouble env) = true) →
      ∃ s, updateKeyframe_Fun env pos v u r b m = some s ∧ s.res = true ∧
        s.model.m_keyframeList = assign m.m_keyframeList pos (t, v) ∧
        s.model.m_paramType = m.m_paramType ∧ s.model.m_model = m.m_model) := by
  have hk : hasKey m.m_keyframeList pos = true := by simp [hasKey, h]
  constructor
  · intro hw
    have hm : ({ m with m_keyframeList := m.m_keyframeList } : KeyframeModel) = m := rfl
    simp only [updateKeyframe_Fun, Q_ASSERT, hk, subscript_of_at? env _ _ _ h, hm]
    rw [if_pos hw]
    simp
  · intro hn
    obtain ⟨m', e1, e2, e3, e4⟩ := updateKeyframe_lambda_spec env pos t v b m hk
    refine ⟨⟨true, (UPDATE_UNDO_REDO (updateKeyframe_lambda env pos t v b)
      (updateKeyframe_lambda env pos t old b) u r).1,
      (UPDATE_UNDO_REDO (updateKeyframe_lambda env pos t v b)
      (updateKeyframe_lambda env pos t old b) u r).2, m'⟩, ?_, rfl, e2, e3, e4⟩
    simp only [updateKeyframe_Fun, Q_ASSERT, hk, subscript_of_at? env _ _ _ h]
    simp [hn, e1]

/-- C29 (`moveKeyframe(pos, pos, n)` sets the value at `pos` to the real value
of `n`), evaluated where the code breaks it: on the store with keyframes at
frames 0, 5 and 9 of a reachable parameter with range 0 to 100,
`moveKeyframe(5, 5, 0.5)` (with `int` or `GenTime` positions) returns `true`,
pushes nothing and leaves the value 2 at frame 5 in both builds, not the real
value 50 of the normalized 0.5.  The overload with undo/redo references,
called with the same arguments, does set the value at frame 5 to 50. -/
theorem moveKeyframe_same_position_keeps_value :
    realValue debugEnv linearOwner (1 / 2) = 50 ∧
    (moveKeyframe_val debugEnv 5 5 (1 / 2) ownedSample).map
        (fun d => (d.res, at? d.model.m_keyframeList 5, d.pushed.length)) =
      some (true, some (KeyframeType.Curve, QVariant.real 2), 0) ∧
    (moveKeyframe_val releaseEnv 5 5 (1 / 2) ownedSample).map
        (fun d => (d.res, at? d.model.m_keyframeList 5, d.pushed.length)) =
      some (true, some (KeyframeType.Curve, QVariant.real 2), 0) ∧
    (moveKeyframe debugEnv 5 5 (1 / 2) true ownedSample).map
        (fun d => (d.res, at? d.model.m_keyframeList 5, d.pushed.length)) =
      some (true, some (KeyframeType.Curve, QVariant.real 2), 0) ∧
    (moveKeyframe_Fun debugEnv 5 5 (1 / 2) Fun.id Fun.id ownedSample).map
        (fun sp => (sp.1.res, at? sp.1.model.m_keyframeList 5)) =
      some (true, some (KeyframeType.Curve, QVariant.real 50)) := by
  have hr : realValue debugEnv linearOwner (1 / 2) = 50 := by
    simp only [realValue, linearOwner]; norm_num
  have hq : qFuzzyCompare 2 50 = false := by
    simp only [qFuzzyCompare, decide_eq_false_iff_not]; norm_num
  refine ⟨hr, rfl, rfl, rfl, ?_⟩
  have hr' : realValue debugEnv linearOwner 2⁻¹ = 50 := by
    have : (2 : ℚ)⁻¹ = 1 / 2 := by norm_num
    rw [this]; exact hr
  have hdbg : debugEnv.qtDebug = true := rfl
  have hupd : debugEnv.updateNotify = true := rfl
  simp [moveKeyframe_Fun, updateKeyframe, updateKeyframe_Fun, Q_ASSERT, ownedSample, sampleList,
    hasKey, at?, subscript, QVariant.toDouble, hr', hq, updateKeyframe_lambda, KeyframeModel.emit,
    assign, rowOf, hdbg, hupd]

/-- C30 (the removal notification of `removeNextKeyframes` names the rows
`r .. n-1`), evaluated where the code breaks it: on the store with keyframes
at frames 0, 5 and 9, `removeNextKeyframes(5)` returns `true` and removes the
keyframe of row 2, and its one notification pair names the rows `2 .. 1`
(first row, then the number of removed keyframes) in both builds, where
`r .. n-1` is `2 .. 2`.  `removeAllKeyframes` on the same store names the rows
`1 .. 2`, which is `1 .. n-1`. -/
theorem removeNextKeyframes_notifies_count (env : Env) :
    (removeNextKeyframes env 5 Fun.id Fun.id (storeOf sampleList)).map
        (fun s => (s.res, keys s.model.m_keyframeList, s.model.emitted)) =
      some (true, [0, 5], [Signal.beginRemoveRows 2 1, Signal.endRemoveRows]) ∧
    (removeAllKeyframes_Fun env Fun.id Fun.id (storeOf sampleList)).map
        (fun s => (s.res, keys s.model.m_keyframeList, s.model.emitted)) =
      some (true, [0], [Signal.beginRemoveRows 1 2, Signal.endRemoveRows]) := by
  cases h : env.qtDebug <;>
  simp [removeNextKeyframes, removeAllKeyframes_Fun, removeBatch, removeEach, removeKeyframe_Fun,
    storeOf, sampleList, keys,
    Q_ASSERT, h, hasKey, at?, subscript, runLocal, deleteKeyframe_lambda, KeyframeList.erase,
    KeyframeModel.emit, PUSH_LAMBDA, Fun.id, UPDATE_UNDO_REDO]

/-! ## The codecs: parsing -/

/-- C26 (parsing stores every key with its encoded type), evaluated where the
code breaks it: the parser holds the single key `(0, linear)` with value 5 for
the text `0=5`; parsed into the scalar store whose keyframe at time zero is of
type Curve (in-point 0), the store ends with the entry `(Curve, 5)` at frame
0 in both builds: the value is updated and the type of the old keyframe is
kept.  Parsed into an empty store the entry is `(Linear, 5)`. -/
theorem parseAnimProperty_keeps_old_type :
    sampleAnimation.key_get "0=5" = [(0, mlt_keyframe_type.mlt_keyframe_linear)] ∧
    (parseAnimProperty sampleAnimation textEngine debugEnv "0=5" (storeOf curveSentinel)).map
        (fun m => m.m_keyframeList) = some [(0, KeyframeType.Curve, QVariant.real 5)] ∧
    (parseAnimProperty sampleAnimation textEngine releaseEnv "0=5" (storeOf curveSentinel)).map
        (fun m => m.m_keyframeList) = some [(0, KeyframeType.Curve, QVariant.real 5)] ∧
    (parseAnimProperty sampleAnimation textEngine debugEnv "0=5" emptyScalar).map
        (fun m => m.m_keyframeList) = some [(0, KeyframeType.Linear, QVariant.real 5)] := by
  have hq : qFuzzyCompare 3 5 = false := by
    simp only [qFuzzyCompare, decide_eq_false_iff_not]; norm_num
  refine ⟨by decide, ?_, ?_, ?_⟩
  · simp [parseAnimProperty, removeAllKeyframes_Fun, removeBatch, removeEach, storeOf,
      curveSentinel, keys, parseKeys, sampleAnimation, inFrame, hasKeyframe, hasKey, at?,
      updateKeyframe_Fun, Q_ASSERT, debugEnv, subscript, QVariant.toDouble, hq, parsedValue,
      updateKeyframe_lambda, KeyframeModel.emit, PUSH_LAMBDA, Fun.id, UPDATE_UNDO_REDO, assign,
      rowOf]
  · simp [parseAnimProperty, removeAllKeyframes_Fun, removeBatch, removeEach, storeOf,
      curveSentinel, keys, parseKeys, sampleAnimation, inFrame, hasKeyframe, hasKey, at?,
      updateKeyframe_Fun, Q_ASSERT, releaseEnv, subscript, QVariant.toDouble, hq, parsedValue,
      updateKeyframe_lambda, KeyframeModel.emit, PUSH_LAMBDA, Fun.id, UPDATE_UNDO_REDO, assign,
      rowOf]
  · rfl

/-- C27 (parsing the JSON text of `getRotoProperty` gives back the entries),
evaluated where the code breaks it: for the spline store with keyframes at
frames 0 and 12, in-point 5 and duration 100, `getRotoProperty` writes the map
with keys `005` and `017`; `parseRotoProperty`, reading that map into an empty
store, adds the keyframes at frames 5 and 17 in every build: it converts the
keys and does not subtract the in-point. -/
theorem roto_round_trip_shifts (json : Json) (env : Env) :
    getRotoProperty json rotoStore = json.toJson rotoMap ∧
    (parseRotoProperty (sampleJson rotoMap) textEngine env
        (getRotoProperty (sampleJson rotoMap) rotoStore) emptyRoto).map
        (fun m => m.m_keyframeList) =
      some [(5, KeyframeType.Linear, QVariant.text "p"),
        (17, KeyframeType.Linear, QVariant.text "q")] ∧
    keys rotoStore.m_keyframeList = [0, 12] := by
  have e1 : decimalToInt "005" = 5 := by decide
  have e2 : decimalToInt "017" = 17 := by decide
  refine ⟨?_, ?_, rfl⟩
  · have hw : justifiedWidth json rotoOwner.parentDuration = 3 := by
      have hpos : (0 : Int) < rotoOwner.parentDuration := by decide
      simp only [justifiedWidth, if_pos hpos]
      decide
    have : rotoStore.m_keyframeList.foldl (fun map keyframe =>
        QMap_insert map
          (rightJustified (toString (rotoOwner.parentIn + keyframe.1)) 3 '0') keyframe.2.2) [] =
        rotoMap := by
      decide
    simp only [getRotoProperty, rotoStore, hw]
    exact congrArg json.toJson this
  · cases h : env.qtDebug <;>
    simp [parseRotoProperty, sampleJson, rotoMap, parseRotoEach, textEngine, sampleEngine, e1, e2,
      addKeyframe_Fun, emptyRoto, at?, runLocal, addKeyframe_lambda, Q_ASSERT, h, hasKey,
      lowerBoundRow, assign, KeyframeModel.emit, Fun.id, UPDATE_UNDO_REDO]

/-- Assigning a time later than every stored one appends the entry. -/
theorem assign_append (l : KeyframeList) (k : GenTime) (v : KeyframeType × QVariant)
    (h : ∀ a ∈ l, a.1 < k) : assign l k v = l ++ [(k, v)] := by
  induction l with
  | nil => simp [assign]
  | cons e r ih =>
    obtain ⟨k', w⟩ := e
    have hlt : k' < k := h (k', w) (List.mem_cons_self _ _)
    have h1 : ¬ k < k' := not_lt.2 (le_of_lt hlt)
    have h2 : ¬ k = k' := fun x => (ne_of_lt hlt) x.symm
    have := ih (fun a ha => h a (List.mem_cons_of_mem _ ha))
    simp [assign, h1, h2, this]

/-- The loop of `parseAnimProperty` on keys with ascending frames, all later
than the stored times, none of which takes the branch of the synthetic
keyframe or the branch of the existing first keyframe: every key is added
behind the stored entries. -/
theorem parseKeys_adds (anim : Animation) (eng : Engine) (env : Env) (prop : String)
    (in_ : Int) (ks : List (Int × mlt_keyframe_type)) :
    ∀ (i : Nat) (undo redo : Fun) (m : KeyframeModel),
    ks.Pairwise (fun a b => a.1 < b.1) →
    (∀ a ∈ m.m_keyframeList, ∀ k ∈ ks, a.1 < k.1) →
    (∀ k ∈ ks, k.1 = in_ → hasKey m.m_keyframeList (anim.genTimeOf in_) = false) →
    (∀ k ∈ ks, k.1 < in_ → k.1 ≠ anim.genTimeOf in_) →
    (i = 0 → ∀ k ∈ ks.head?, k.1 ≤ in_) →
    ∃ s, parseKeys anim eng env prop in_ i ks undo redo m = some s ∧
      s.model.m_keyframeList =
        m.m_keyframeList ++ ks.map (parsedEntry anim eng m.m_paramType prop) ∧
      s.model.m_paramType = m.m_paramType ∧ s.model.m_model = m.m_model := by
  induction ks with
  | nil =>
    intro i undo redo m _ _ _ _ _
    exact ⟨_, rfl, by simp, rfl, rfl⟩
  | cons k rest ih =>
    intro i undo redo m hasc hlater hin hg hi
    rw [List.pairwise_cons] at hasc
    have c1 : ¬ (k.1 > in_) ∨ i ≠ 0 := by
      by_cases h0 : i = 0
      · exact Or.inl (not_lt.2 (hi h0 k (by simp)))
      · exact Or.inr h0
    have c1' : ¬ (i = 0 ∧ k.1 > in_) := by
      intro hc
      rcases c1 with h | h
      · exact h hc.2
      · exact h hc.1
    have c2 : ¬ (k.1 = in_ ∧ hasKeyframe m (anim.genTimeOf in_) = true) := by
      intro hc
      have := hin k (List.mem_cons_self _ _) hc.1
      rw [hasKeyframe, this] at hc
      exact Bool.noConfusion hc.2
    have habs : at? m.m_keyframeList k.1 = none := by
      rw [at?_eq_none_iff]
      intro hx
      simp only [keys, List.mem_map] at hx
      obtain ⟨a, ha, hak⟩ := hx
      exact absurd hak (ne_of_lt (hlater a ha k (List.mem_cons_self _ _)))
    obtain ⟨s, hs, -, hlist, hpt, hmm, -, -⟩ :=
      addKeyframe_Fun_absent env k.1 (convertFromMltType (parsedType prop k.2))
        (parsedValue anim eng m.m_paramType prop k.1) true undo redo m habs
    have happ : s.model.m_keyframeList =
        m.m_keyframeList ++ [parsedEntry anim eng m.m_paramType prop k] := by
      rw [hlist]
      exact assign_append _ _ _ (fun a ha => hlater a ha k (List.mem_cons_self _ _))
    have hlater' : ∀ a ∈ s.model.m_keyframeList, ∀ k' ∈ rest, a.1 < k'.1 := by
      intro a ha k' hk'
      rw [happ] at ha
      rcases List.mem_append.1 ha with ha | ha
      · exact hlater a ha k' (List.mem_cons_of_mem _ hk')
      · simp only [List.mem_singleton] at ha
        rw [ha]
        exact hasc.1 k' hk'
    have hin' : ∀ k' ∈ rest, k'.1 = in_ →
        hasKey s.model.m_keyframeList (anim.genTimeOf in_) = false := by
      intro k' hk' he
      have hlt : k.1 < in_ := by rw [← he]; exact hasc.1 k' hk'
      have hne : anim.genTimeOf in_ ≠ k.1 := fun x => hg k (List.mem_cons_self _ _) hlt x.symm
      have h0 := hin k' (List.mem_cons_of_mem _ hk') he
      simp only [hasKey] at h0 ⊢
      rw [hlist, at?_assign_of_ne _ _ _ _ hne]
      exact h0
    obtain ⟨s2, hs2, hlist2, hpt2, hmm2⟩ := ih (i + 1) s.undo s.redo s.model hasc.2 hlater' hin'
      (fun k' hk' => hg k' (List.mem_cons_of_mem _ hk')) (fun h => absurd h (Nat.succ_ne_zero i))
    refine ⟨s2, ?_, ?_, hpt2.trans hpt, hmm2.trans hmm⟩
    · simp only [parseKeys, if_neg c1', if_neg c2, hs]
      exact hs2
    · rw [hlist2, hpt, happ]
      simp

/-- What `removeAllKeyframes` leaves when no keyframe after the first is at
time zero: the first keyframe alone. -/
theorem removeAllKeyframes_Fun_ok (env : Env) (undo redo : Fun) (m : KeyframeModel)
    (hwf : WF m.m_keyframeList) (hz : ∀ a ∈ m.m_keyframeList.tail, a.1 ≠ 0) :
    ∃ s, removeAllKeyframes_Fun env undo redo m = some s ∧
      s.model.m_keyframeList = m.m_keyframeList.take 1 ∧
      s.model.m_paramType = m.m_paramType ∧ s.model.m_model = m.m_model := by
  have hnd : (keys m.m_keyframeList).tail.Nodup :=
    List.Nodup.sublist (List.tail_sublist _) (WF_nodup_keys _ hwf)
  have hmem : ∀ p ∈ (keys m.m_keyframeList).tail, hasKey m.m_keyframeList p = true := by
    intro p hp
    rw [hasKey_iff_mem_keys]
    exact List.mem_of_mem_tail hp
  have h0 : ∀ p ∈ (keys m.m_keyframeList).tail, p ≠ 0 := by
    intro p hp
    have : p ∈ (m.m_keyframeList.tail).map Prod.fst := by
      simpa [keys, List.map_tail] using hp
    obtain ⟨a, ha, rfl⟩ := List.mem_map.1 this
    exact hz a ha
  obtain ⟨s, e1, -, e3, e4, e5⟩ := removeBatch_spec env 1 ((m.m_keyframeList.length : Int) - 1)
    (keys m.m_keyframeList).tail undo redo m hnd hmem h0
  refine ⟨s, e1, ?_, e4, e5⟩
  rw [e3]
  cases hl : m.m_keyframeList with
  | nil => rfl
  | cons e r =>
    rw [hl] at hwf
    rw [WF_cons] at hwf
    have he : e.1 ∉ keys r := by
      intro hx
      simp only [keys, List.mem_map] at hx
      obtain ⟨a, ha, hax⟩ := hx
      exact absurd hax (ne_of_gt (hwf.1 a ha))
    have hr : r.filter (fun x => decide (x.1 ∉ keys r)) = [] := by
      rw [List.filter_eq_nil_iff]
      intro a ha
      have : a.1 ∈ keys r := by simp only [keys, List.mem_map]; exact ⟨a, ha, rfl⟩
      simp [this]
    simp only [keys, List.map_cons, List.tail_cons, List.take_succ_cons, List.take_zero] at he hr ⊢
    rw [List.filter_cons_of_pos (by simpa [keys] using he), hr]

/-- The text of `getAnimProperty` on a store that is not a spline store: the
keyframe texts joined by `;`. -/
theorem getAnimProperty_join (json : Json) (eng : Engine) (env : Env) (m : KeyframeModel)
    (h : m.m_paramType ≠ ParamType.Roto_spline) :
    getAnimProperty json eng env m =
      String.intercalate ";" (m.m_keyframeList.map (entryText eng env m.m_paramType)) := by
  simp only [getAnimProperty, if_neg h]
  cases hl : m.m_keyframeList with
  | nil => simp [String.intercalate]
  | cons e r =>
    simp only [List.foldl_cons, List.map_cons, String.intercalate]
    have := getAnimProperty_loop eng env m.m_paramType r (entryText eng env m.m_paramType e)
    simp only [entryText] at this ⊢
    simpa using this

/-- C25 as stated fails: the parser holds the single key `(5, linear)` with
value 1 for the well-formed text `5=1`; parsed into an empty scalar store with
in-point 0, the store gets a keyframe at frame 0 as well, and serializes to
`0=1;5=1`. -/
theorem parse_serialize_adds_in_key :
    sampleAnimation.key_get "5=1" = [(5, mlt_keyframe_type.mlt_keyframe_linear)] ∧
    (parseAnimProperty sampleAnimation textEngine debugEnv "5=1" emptyScalar).map
        (fun m => (m.m_keyframeList, getAnimProperty (sampleJson []) textEngine debugEnv m)) =
      some ([(0, KeyframeType.Linear, QVariant.real 1), (5, KeyframeType.Linear, QVariant.real 1)],
        "0=1;5=1") ∧
    (parseAnimProperty sampleAnimation textEngine releaseEnv "5=1" emptyScalar).map
        (fun m => getAnimProperty (sampleJson []) textEngine releaseEnv m) = some "0=1;5=1" := by
  refine ⟨by decide, by decide, by decide⟩

/-- C25, amended: let the parser hold for the text `prop` keys with ascending
frames, the first of them not later than the in-point (and none of those
before the in-point at the time `GenTime(in)`), let `prop` hold a `=` and be
the canonical text of these keys (frame, operator of the type, text of the
value, joined by `;`).  Then parsing `prop` into an empty scalar or rectangle
store succeeds, the store holds exactly the parsed keys with their types and
values, and serializing it yields `prop` again. -/
theorem parse_then_serialize (anim : Animation) (json : Json) (eng : Engine) (env : Env)
    (prop : String) (m : KeyframeModel)
    (hempty : m.m_keyframeList = []) (hp : m.m_paramType ≠ ParamType.Roto_spline)
    (hasc : (anim.key_get prop).Pairwise (fun a b => a.1 < b.1))
    (hfirst : ∀ k ∈ (anim.key_get prop).head?, k.1 ≤ inFrame m)
    (hg : ∀ k ∈ anim.key_get prop, k.1 < inFrame m → k.1 ≠ anim.genTimeOf (inFrame m))
    (heq : prop.toList.contains '=' = true)
    (hcanon : prop = String.intercalate ";" ((anim.key_get prop).map (fun k =>
      toString k.1 ++ typeOperator (convertFromMltType k.2) ++
        valueText eng env m.m_paramType (parsedValue anim eng m.m_paramType prop k.1)))) :
    ∃ m', parseAnimProperty anim eng env prop m = some m' ∧
      m'.m_keyframeList = (anim.key_get prop).map (fun k =>
        (k.1, convertFromMltType k.2, parsedValue anim eng m.m_paramType prop k.1)) ∧
      getAnimProperty json eng env m' = prop := by
  have hwf : WF m.m_keyframeList := by rw [hempty]; exact List.Pairwise.nil
  obtain ⟨s, e1, e2, e3, e4⟩ := removeAllKeyframes_Fun_ok env Fun.id Fun.id m hwf
    (by rw [hempty]; intro a ha; exact absurd ha (List.not_mem_nil _))
  have hl : s.model.m_keyframeList = [] := by rw [e2, hempty]; rfl
  obtain ⟨r, r1, r2, r3, r4⟩ := parseKeys_adds anim eng env prop (inFrame m) (anim.key_get prop)
    0 s.undo s.redo s.model hasc
    (by rw [hl]; intro a ha; exact absurd ha (List.not_mem_nil _))
    (by intro k _ _; simp [hasKey, hl, at?])
    hg (fun _ => hfirst)
  have hpe : ∀ k, parsedEntry anim eng m.m_paramType prop k =
      (k.1, convertFromMltType k.2, parsedValue anim eng m.m_paramType prop k.1) := by
    intro k
    simp only [parsedEntry, parsedType, heq, if_true]
  have hlist : r.model.m_keyframeList = (anim.key_get prop).map (fun k =>
      (k.1, convertFromMltType k.2, parsedValue anim eng m.m_paramType prop k.1)) := by
    rw [r2, e3, hl]
    simp only [List.nil_append]
    exact List.map_congr_left (fun k _ => hpe k)
  have hpt : r.model.m_paramType = m.m_paramType := r3.trans e3
  refine ⟨r.model, ?_, hlist, ?_⟩
  · simp [parseAnimProperty, e1, r1]
  · rw [getAnimProperty_join json eng env r.model (by rw [hpt]; exact hp), hlist, hpt,
      List.map_map]
    conv_rhs => rw [hcanon]
    rfl

theorem parse_then_serialize_witness :
    emptyScalar.m_keyframeList = [] ∧
    ("0=0;50~=1;100|=0.5".toList.contains '=' = true) ∧
    ∃ m', parseAnimProperty sampleAnimation textEngine debugEnv "0=0;50~=1;100|=0.5"
        emptyScalar = some m' ∧
      m'.m_keyframeList = [(0, KeyframeType.Linear, QVariant.real 0),
        (50, KeyframeType.Curve, QVariant.real 1), (100, KeyframeType.Discrete, QVariant.real oneHalf)] ∧
      getAnimProperty (sampleJson []) textEngine debugEnv m' = "0=0;50~=1;100|=0.5" :=
  ⟨rfl, by decide,
    parse_then_serialize sampleAnimation (sampleJson []) textEngine debugEnv
      "0=0;50~=1;100|=0.5" emptyScalar rfl (by decide) (by decide) (by decide) (by decide)
      (by decide) (by decide)⟩

/-- C28 (after parsing, the store has an entry at the in-point), evaluated
where the code breaks it: the parser holds the single key `(0, linear)` with
value 5 for the text `0=5`; parsed into an empty scalar store whose owner has
the in-point 5, the store ends with the one keyframe at frame 0 and has no
entry at frame 5, in both builds.  The branch that adds a keyframe at the
in-point is taken only when the first parsed frame is later than the
in-point: with in-point 0 and the single key `(5, linear)` of the text `5=1`
the store does get its entry at frame 0. -/
theorem parseAnimProperty_misses_in_key :
    inFrame emptyLate = 5 ∧
    sampleAnimation.key_get "0=5" = [(0, mlt_keyframe_type.mlt_keyframe_linear)] ∧
    (parseAnimProperty sampleAnimation textEngine debugEnv "0=5" emptyLate).map
        (fun m => (m.m_keyframeList, hasKey m.m_keyframeList 5)) =
      some ([(0, KeyframeType.Linear, QVariant.real 5)], false) ∧
    (parseAnimProperty sampleAnimation textEngine releaseEnv "0=5" emptyLate).map
        (fun m => (m.m_keyframeList, hasKey m.m_keyframeList 5)) =
      some ([(0, KeyframeType.Linear, QVariant.real 5)], false) ∧
    (inFrame emptyScalar = 0 ∧
      (parseAnimProperty sampleAnimation textEngine debugEnv "5=1" emptyScalar).map
          (fun m => hasKey m.m_keyframeList 0) = some true) := by
  refine ⟨by decide, by decide, by decide, by decide, by decide, by decide⟩

/-! ## The removal notification in general -/

/-- A removal without notification emits nothing. -/
theorem removeKeyframe_Fun_quiet (env : Env) (pos : GenTime) (undo redo : Fun)
    (m : KeyframeModel) (old : KeyframeType × QVariant)
    (h : at? m.m_keyframeList pos = some old) (h0 : pos ≠ 0) :
    ∃ s, removeKeyframe_Fun env pos undo redo false m = some s ∧ s.res = true ∧
      s.model.m_keyframeList = KeyframeList.erase m.m_keyframeList pos ∧
      s.model.emitted = m.emitted := by
  have hk : hasKey m.m_keyframeList pos = true := by simp [hasKey, h]
  have hm : ({ m with m_keyframeList := m.m_keyframeList } : KeyframeModel) = m := rfl
  have hd : deleteKeyframe_lambda env pos false m =
      some (true, { m with m_keyframeList := KeyframeList.erase m.m_keyframeList pos }) := by
    simp [deleteKeyframe_lambda, Q_ASSERT, hk, h0]
  refine ⟨⟨true, (UPDATE_UNDO_REDO (deleteKeyframe_lambda env pos false)
      (addKeyframe_lambda env pos old.1 old.2 false) undo redo).1,
    (UPDATE_UNDO_REDO (deleteKeyframe_lambda env pos false)
      (addKeyframe_lambda env pos old.1 old.2 false) undo redo).2,
    { m with m_keyframeList := KeyframeList.erase m.m_keyframeList pos }⟩, ?_, rfl, rfl, rfl⟩
  simp [removeKeyframe_Fun, Q_ASSERT, hk, subscript_of_at? env _ _ _ h, runLocal, hd]

/-- The removal loop of `removeAllKeyframes` and `removeNextKeyframes` emits
nothing. -/
theorem removeEach_quiet (env : Env) (ps : List GenTime) (u r : Fun) (m : KeyframeModel)
    (hnd : ps.Nodup) (hmem : ∀ p ∈ ps, hasKey m.m_keyframeList p = true)
    (h0 : ∀ p ∈ ps, p ≠ 0) :
    ∃ s, removeEach env ps u r m = some s ∧ s.res = true ∧ s.model.emitted = m.emitted := by
  induction ps generalizing u r m with
  | nil => exact ⟨_, rfl, rfl, rfl⟩
  | cons p ps ih =>
    rw [List.nodup_cons] at hnd
    obtain ⟨old, hold⟩ := Option.isSome_iff_exists.1 (hmem p (List.mem_cons_self _ _))
    obtain ⟨s1, e1, e2, e3, e4⟩ :=
      removeKeyframe_Fun_quiet env p u r m old hold (h0 p (List.mem_cons_self _ _))
    have hmem2 : ∀ q ∈ ps, hasKey s1.model.m_keyframeList q = true := by
      intro q hq
      have hqp : q ≠ p := fun x => hnd.1 (x ▸ hq)
      have := hmem q (List.mem_cons_of_mem _ hq)
      simpa [hasKey, e3, at?_erase_of_ne _ _ _ hqp] using this
    obtain ⟨s2, f1, f2, f3⟩ :=
      ih s1.undo s1.redo s1.model hnd.2 hmem2 (fun q hq => h0 q (List.mem_cons_of_mem _ hq))
    refine ⟨s2, ?_, f2, f3.trans e4⟩
    simp [removeEach, e1, e2, f1]

/-- What `removeNextKeyframes` announces, for every store in which no keyframe
after `pos` is at time zero: one notification pair, whose rows are the number
of keyframes up to `pos` and the number of keyframes after `pos`. -/
theorem removeNextKeyframes_emits (env : Env) (pos : GenTime) (undo redo : Fun)
    (m : KeyframeModel) (hwf : WF m.m_keyframeList)
    (h0 : ∀ e ∈ m.m_keyframeList, pos < e.1 → e.1 ≠ 0) :
    ∃ s, removeNextKeyframes env pos undo redo m = some s ∧ s.res = true ∧
      s.model.emitted = m.emitted ++
        [Signal.beginRemoveRows
          ((m.m_keyframeList.filter (fun e => decide (e.1 ≤ pos))).length : Int)
          ((m.m_keyframeList.filter (fun e => decide (¬ e.1 ≤ pos))).length : Int),
         Signal.endRemoveRows] := by
  have hsub : ((m.m_keyframeList.filter (fun e => decide (¬ e.1 ≤ pos))).map Prod.fst).Sublist
      (keys m.m_keyframeList) := List.Sublist.map _ (List.filter_sublist _)
  have hnd := List.Nodup.sublist hsub (WF_nodup_keys _ hwf)
  have hmem : ∀ p ∈ (m.m_keyframeList.filter (fun e => decide (¬ e.1 ≤ pos))).map Prod.fst,
      hasKey (m.emit (Signal.beginRemoveRows
        ((m.m_keyframeList.filter (fun e => decide (e.1 ≤ pos))).length : Int)
        (((m.m_keyframeList.filter (fun e => decide (¬ e.1 ≤ pos))).map Prod.fst).length :
          Int))).m_keyframeList p = true := by
    intro p hp
    rw [hasKey_iff_mem_keys]
    exact hsub.subset hp
  have hz : ∀ p ∈ (m.m_keyframeList.filter (fun e => decide (¬ e.1 ≤ pos))).map Prod.fst,
      p ≠ 0 := by
    intro p hp
    obtain ⟨e, he, rfl⟩ := List.mem_map.1 hp
    have he' : e ∈ m.m_keyframeList ∧ ¬ e.1 ≤ pos := by simpa [List.mem_filter] using he
    exact h0 e he'.1 (not_le.1 he'.2)
  obtain ⟨s, e1, e2, e3⟩ := removeEach_quiet env _
    (PUSH_LAMBDA (fun x => some (true, x.emit (Signal.beginInsertRows
      ((m.m_keyframeList.filter (fun e => decide (e.1 ≤ pos))).length : Int)
      (((m.m_keyframeList.filter (fun e => decide (¬ e.1 ≤ pos))).map Prod.fst).length :
        Int)))) Fun.id)
    (PUSH_LAMBDA (fun x => some (true, x.emit (Signal.beginRemoveRows
      ((m.m_keyframeList.filter (fun e => decide (e.1 ≤ pos))).length : Int)
      (((m.m_keyframeList.filter (fun e => decide (¬ e.1 ≤ pos))).map Prod.fst).length :
        Int)))) Fun.id)
    _ hnd hmem hz
  simp only [removeNextKeyframes, removeBatch, KeyframeModel.emit] at e1 e3 ⊢
  simp only [Option.bind_eq_bind, Option.some_bind, e1, e2, if_true]
  refine ⟨_, rfl, rfl, ?_⟩
  simp [e3]

/-- The sample number `oneHalf` is one half. -/
theorem oneHalf_eq : oneHalf = 1 / 2 := by
  rw [oneHalf]
  norm_num [Rat.mk'_eq_divInt, Rat.divInt_eq_div]


end Kdenlive
